import Mathlib

/-!
Verification development for the Alumina boot compiler core.

This file gives a shallow embedding (in Lean 4) of the parts of the
compiler that the specification talks about:

* the typed IR data model (`ir/mod.rs`): types, zero-sizedness, `gcd`;
* the C emitter for functions (`codegen/functions.rs`): signatures,
  call-site argument elision, function bodies;
* the first name-resolution pass (`name_resolution/pass1.rs`): entry-point
  candidate detection;
* the macro expander (`ast/macros.rs`): argument binding, hygiene
  (alpha-renaming of let declarations), span stamping, builtin macros.

Machine integers (`usize` ids, counters) are modelled as `Nat`: none of the
modelled code paths rely on overflow.  Arena-interned pointers are modelled
by structural values (interning guarantees structural equality coincides
with pointer equality; item cells compare by their unique id, which we keep
as a field).  Fallible code returns `Except`/`Option`; Rust panics
(`unwrap`, out-of-bounds indexing, `unreachable!`) are modelled by a
distinguished error value.
-/

set_option maxHeartbeats 1000000

namespace Alumina

/-- Builtin types, from `ast/mod.rs` (`BuiltinType`), shared by AST and IR. -/
inductive BuiltinType where
  | void | never | bool
  | u8 | u16 | u32 | u64 | u128 | usize
  | isize | i8 | i16 | i32 | i64 | i128
  | f32 | f64
  deriving DecidableEq, Repr

namespace IR

mutual

/-- IR item contents as they can appear behind a `Ty::Item` cell, from
`ir/mod.rs` (`IRItem`).  The cell's unique id is kept alongside the contents
in `Ty.item` (cells compare by id; ids are unique, so structural equality of
`(id, contents)` matches the source's pointer/id equality).  `Protocol`,
`Static` and `Const` items are omitted: `Ty::is_zero_sized` marks them
`unreachable!()`, i.e. they never occur as types. -/
inductive IRItem where
  | structLike (fields : FieldList) (isUnion : Bool) : IRItem
  | alias (inner : Ty) : IRItem
  | closure (fields : FieldList) : IRItem
  | function : IRItem
  | enum (underlyingType : Ty) : IRItem

/-- IR types, from `ir/mod.rs` (`Ty`). -/
inductive Ty where
  | item (id : Nat) (contents : IRItem) : Ty
  | builtin (b : BuiltinType) : Ty
  | pointer (inner : Ty) (isConst : Bool) : Ty
  | array (inner : Ty) (size : Nat) : Ty
  | tuple (elems : TyList) : Ty
  | functionPointer (args : TyList) (ret : Ty) : Ty

/-- A `&[TyP]` slice inside a type (tuple elements, fn-pointer arguments).
A bespoke list type so that decidable equality can be derived for the
mutual family. -/
inductive TyList where
  | nil : TyList
  | cons (head : Ty) (tail : TyList) : TyList

/-- A `&[Field]` slice (`Field { id, ty }`) inside a struct-like item. -/
inductive FieldList where
  | nil : FieldList
  | cons (id : Nat) (ty : Ty) (tail : FieldList) : FieldList

end

deriving instance DecidableEq for IRItem, Ty, TyList, FieldList

/-- `Ty::void()`: the empty tuple. -/
def Ty.void : Ty := .tuple .nil

/-- `Ty::is_never`. -/
def Ty.is_never : Ty → Bool
  | .builtin .never => true
  | _ => false

mutual

/-- `Ty::is_zero_sized`, from `ir/mod.rs`. -/
def Ty.is_zero_sized : Ty → Bool
  | .builtin .never => true
  | .builtin _ => false
  | .item _ contents => IRItem.is_zero_sized contents
  | .pointer _ _ => false
  | .array inner size => size == 0 || inner.is_zero_sized
  | .tuple elems => zstAll elems
  | .functionPointer _ _ => false

/-- The `Ty::Item` arm of `is_zero_sized`, by item kind. -/
def IRItem.is_zero_sized : IRItem → Bool
  | .alias inner => inner.is_zero_sized
  | .structLike fields _ => zstAllFields fields
  | .closure fields => zstAllFields fields
  | .function => true
  | .enum u => u.is_zero_sized

/-- `iter().all(|e| e.is_zero_sized())` over tuple elements. -/
def zstAll : TyList → Bool
  | .nil => true
  | .cons t ts => t.is_zero_sized && zstAll ts

/-- `fields.iter().all(|f| f.ty.is_zero_sized())` over struct/closure fields. -/
def zstAllFields : FieldList → Bool
  | .nil => true
  | .cons _ ty fs => ty.is_zero_sized && zstAllFields fs

end

/-- `Ty::gcd`, from `ir/mod.rs`.  The source is a guarded `match`; the arms
are translated in order, with fall-through made explicit:
arm 1 `_ if lhs == rhs`; arms 2-3 the pointer arms (a failed guard falls
through to the later arms, which for a pointer/pointer pair always ends at
the final `void` arm, because a pointer is never the `never` builtin);
arm 4 `(_, Never) => lhs`; arm 5 `(Never, _) => rhs`; arm 6 `void`. -/
def Ty.gcd (lhs rhs : Ty) : Ty :=
  if lhs = rhs then lhs
  else
    match lhs, rhs with
    | .pointer a false, .pointer b _ => if a = b then .pointer a false else Ty.void
    | .pointer a true, .pointer b false => if a = b then .pointer a false else Ty.void
    | .pointer _ _, .pointer _ _ => Ty.void
    | _, _ =>
      if rhs.is_never then lhs
      else if lhs.is_never then rhs
      else Ty.void

/-- The specification's characterization of zero-sizedness, one unfolding
step, exactly the cases listed by the spec sentence: `never`, a tuple all of
whose elements are zero-sized, an array all of whose elements are
zero-sized, a struct/union all of whose fields are zero-sized, a function
item, an enum whose underlying type is zero-sized; everything else
(non-never builtins, pointers, function pointers, and any unlisted item
kind) is not zero-sized.  Subcomponents are judged by the program's own
notion. -/
def zstSpecCases : Ty → Bool
  | .builtin .never => true
  | .tuple elems => zstAll elems
  | .array inner size => size == 0 || inner.is_zero_sized
  | .item _ (.structLike fields _) => zstAllFields fields
  | .item _ .function => true
  | .item _ (.enum u) => u.is_zero_sized
  | _ => false

/-- The amended characterization: the spec's list plus the two item kinds
the source also treats as (conditionally) zero-sized but the spec sentence
does not mention: an alias of a zero-sized type, and a closure all of whose
captured fields are zero-sized. -/
def zstSpecCasesAmended : Ty → Bool
  | .builtin .never => true
  | .tuple elems => zstAll elems
  | .array inner size => size == 0 || inner.is_zero_sized
  | .item _ (.structLike fields _) => zstAllFields fields
  | .item _ (.alias inner) => inner.is_zero_sized
  | .item _ (.closure fields) => zstAllFields fields
  | .item _ .function => true
  | .item _ (.enum u) => u.is_zero_sized
  | _ => false

end IR

/-- Source spans, from the spec §3.7: (file id, byte offset, line, column).
The diagnostic context addresses files by small integer ids. -/
structure Span where
  file : Nat
  offset : Nat
  line : Nat
  column : Nat
  deriving DecidableEq

/-- Binary operators, from `ast/mod.rs` (`BinOp`), shared by AST and IR. -/
inductive BinOp where
  | and | or | bitAnd | bitOr | bitXor
  | eq | neq | lt | leq | gt | geq
  | lshift | rshift
  | plus | minus | mul | div | mod
  deriving DecidableEq

/-- Unary operators, from `ast/mod.rs` (`UnOp`). -/
inductive UnOp where
  | neg | not | bitNot
  deriving DecidableEq

/-- Item attributes, from `ast` (`Attribute`), reconstructed from the spec
§4.5 and their uses in `pass1.rs` / `codegen/functions.rs` (the defining
module is not part of the excerpt).  `Export` is named `exportAttr` because
`export` is a Lean keyword. -/
inductive Attribute where
  | inline | alwaysInline | noInline | inlineDuringMono
  | cold | exportAttr | linkName (name : String) | threadLocal | packed
  | align (n : Nat) | transparent | mustUse | builtin | test | testMain
  | staticConstructor | noReturn
  deriving DecidableEq

/-- Error kinds, from `common.rs` (`CodeErrorKind`), reconstructed from
their uses in the excerpt and the spec §7 (the defining module is not part
of the excerpt); only the kinds the modelled code paths can produce are
included. -/
inductive CodeErrorKind where
  | paramCountMismatch (expected actual : Nat)
  | notEnoughMacroArguments (expected : Nat)
  | constantStringExpected
  | cannotEtCeteraHere
  | etCeteraInEtCetera
  | multipleEtCeteras
  | notAMacro
  | recursiveMacroCall
  | macroExpected
  | unknownBuiltinMacro (name : String)
  | multipleMainFunctions
  | cannotReadFile (name : String)
  | noSpanInformation
  | invalidFormatString
  deriving DecidableEq

namespace IR

/-- `ir/mod.rs` `Parameter { id, ty }`. -/
structure Parameter where
  id : Nat
  ty : Ty

/-- `ir/mod.rs` `LocalDef { id, typ }`. -/
structure LocalDef where
  id : Nat
  typ : Ty

/-- `ir/const_eval.rs` `Value`, reconstructed from its uses in
`codegen/functions.rs` (`write_const_val` and the `Literal` branch); the
defining module is not part of the excerpt.  Numeric payloads are `Nat`/
`Int`; float values are carried as source strings, as in the source. -/
inductive Value where
  | bool (b : Bool)
  | u8 (n : Nat) | u16 (n : Nat) | u32 (n : Nat) | u64 (n : Nat) | u128 (n : Nat)
  | i8 (n : Int) | i16 (n : Int) | i32 (n : Int) | i64 (n : Int) | i128 (n : Int)
  | usize (n : Nat) | isize (n : Int)
  | f32 (s : String) | f64 (s : String)
  | str (bytes : List Nat) (offset : Nat)
  | functionPointer (itemId : Nat)
  | uninitialized

/-- `intrinsics.rs` `IntrinsicValueKind`, reconstructed from its uses in
`codegen/functions.rs` and `ir/mod.rs` (the defining module is not part of
the excerpt).  The const-evaluation-only variants carry opaque payloads;
they never reach emission. -/
inductive IntrinsicValueKind where
  | sizeOfLike (name : String) (typ : Ty)
  | functionLike (name : String)
  | constLike (name : String)
  | asmIntrinsic (code : String)
  | uninitialized
  | dangling (inner : Ty)
  | inConstContext
  | constPanic (payload : Nat)
  | constAlloc (a b : Nat)
  | constWrite (a b : Nat)
  | constFree (payload : Nat)

/-- `ir/mod.rs` `ValueType`. -/
inductive ValueType where
  | lvalue
  | rvalue
  deriving DecidableEq

mutual

/-- `ir/mod.rs` `ExprKind`.  Item pointers (`Fn`, `Static`, `Const`) are
represented by the item cell's id, the only part the emitter uses.
`Local`/`If`/`Return` are renamed (`localVar`/`ifExpr`/`retExpr`) to avoid
Lean keywords. -/
inductive ExprKind where
  | block (stmts : List Statement) (ret : Expr)
  | binary (op : BinOp) (lhs rhs : Expr)
  | assignOp (op : BinOp) (lhs rhs : Expr)
  | call (callee : Expr) (args : List Expr)
  | fnItem (itemId : Nat)
  | ref (inner : Expr)
  | deref (inner : Expr)
  | retExpr (inner : Expr)
  | goto (label : Nat)
  | unary (op : UnOp) (inner : Expr)
  | assign (lhs rhs : Expr)
  | index (lhs rhs : Expr)
  | localVar (id : Nat)
  | staticVar (itemId : Nat)
  | constVar (itemId : Nat)
  | literal (v : Value)
  | field (inner : Expr) (fieldId : Nat)
  | tupleIndex (inner : Expr) (idx : Nat)
  | ifExpr (cond thenE elseE : Expr) (constCond : Option Bool)
  | cast (inner : Expr)
  | intrinsic (kind : IntrinsicValueKind)
  | array (elems : List Expr)
  | tuple (inits : List (Nat × Expr))
  | structLit (inits : List (Nat × Expr))
  | unreachable
  | void

/-- `ir/mod.rs` `Expr { value_type, is_const, kind, span, ty }`. -/
inductive Expr where
  | mk (value_type : ValueType) (is_const : Bool) (kind : ExprKind)
      (span : Option Span) (ty : Ty)

/-- `ir/mod.rs` `Statement`. -/
inductive Statement where
  | expression (e : Expr)
  | label (id : Nat)

end

def Expr.kind : Expr → ExprKind
  | .mk _ _ k _ _ => k

def Expr.ty : Expr → Ty
  | .mk _ _ _ _ t => t

def Expr.span : Expr → Option Span
  | .mk _ _ _ sp _ => sp

/-- `Expr::is_void` (the *kind* is `Void`, not the type). -/
def Expr.is_void (e : Expr) : Bool :=
  match e.kind with
  | .void => true
  | _ => false

/-- `Expr::is_unreachable`. -/
def Expr.is_unreachable (e : Expr) : Bool :=
  match e.kind with
  | .unreachable => true
  | _ => false

/-- `ir/mod.rs` `FuncBody`. -/
structure FuncBody where
  local_defs : List LocalDef
  statements : List Statement
  raw_body : Option Expr

/-- `ir/mod.rs` `Function`.  `body` is a write-once cell in the source;
`none` models the unset cell (an extern declaration). -/
structure Function where
  name : Option String
  attributes : List Attribute
  args : List Parameter
  return_type : Ty
  body : Option FuncBody
  varargs : Bool

end IR

namespace Codegen

open IR

/-- The parts of `CodegenCtx`/`GlobalCtx` the function writer reads: the
`debug` flag, and the layout oracle used by the `Dangling` intrinsic
(`ir/layout.rs` `Layouter`, not part of the excerpt, modelled as an
abstract alignment function). -/
structure CodegenCtx where
  debug : Bool
  layoutAlign : Ty → Nat

/-- Which GCC attribute chain `write_function_signature` picks (the
`if`/`else if` chain over the item's attributes). -/
inductive FnAttrKind where
  | alwaysInlineAttr | noInlineAttr | inlineAttr | constructorAttr | noneAttr
  deriving DecidableEq

/-- The structure of one emitted C function signature: everything
`write_function_signature` writes, minus raw text concatenation.  `params`
is the list of parameters that actually appear (zero-sized ones omitted);
`returnType` is the C return type (the void type for zero-sized returns). -/
structure CSignature where
  cold : Bool
  noreturn : Bool
  fnAttr : FnAttrKind
  isStatic : Bool
  returnType : Ty
  params : List Parameter
  varargs : Bool
  asmLinkName : Option String

/-- `Attribute::LinkName` extraction (`filter_map … .next()`). -/
def linkNameOf (attrs : List Attribute) : Option String :=
  (attrs.filterMap fun a =>
    match a with
    | .linkName s => some s
    | _ => none).head?

/-- `codegen/functions.rs` `write_function_signature`.  The attribute
chain, `_Noreturn`, the `static` decision (`is_static || is_inline`), the
zero-sized return type replacement and the zero-sized parameter filter are
transcribed from the source; text formatting is abstracted into the
`CSignature` record. -/
def write_function_signature (item : Function) (is_static is_body : Bool) :
    CSignature :=
  let pick : FnAttrKind × Bool :=
    if item.attributes.contains .alwaysInline then (.alwaysInlineAttr, true)
    else if item.attributes.contains .noInline then (.noInlineAttr, false)
    else if item.attributes.contains .inline then (.inlineAttr, true)
    else if item.attributes.contains .staticConstructor then
      (.constructorAttr, false)
    else (.noneAttr, false)
  { cold := item.attributes.contains .cold
    noreturn := item.return_type.is_never
    fnAttr := pick.1
    isStatic := is_static || pick.2
    returnType :=
      if item.return_type.is_zero_sized then Ty.void else item.return_type
    params := item.args.filter fun arg => !arg.ty.is_zero_sized
    varargs := item.varargs
    asmLinkName := if is_body then none else linkNameOf item.attributes }

mutual

/-- The structure of one emitted C expression: one constructor per shape
`FunctionWriter::write_expr` can write.  Emitted call arguments carry the
IR type of the argument they came from, recording the zero-sized filter's
input.  `#line` directive interleaving (debug mode) is text-level
bookkeeping and is not part of the expression structure. -/
inductive CExpr where
  | binary (ty : Ty) (op : BinOp) (lhs rhs : CExpr)
  | assignOp (op : BinOp) (lhs rhs : CExpr)
  | call (callee : CExpr) (args : List (Ty × CExpr))
  | name (id : Nat)
  | addrOf (inner : CExpr)
  | deref (inner : CExpr)
  | unary (ty : Ty) (op : UnOp) (inner : CExpr)
  | assign (lhs rhs : CExpr)
  | index (lhs : CExpr) (isArrayData : Bool) (rhs : CExpr)
  | stmtExpr (stmts : List CStmt) (tail : Option CExpr)
  | bareBlock (stmts : List CStmt) (tail : Option CExpr)
  | strLit (bytes : List Nat)
  | fnPtrCast (ty : Ty) (itemId : Nat)
  | constVal (ty : Ty) (v : Value)
  | fieldAccess (inner : CExpr) (fieldId : Nat)
  | tupleAccess (inner : CExpr) (idx : Nat)
  | ifStmt (cond thenPart : CExpr) (elsePart : Option CExpr)
  | ternary (cond thenPart elsePart : CExpr)
  | castTo (ty : Ty) (inner : CExpr)
  | gotoStmt (label : Nat)
  | returnStmt (inner : CExpr)
  | unreachable
  | sizeOfLike (name : String) (ty : Ty)
  | rawName (name : String)
  | asmVolatile (code : String)
  | uninitValue (ty : Ty)
  | danglingPtr (ty : Ty) (align : Nat)
  | inConstContext (ty : Ty)
  | arrayLit (ty : Ty) (castPrefix : Bool) (elems : List CExpr)
  | tupleLit (ty : Ty) (castPrefix : Bool) (inits : List (Nat × CExpr))
  | structInitLit (ty : Ty) (castPrefix : Bool) (inits : List (Nat × CExpr))
  | voidExpr

/-- One emitted C body item (`write_stmt` / `write_local_def` output). -/
inductive CStmt where
  | exprStmt (e : CExpr)
  | labelDecl (id : Nat)
  | localDecl (ty : Ty) (id : Nat)

end

mutual

/-- `FunctionWriter::write_expr`, transcribed branch by branch.  `none`
models a panic (`unreachable!()` on const-evaluation-only intrinsics) or
fuel exhaustion; the fuel argument makes the mutual recursion structural
and is decremented on every recursive call.  `inConstInit` is the writer's
`in_const_init` flag. -/
def writeExpr (cg : CodegenCtx) (inConstInit : Bool) :
    Nat → Expr → Bool → Option CExpr
  | 0, _, _ => none
  | fuel + 1, expr, bare_block =>
    match expr.kind with
    | .binary op lhs rhs => do
      let l ← writeExpr cg inConstInit fuel lhs false
      let r ← writeExpr cg inConstInit fuel rhs false
      some (.binary expr.ty op l r)
    | .assignOp op lhs rhs => do
      let l ← writeExpr cg inConstInit fuel lhs false
      let r ← writeExpr cg inConstInit fuel rhs false
      some (.assignOp op l r)
    | .call callee args => do
      let c ← writeExpr cg inConstInit fuel callee false
      let emitted ←
        writeCallArgs cg inConstInit fuel
          (args.filter fun arg => !arg.ty.is_zero_sized)
      some (.call c emitted)
    | .fnItem itemId => some (.name itemId)
    | .ref inner => do
      let i ← writeExpr cg inConstInit fuel inner false
      some (.addrOf i)
    | .deref inner => do
      let i ← writeExpr cg inConstInit fuel inner false
      some (.deref i)
    | .unary op inner => do
      let i ← writeExpr cg inConstInit fuel inner false
      some (.unary expr.ty op i)
    | .assign lhs rhs => do
      let l ← writeExpr cg inConstInit fuel lhs false
      let r ← writeExpr cg inConstInit fuel rhs false
      some (.assign l r)
    | .index lhs rhs => do
      let l ← writeExpr cg inConstInit fuel lhs false
      let isArr :=
        match lhs.ty with
        | .array _ _ => true
        | _ => false
      let r ← writeExpr cg inConstInit fuel rhs false
      some (.index l isArr r)
    | .localVar id => some (.name id)
    | .staticVar itemId => some (.name itemId)
    | .constVar itemId => some (.name itemId)
    | .block stmts ret =>
      if bare_block then do
        let ss ← writeStmtList cg inConstInit fuel stmts
        if !ret.is_void then do
          let tail ← writeExpr cg inConstInit fuel ret true
          some (.bareBlock ss (some tail))
        else
          some (.bareBlock ss none)
      else do
        let ss ← writeStmtList cg inConstInit fuel stmts
        if !(ret.is_void && ret.is_unreachable) then do
          let tail ← writeExpr cg inConstInit fuel ret false
          some (.stmtExpr ss (some tail))
        else
          some (.stmtExpr ss none)
    | .literal v =>
      match v with
      | .str bytes offset => some (.strLit (bytes.drop offset))
      | .functionPointer itemId => some (.fnPtrCast expr.ty itemId)
      | _ => some (.constVal expr.ty v)
    | .field inner fieldId => do
      let i ← writeExpr cg inConstInit fuel inner false
      some (.fieldAccess i fieldId)
    | .tupleIndex inner idx => do
      let i ← writeExpr cg inConstInit fuel inner false
      some (.tupleAccess i idx)
    | .ifExpr cond thenE elseE _ =>
      if expr.ty.is_zero_sized then do
        let c ← writeExpr cg inConstInit fuel cond false
        let t ← writeExpr cg inConstInit fuel thenE true
        if elseE.is_void || elseE.is_unreachable then
          some (.ifStmt c t none)
        else do
          let e ← writeExpr cg inConstInit fuel elseE true
          some (.ifStmt c t (some e))
      else do
        let c ← writeExpr cg inConstInit fuel cond false
        let t ← writeExpr cg inConstInit fuel thenE false
        let e ← writeExpr cg inConstInit fuel elseE false
        some (.ternary c t e)
    | .cast inner => do
      let i ← writeExpr cg inConstInit fuel inner false
      some (.castTo expr.ty i)
    | .goto label => some (.gotoStmt label)
    | .retExpr inner => do
      let i ← writeExpr cg inConstInit fuel inner false
      some (.returnStmt i)
    | .unreachable => some .unreachable
    | .intrinsic kind =>
      match kind with
      | .sizeOfLike n typ => some (.sizeOfLike n typ)
      | .functionLike n => some (.rawName n)
      | .constLike n => some (.rawName n)
      | .asmIntrinsic code => some (.asmVolatile code)
      | .uninitialized => some (.uninitValue expr.ty)
      | .dangling inner => some (.danglingPtr expr.ty (cg.layoutAlign inner))
      | .inConstContext => some (.inConstContext expr.ty)
      | .constPanic _ | .constAlloc _ _ | .constWrite _ _ | .constFree _ =>
        none
    | .array elems => do
      let es ← writeExprList cg inConstInit fuel elems
      some (.arrayLit expr.ty (!inConstInit) es)
    | .tuple inits => do
      let is ←
        writeInitList cg inConstInit fuel
          (inits.filter fun init => !init.2.ty.is_zero_sized)
      some (.tupleLit expr.ty (!inConstInit) is)
    | .structLit inits => do
      let is ←
        writeInitList cg inConstInit fuel
          (inits.filter fun init => !init.2.ty.is_zero_sized)
      some (.structInitLit expr.ty (!inConstInit) is)
    | .void => some .voidExpr

/-- The loop in the `Call` branch: each (already zero-sized-filtered)
argument is written and tagged with its IR type. -/
def writeCallArgs (cg : CodegenCtx) (inConstInit : Bool) :
    Nat → List Expr → Option (List (Ty × CExpr))
  | 0, _ => none
  | _ + 1, [] => some []
  | fuel + 1, arg :: rest => do
    let c ← writeExpr cg inConstInit fuel arg false
    let cs ← writeCallArgs cg inConstInit fuel rest
    some ((arg.ty, c) :: cs)

/-- The element loop of the `Array` branch. -/
def writeExprList (cg : CodegenCtx) (inConstInit : Bool) :
    Nat → List Expr → Option (List CExpr)
  | 0, _ => none
  | _ + 1, [] => some []
  | fuel + 1, e :: rest => do
    let c ← writeExpr cg inConstInit fuel e false
    let cs ← writeExprList cg inConstInit fuel rest
    some (c :: cs)

/-- The initializer loops of the `Tuple`/`Struct` branches (zero-sized
initializers already filtered out by the caller). -/
def writeInitList (cg : CodegenCtx) (inConstInit : Bool) :
    Nat → List (Nat × Expr) → Option (List (Nat × CExpr))
  | 0, _ => none
  | _ + 1, [] => some []
  | fuel + 1, init :: rest => do
    let c ← writeExpr cg inConstInit fuel init.2 false
    let cs ← writeInitList cg inConstInit fuel rest
    some ((init.1, c) :: cs)

/-- `FunctionWriter::write_stmt`: a statement expands to zero or one body
items. -/
def writeStmt (cg : CodegenCtx) (inConstInit : Bool) :
    Nat → Statement → Option (List CStmt)
  | 0, _ => none
  | fuel + 1, .expression e =>
    if !(e.is_void && e.is_unreachable) then do
      let c ← writeExpr cg inConstInit fuel e false
      some [.exprStmt c]
    else
      some []
  | _ + 1, .label id => some [.labelDecl id]

/-- The statement loop of `write_function_body` / the `Block` branch. -/
def writeStmtList (cg : CodegenCtx) (inConstInit : Bool) :
    Nat → List Statement → Option (List CStmt)
  | 0, _ => none
  | _ + 1, [] => some []
  | fuel + 1, s :: rest => do
    let cs ← writeStmt cg inConstInit fuel s
    let rest' ← writeStmtList cg inConstInit fuel rest
    some (cs ++ rest')

end

/-- The synthetic statement `write_function_body` emits for functions with
a `never`-typed parameter. -/
def unreachableNeverStmt : Statement :=
  .expression (.mk .rvalue false .unreachable none (.builtin .never))

/-- `FunctionWriter::write_function_body`.  Result: `none` for a panic /
fuel exhaustion; `some none` when nothing is emitted (no body); otherwise
the emitted signature (with `is_static = !should_export && !debug`) and
the emitted body items. -/
def write_function_body (cg : CodegenCtx) (fuel : Nat) (item : Function) :
    Option (Option (CSignature × List CStmt)) :=
  let should_export := item.attributes.contains .exportAttr
  match item.body with
  | none => some none
  | some body =>
    let sig := write_function_signature item (!should_export && !cg.debug) true
    if item.args.any fun a => a.ty.is_never then do
      let ss ← writeStmt cg false fuel unreachableNeverStmt
      some (some (sig, ss))
    else do
      let locals := body.local_defs.map fun d => CStmt.localDecl d.typ d.id
      let ss ← writeStmtList cg false fuel body.statements
      some (some (sig, locals ++ ss))

mutual

/-- No call node anywhere in an emitted C expression carries an argument
whose recorded IR type is zero-sized. -/
def noZstCallE : CExpr → Bool
  | .binary _ _ l r => noZstCallE l && noZstCallE r
  | .assignOp _ l r => noZstCallE l && noZstCallE r
  | .call callee args => noZstCallE callee && noZstCallArgs args
  | .name _ => true
  | .addrOf i => noZstCallE i
  | .deref i => noZstCallE i
  | .unary _ _ i => noZstCallE i
  | .assign l r => noZstCallE l && noZstCallE r
  | .index l _ r => noZstCallE l && noZstCallE r
  | .stmtExpr ss tail => noZstCallStmts ss && noZstCallOpt tail
  | .bareBlock ss tail => noZstCallStmts ss && noZstCallOpt tail
  | .strLit _ => true
  | .fnPtrCast _ _ => true
  | .constVal _ _ => true
  | .fieldAccess i _ => noZstCallE i
  | .tupleAccess i _ => noZstCallE i
  | .ifStmt c t e => noZstCallE c && noZstCallE t && noZstCallOpt e
  | .ternary c t e => noZstCallE c && noZstCallE t && noZstCallE e
  | .castTo _ i => noZstCallE i
  | .gotoStmt _ => true
  | .returnStmt i => noZstCallE i
  | .unreachable => true
  | .sizeOfLike _ _ => true
  | .rawName _ => true
  | .asmVolatile _ => true
  | .uninitValue _ => true
  | .danglingPtr _ _ => true
  | .inConstContext _ => true
  | .arrayLit _ _ es => noZstCallList es
  | .tupleLit _ _ is => noZstCallInits is
  | .structInitLit _ _ is => noZstCallInits is
  | .voidExpr => true

def noZstCallArgs : List (Ty × CExpr) → Bool
  | [] => true
  | (t, c) :: rest => !t.is_zero_sized && noZstCallE c && noZstCallArgs rest

def noZstCallOpt : Option CExpr → Bool
  | none => true
  | some c => noZstCallE c

def noZstCallList : List CExpr → Bool
  | [] => true
  | c :: rest => noZstCallE c && noZstCallList rest

def noZstCallInits : List (Nat × CExpr) → Bool
  | [] => true
  | (_, c) :: rest => noZstCallE c && noZstCallInits rest

def noZstCallStmt : CStmt → Bool
  | .exprStmt e => noZstCallE e
  | .labelDecl _ => true
  | .localDecl _ _ => true

def noZstCallStmts : List CStmt → Bool
  | [] => true
  | s :: rest => noZstCallStmt s && noZstCallStmts rest

end

end Codegen

namespace Pass1

/-- A scope path, `name_resolution/path.rs` `Path` (the path module is not
part of the excerpt): the list of module path segments, with structural
equality, as compared by `&self.scope.path() == path`. -/
abbrev Path := List String

/-- The entry-point-detection state of `FirstPassVisitor`
(`name_resolution/pass1.rs`): `main_module_path` (set by `with_main`),
whether the `test` cfg is set (`global_ctx.cfg("test").is_some()`), and the
current `main_candidate` (the item cell, by id). -/
structure FirstPassState where
  main_module_path : Option Path
  cfgTest : Bool
  main_candidate : Option Nat

/-- `matches!(a, Attribute::LinkName(..))`. -/
def isLinkName : Attribute → Bool
  | .linkName _ => true
  | _ => false

/-- The entry-point-detection slice of
`FirstPassVisitor::visit_function_definition` (`pass1.rs` lines 336-354).
Rust's short-circuiting `&&` chain ending in
`self.main_candidate.replace(item).is_some()` is transcribed as nested
conditionals: `replace` runs only when every earlier conjunct holds, and
the error fires only when a previous candidate existed. -/
def visit_function_definition (st : FirstPassState) (scopePath : Path)
    (name : String) (attributes : List Attribute) (item : Nat) :
    Except CodeErrorKind FirstPassState :=
  match st.main_module_path with
  | none => .ok st
  | some path =>
    if st.cfgTest then
      if attributes.contains .testMain then
        match st.main_candidate with
        | some _ => .error .multipleMainFunctions
        | none => .ok { st with main_candidate := some item }
      else .ok st
    else
      if scopePath = path then
        if name = "main" then
          if attributes.contains .exportAttr then .ok st
          else if attributes.any isLinkName then .ok st
          else
            match st.main_candidate with
            | some _ => .error .multipleMainFunctions
            | none => .ok { st with main_candidate := some item }
        else .ok st
      else .ok st

end Pass1

namespace Ast

/-- AST node ids (`AstId`), minted by the AST context's counter. -/
abbrev AstId := Nat

/-- Literals, from the boot AST (`ast::Lit`), reconstructed from their uses
in `ast/macros.rs` (the defining module is not part of the excerpt).
`Str` carries `&[u8]` in the source; it is modelled as a Lean `String`
(and `std::str::from_utf8` on it as the identity). -/
inductive Lit where
  | str (s : String)
  | int (signed : Bool) (value : Nat) (kind : Option BuiltinType)
  | float (s : String)
  | bool (b : Bool)
  | null

/-- `BuiltinMacroKind`, from `ast/macros.rs` (`MacroMaker::make`). -/
inductive BuiltinMacroKind where
  | env | includeBytes | concat | line | column | file
  | formatArgs | bind | reduce | stringify
  deriving DecidableEq

/-- `MacroParameter { id, et_cetera, span }`. -/
structure MacroParameter where
  id : AstId
  et_cetera : Bool
  span : Option Span

mutual

/-- Boot-AST types (`ast::Ty`), reconstructed from `MacroExpander::
visit_typ` in `ast/macros.rs` (the defining module is not part of the
excerpt).  Item references are by item-cell id.  `When` is renamed
`whenTy`. -/
inductive Ty where
  | placeholder (id : AstId)
  | item (itemId : Nat)
  | builtin (b : BuiltinType)
  | pointer (inner : Ty) (isConst : Bool)
  | slice (inner : Ty) (isConst : Bool)
  | dyn (protos : List Ty) (isConst : Bool)
  | typeOf (expr : Expr)
  | array (inner : Ty) (len : Expr)
  | tuple (elems : List Ty)
  | whenTy (cond : Expr) (thenT elseT : Ty)
  | functionPointer (args : List Ty) (ret : Ty)
  | functionProtocol (args : List Ty) (ret : Ty)
  | generic (itemId : Nat) (args : List Ty)
  | defered (typ : Ty) (name : String)

/-- `ast::FnKind`, from its use in the `Fn` branch of `visit_expr`.  The
`Closure` payload is never inspected by the expander and is opaque. -/
inductive FnKind where
  | normal (itemId : Nat)
  | closure (payload : Nat)
  | defered (typ : Ty) (name : String)

/-- `ast::FieldInitializer { name, value, span }`. -/
inductive FieldInitializer where
  | mk (name : String) (value : Expr) (span : Option Span)

/-- Boot-AST expression kinds (`ast::ExprKind`), reconstructed from
`MacroExpander::visit_expr` (the defining module is not part of the
excerpt).  Keyword-clashing variants are renamed (`localVar`, `breakExpr`,
`returnExpr`, `deferExpr`, `ifExpr`, `continueExpr`, `fnRef`, `macroRef`);
payloads never inspected by the expander (`closure`, `boundParam`,
`enumValue` ids) are opaque numbers. -/
inductive ExprKind where
  | call (callee : Expr) (args : List Expr)
  | tuple (args : List Expr)
  | array (args : List Expr)
  | macroInvocation (inner : Expr) (args : List Expr)
  | localVar (id : AstId)
  | etCetera (inner : Expr)
  | block (stmts : List Statement) (ret : Expr)
  | binary (op : BinOp) (lhs rhs : Expr)
  | ref (inner : Expr)
  | deref (inner : Expr)
  | unary (op : UnOp) (inner : Expr)
  | assign (lhs rhs : Expr)
  | assignOp (op : BinOp) (lhs rhs : Expr)
  | loop (inner : Expr)
  | breakExpr (inner : Option Expr)
  | returnExpr (inner : Option Expr)
  | deferExpr (inner : Expr)
  | field (inner : Expr) (name : String) (assocFn : Option Nat)
  | structLit (ty : Ty) (inits : List FieldInitializer)
  | tupleIndex (inner : Expr) (idx : Nat)
  | index (inner idx : Expr)
  | range (lower upper : Option Expr) (inclusive : Bool)
  | ifExpr (cond thenE elseE : Expr)
  | staticIf (cond thenE elseE : Expr)
  | typeCheck (value : Expr) (ty : Ty)
  | cast (inner : Expr) (ty : Ty)
  | fnRef (kind : FnKind) (genericArgs : Option (List Ty))
  | defered (typ : Ty) (name : String)
  | staticRef (itemId : Nat) (genericArgs : Option (List Ty))
  | constRef (itemId : Nat) (genericArgs : Option (List Ty))
  | continueExpr
  | enumValue (itemId : Nat) (memberId : AstId)
  | macroRef (itemId : Nat) (boundArgs : List Expr)
  | lit (l : Lit)
  | boundParam (a b c : Nat)
  | void

/-- `ast::Expr { kind, span }`. -/
inductive Expr where
  | mk (kind : ExprKind) (span : Option Span)

/-- `ast::Statement { kind, span }`. -/
inductive Statement where
  | mk (kind : StatementKind) (span : Option Span)

/-- `ast::StatementKind`. -/
inductive StatementKind where
  | expression (expr : Expr)
  | letDeclaration (decl : LetDeclaration)

/-- `ast::LetDeclaration { id, typ, value }`. -/
inductive LetDeclaration where
  | mk (id : AstId) (typ : Option Ty) (value : Option Expr)

end

def Expr.kind : Expr → ExprKind
  | .mk k _ => k

def Expr.span : Expr → Option Span
  | .mk _ sp => sp

def Statement.kind : Statement → StatementKind
  | .mk k _ => k

def Statement.span : Statement → Option Span
  | .mk _ sp => sp

/-- A macro item cell's contents, from `ast::Item` restricted to the two
macro item kinds (`Item::Macro` / `Item::BuiltinMacro`).  `body` is the
macro's write-once body cell (`none` = not yet assigned). -/
inductive MacroDef where
  | user (params : List MacroParameter) (body : Option Expr)
  | builtin (kind : BuiltinMacroKind)

/-- `format_args` pieces (`ast::format::Piece`, module not in the
excerpt): literal string parts and argument holes. -/
inductive Piece where
  | stringPiece (s : String)
  | argument (index : Nat)

/-- The expander's surroundings: the item table (indexed by item id;
`none` entries model unassigned cells, whose `get()` panics), and the
external collaborators of the builtin macros, abstracted as functions
(process environment, diagnostic file table, filesystem, the
pretty-printer of `ast/pretty.rs` and the format-string splitter of
`ast/format.rs`; the latter two modules are not in the excerpt). -/
structure ExpandCtx where
  macros : List (Option MacroDef)
  envVars : String → Option String
  filePath : Nat → Option String
  fs : String → Option String
  pretty : Expr → String
  fmt : Option Span → String → Nat → Except CodeErrorKind (List Piece)

/-- Expansion outcomes that are not a value: a diagnosed error with its
span (`with_span`), a Rust panic (`unwrap` failure, out-of-bounds index,
`unreachable!`), or fuel exhaustion (an artifact of the embedding; the
source recurses unboundedly on pathological inputs). -/
inductive ExpandError where
  | codeError (kind : CodeErrorKind) (span : Option Span)
  | panic
  | outOfFuel

/-- The mutable pieces of `MacroExpander` plus the AST context's id
counter: `replacements`, `id_replacements`, `et_cetera_arg`,
`et_cetera_index`, the expander's immutable `invocation_span`, and the
shared `AstCtx` counter (`make_id`). -/
structure ExpState where
  counter : Nat
  invocationSpan : Option Span
  replacements : List (AstId × Expr)
  id_replacements : List (AstId × AstId)
  et_cetera_arg : Option (AstId × List Expr)
  et_cetera_index : Option Nat

/-- `AstCtx::make_id`: mint the next id from the monotonically increasing
counter.  Modelled from the spec: the `Incrementable` helper of
`common.rs` is not in the excerpt; the counter hands out its current value
and increments. -/
def makeId (st : ExpState) : AstId × ExpState :=
  (st.counter, { st with counter := st.counter + 1 })

/-- The argument-binding phase of `MacroExpander::expand_regular`
(everything before the body visit).  The two `for` loops inserting into
the `replacements` hash map are transcribed as `zipWith` slices; inserting
builds the association list newest-first, matching the map's
last-insert-wins lookup.  `et_cetera_index` is
`iter().position(|arg| arg.et_cetera)`; `etc_count = M + 1 - N`; the
et-cetera parameter is bound to the slice
`args[et_cetera_index .. et_cetera_index + etc_count]`. -/
def bindArgs (params : List MacroParameter) (args : List Expr)
    (invSpan : Option Span) :
    Except ExpandError (List (AstId × Expr) × Option (AstId × List Expr)) :=
  match params.findIdx? (fun p => p.et_cetera) with
  | some k =>
    if args.length < params.length - 1 then
      .error (.codeError (.notEnoughMacroArguments (params.length - 1))
        invSpan)
    else
      let etc_count := args.length + 1 - params.length
      match params.get? k with
      | none => .error .panic
      | some pk =>
        let loop1 := List.zipWith (fun (p : MacroParameter) (a : Expr) =>
          (p.id, a)) (params.take k) (args.take k)
        let etc_args := (args.drop k).take etc_count
        let loop2 := List.zipWith (fun (p : MacroParameter) (a : Expr) =>
          (p.id, a)) (params.drop (k + 1)) (args.drop (k + etc_count))
        .ok ((loop1 ++ loop2).reverse, some (pk.id, etc_args))
  | none =>
    if args.length ≠ params.length then
      .error (.codeError (.paramCountMismatch params.length args.length)
        invSpan)
    else
      .ok ((List.zipWith (fun (p : MacroParameter) (a : Expr) =>
        (p.id, a)) params args).reverse, none)

/-- The non-replaced tail of the `Local` branch: rewrite through
`id_replacements` (a missing entry means the macro captured a caller
local and the id is kept). -/
def localFallback (st : ExpState) (id : AstId) : Expr :=
  let newId :=
    match st.id_replacements.lookup id with
    | some r => r
    | none => id
  .mk (.localVar newId) st.invocationSpan

/-- The string collection of the `Concat` builtin: every argument must be
a string literal. -/
def concatStrings : List Expr → Option String
  | [] => some ""
  | a :: rest =>
    match a.kind with
    | .lit (.str s) => (concatStrings rest).map (fun r => s ++ r)
    | _ => none

/-- The piece-assembly loop of the `FormatArgs` builtin: string pieces
become string literals stamped with the invocation span; `Argument(i)`
indexes `self.args[i + 2]` (out of bounds panics). -/
def buildFormatArgs (args : List Expr) (invSpan : Option Span) :
    List Piece → Except ExpandError (List Expr)
  | [] => .ok []
  | .stringPiece s :: rest =>
    match buildFormatArgs args invSpan rest with
    | .error e => .error e
    | .ok tail => .ok (Expr.mk (.lit (.str s)) invSpan :: tail)
  | .argument i :: rest =>
    match args.get? (i + 2) with
    | none => .error .panic
    | some a =>
      match buildFormatArgs args invSpan rest with
      | .error e => .error e
      | .ok tail => .ok (a :: tail)

mutual

/-- `MacroExpander::expand` (and the construction of a `MacroExpander`):
dispatch on the macro item.  An unassigned or out-of-range item cell
panics (`get().unwrap()`).  The fuel argument makes the mutual recursion
structural; it is decremented here, on the boundary every recursive
expansion crosses. -/
def expand (ctx : ExpandCtx) :
    Nat → Nat → List Expr → Option Span → Nat →
    Except ExpandError (Expr × Nat)
  | 0, _, _, _, _ => .error .outOfFuel
  | fuel + 1, itemId, args, invSpan, counter =>
    match ctx.macros.get? itemId with
    | none => .error .panic
    | some none => .error .panic
    | some (some (.user params body)) =>
      expandRegular ctx fuel params body args invSpan counter
    | some (some (.builtin kind)) =>
      expandBuiltin ctx fuel kind args invSpan counter
  termination_by structural fuel _ _ _ _ => fuel

/-- `MacroExpander::expand_regular`: bind the arguments, then visit the
body (an unset body cell panics: `body.get().unwrap()`). -/
def expandRegular (ctx : ExpandCtx) :
    Nat → List MacroParameter → Option Expr → List Expr → Option Span →
    Nat → Except ExpandError (Expr × Nat)
  | 0, _, _, _, _, _ => .error .outOfFuel
  | fuel + 1, params, body, args, invSpan, counter =>
    match body with
    | none => .error .panic
    | some b =>
      match bindArgs params args invSpan with
      | .error e => .error e
      | .ok (repl, etc) =>
        match visitExpr ctx fuel ⟨counter, invSpan, repl, [], etc, none⟩ b with
        | .error e => .error e
        | .ok (r, st) => .ok (r, st.counter)
  termination_by structural fuel _ _ _ _ _ => fuel

/-- `MacroExpander::expand_builtin`. -/
def expandBuiltin (ctx : ExpandCtx) :
    Nat → BuiltinMacroKind → List Expr → Option Span → Nat →
    Except ExpandError (Expr × Nat)
  | 0, _, _, _, _ => .error .outOfFuel
  | fuel + 1, kind, args, invSpan, counter =>
    match kind with
    | .stringify =>
      match args with
      | [a] => .ok (.mk (.lit (.str (ctx.pretty a))) invSpan, counter)
      | _ =>
        .error (.codeError (.paramCountMismatch 1 args.length) invSpan)
    | .env =>
      match args with
      | [a] =>
        match a.kind with
        | .lit (.str name) =>
          match ctx.envVars name with
          | some v => .ok (.mk (.lit (.str v)) invSpan, counter)
          | none => .error .panic
        | _ => .error (.codeError .constantStringExpected invSpan)
      | _ =>
        .error (.codeError (.paramCountMismatch 1 args.length) invSpan)
    | .line =>
      match invSpan with
      | some s => .ok (.mk (.lit (.int false (s.line + 1) none)) invSpan,
          counter)
      | none => .error (.codeError .noSpanInformation invSpan)
    | .column =>
      match invSpan with
      | some s => .ok (.mk (.lit (.int false (s.column + 1) none)) invSpan,
          counter)
      | none => .error (.codeError .noSpanInformation invSpan)
    | .file =>
      match args with
      | [] =>
        match invSpan with
        | some s =>
          match ctx.filePath s.file with
          | some f => .ok (.mk (.lit (.str f)) invSpan, counter)
          | none => .error (.codeError .noSpanInformation invSpan)
        | none => .error (.codeError .noSpanInformation invSpan)
      | _ =>
        .error (.codeError (.paramCountMismatch 0 args.length) invSpan)
    | .includeBytes =>
      match args.get? 0 with
      | none => .error .panic
      | some a =>
        match a.kind with
        | .lit (.str filename) =>
          match ctx.fs filename with
          | some data => .ok (.mk (.lit (.str data)) invSpan, counter)
          | none =>
            .error (.codeError (.cannotReadFile filename) invSpan)
        | _ => .error (.codeError .constantStringExpected invSpan)
    | .concat =>
      match concatStrings args with
      | some s => .ok (.mk (.lit (.str s)) invSpan, counter)
      | none => .error (.codeError .constantStringExpected invSpan)
    | .formatArgs =>
      match args with
      | a0 :: a1 :: _ =>
        match a0.kind with
        | .macroRef w b =>
          match a1.kind with
          | .lit (.str fmt) =>
            match ctx.fmt invSpan fmt (args.length - 2) with
            | .error k => .error (.codeError k invSpan)
            | .ok pieces =>
              match buildFormatArgs args invSpan pieces with
              | .error e => .error e
              | .ok extra => expand ctx fuel w (b ++ extra) invSpan counter
          | _ => .error (.codeError .constantStringExpected invSpan)
        | _ => .error (.codeError .macroExpected invSpan)
      | _ => .error (.codeError (.notEnoughMacroArguments 2) invSpan)
    | .bind =>
      match args with
      | [] => .error (.codeError (.notEnoughMacroArguments 1) invSpan)
      | a0 :: rest =>
        match a0.kind with
        | .macroRef bindee prev =>
          .ok (.mk (.macroRef bindee (prev ++ rest)) invSpan, counter)
        | _ => .error (.codeError .macroExpected invSpan)
    | .reduce =>
      match args with
      | a0 :: a1 :: rest =>
        match a0.kind with
        | .macroRef f bound =>
          reduceLoop ctx fuel f bound a1 rest invSpan counter
        | _ => .error (.codeError .macroExpected invSpan)
      | _ => .error (.codeError (.notEnoughMacroArguments 2) invSpan)
  termination_by structural fuel _ _ _ _ => fuel

/-- The left fold of the `Reduce` builtin. -/
def reduceLoop (ctx : ExpandCtx) :
    Nat → Nat → List Expr → Expr → List Expr → Option Span → Nat →
    Except ExpandError (Expr × Nat)
  | 0, _, _, _, _, _, _ => .error .outOfFuel
  | _ + 1, _, _, acc, [], _, counter => .ok (acc, counter)
  | fuel + 1, f, bound, acc, arg :: rest, invSpan, counter =>
    match expand ctx fuel f (bound ++ [acc, arg]) invSpan counter with
    | .error e => .error e
    | .ok (acc', counter') =>
      reduceLoop ctx fuel f bound acc' rest invSpan counter'
  termination_by structural fuel _ _ _ _ _ _ => fuel

/-- `MacroExpander::visit_expr`, branch by branch in source order. -/
def visitExpr (ctx : ExpandCtx) :
    Nat → ExpState → Expr → Except ExpandError (Expr × ExpState)
  | 0, _, _ => .error .outOfFuel
  | fuel + 1, st, .mk kind sp =>
    match kind with
    | .call callee args => do
      let (c, st1) ← visitExpr ctx fuel st callee
      let (args', st2) ← expandArgs ctx fuel st1 args
      .ok (.mk (.call c args') st.invocationSpan, st2)
    | .tuple args => do
      let (args', st1) ← expandArgs ctx fuel st args
      .ok (.mk (.tuple args') st.invocationSpan, st1)
    | .array args => do
      let (args', st1) ← expandArgs ctx fuel st args
      .ok (.mk (.array args') st.invocationSpan, st1)
    | .macroInvocation inner args => do
      let (inner', st1) ← visitExpr ctx fuel st inner
      match inner'.kind with
      | .macroRef m b => do
        let (args', st2) ← expandArgs ctx fuel st1 args
        match expand ctx fuel m (b ++ args') st.invocationSpan
            st2.counter with
        | .error e => .error e
        | .ok (r, ctr) => .ok (r, { st2 with counter := ctr })
      | _ => .error (.codeError .notAMacro inner'.span)
    | .localVar id =>
      match st.replacements.lookup id with
      | some repl => .ok (repl, st)
      | none =>
        match st.et_cetera_arg with
        | some (pid, etcList) =>
          if pid = id then
            match st.et_cetera_index with
            | some index =>
              match etcList.get? index with
              | some arg => .ok (arg, st)
              | none => .error .panic
            | none => .error (.codeError .cannotEtCeteraHere sp)
          else .ok (localFallback st id, st)
        | none => .ok (localFallback st id, st)
    | .etCetera _ => .error (.codeError .cannotEtCeteraHere sp)
    | .block stmts ret => do
      let (stmts', st1) ← expandBlockStmts ctx fuel st stmts
      let (ret', st2) ← visitExpr ctx fuel st1 ret
      .ok (.mk (.block stmts' ret') st.invocationSpan, st2)
    | .binary op lhs rhs => do
      let (l, st1) ← visitExpr ctx fuel st lhs
      let (r, st2) ← visitExpr ctx fuel st1 rhs
      .ok (.mk (.binary op l r) st.invocationSpan, st2)
    | .ref inner => do
      let (i, st1) ← visitExpr ctx fuel st inner
      .ok (.mk (.ref i) st.invocationSpan, st1)
    | .deref inner => do
      let (i, st1) ← visitExpr ctx fuel st inner
      .ok (.mk (.deref i) st.invocationSpan, st1)
    | .unary op inner => do
      let (i, st1) ← visitExpr ctx fuel st inner
      .ok (.mk (.unary op i) st.invocationSpan, st1)
    | .assign lhs rhs => do
      let (l, st1) ← visitExpr ctx fuel st lhs
      let (r, st2) ← visitExpr ctx fuel st1 rhs
      .ok (.mk (.assign l r) st.invocationSpan, st2)
    | .assignOp op lhs rhs => do
      let (l, st1) ← visitExpr ctx fuel st lhs
      let (r, st2) ← visitExpr ctx fuel st1 rhs
      .ok (.mk (.assignOp op l r) st.invocationSpan, st2)
    | .loop inner => do
      let (i, st1) ← visitExpr ctx fuel st inner
      .ok (.mk (.loop i) st.invocationSpan, st1)
    | .breakExpr inner => do
      let (i, st1) ← visitOptExpr ctx fuel st inner
      .ok (.mk (.breakExpr i) st.invocationSpan, st1)
    | .returnExpr inner => do
      let (i, st1) ← visitOptExpr ctx fuel st inner
      .ok (.mk (.returnExpr i) st.invocationSpan, st1)
    | .deferExpr inner => do
      let (i, st1) ← visitExpr ctx fuel st inner
      .ok (.mk (.deferExpr i) st.invocationSpan, st1)
    | .field a name assocFn => do
      let (a', st1) ← visitExpr ctx fuel st a
      .ok (.mk (.field a' name assocFn) st.invocationSpan, st1)
    | .structLit ty inits => do
      let (inits', st1) ← visitFieldInits ctx fuel st inits
      let (ty', st2) ← visitTyp ctx fuel st1 ty
      .ok (.mk (.structLit ty' inits') st.invocationSpan, st2)
    | .tupleIndex inner idx => do
      let (i, st1) ← visitExpr ctx fuel st inner
      .ok (.mk (.tupleIndex i idx) st.invocationSpan, st1)
    | .index inner idx => do
      let (i, st1) ← visitExpr ctx fuel st inner
      let (j, st2) ← visitExpr ctx fuel st1 idx
      .ok (.mk (.index i j) st.invocationSpan, st2)
    | .range lower upper inclusive => do
      let (lo, st1) ← visitOptExpr ctx fuel st lower
      let (hi, st2) ← visitOptExpr ctx fuel st1 upper
      .ok (.mk (.range lo hi inclusive) st.invocationSpan, st2)
    | .ifExpr cond thenE elseE => do
      let (c, st1) ← visitExpr ctx fuel st cond
      let (t, st2) ← visitExpr ctx fuel st1 thenE
      let (e, st3) ← visitExpr ctx fuel st2 elseE
      .ok (.mk (.ifExpr c t e) st.invocationSpan, st3)
    | .staticIf cond thenE elseE => do
      let (c, st1) ← visitExpr ctx fuel st cond
      let (t, st2) ← visitExpr ctx fuel st1 thenE
      let (e, st3) ← visitExpr ctx fuel st2 elseE
      .ok (.mk (.staticIf c t e) st.invocationSpan, st3)
    | .typeCheck value ty => do
      let (v, st1) ← visitExpr ctx fuel st value
      let (ty', st2) ← visitTyp ctx fuel st1 ty
      .ok (.mk (.typeCheck v ty') st.invocationSpan, st2)
    | .cast inner ty => do
      let (i, st1) ← visitExpr ctx fuel st inner
      let (ty', st2) ← visitTyp ctx fuel st1 ty
      .ok (.mk (.cast i ty') st.invocationSpan, st2)
    | .fnRef fk genericArgs => do
      let (fk', st1) ←
        match fk with
        | .normal i => .ok (FnKind.normal i, st)
        | .closure p => .ok (FnKind.closure p, st)
        | .defered ty name => do
          let (ty', st1) ← visitTyp ctx fuel st ty
          .ok (FnKind.defered ty' name, st1)
      let (gargs', st2) ← visitOptTypList ctx fuel st1 genericArgs
      .ok (.mk (.fnRef fk' gargs') st.invocationSpan, st2)
    | .defered ty name => do
      let (ty', st1) ← visitTyp ctx fuel st ty
      .ok (.mk (.defered ty' name) st.invocationSpan, st1)
    | .staticRef itemId genericArgs => do
      let (gargs', st1) ← visitOptTypList ctx fuel st genericArgs
      .ok (.mk (.staticRef itemId gargs') st.invocationSpan, st1)
    | .constRef itemId genericArgs => do
      let (gargs', st1) ← visitOptTypList ctx fuel st genericArgs
      .ok (.mk (.constRef itemId gargs') st.invocationSpan, st1)
    | .continueExpr => .ok (.mk kind st.invocationSpan, st)
    | .enumValue _ _ => .ok (.mk kind st.invocationSpan, st)
    | .macroRef _ _ => .ok (.mk kind st.invocationSpan, st)
    | .lit _ => .ok (.mk kind st.invocationSpan, st)
    | .boundParam _ _ _ => .ok (.mk kind st.invocationSpan, st)
    | .void => .ok (.mk kind st.invocationSpan, st)
  termination_by structural fuel _ _ => fuel

/-- `MacroExpander::visit_stmt`: expression statements are re-stamped with
the invocation span; let declarations are alpha-renamed to a fresh id,
recorded in `id_replacements` before the declared type and initializer are
visited. -/
def visitStmt (ctx : ExpandCtx) :
    Nat → ExpState → Statement → Except ExpandError (Statement × ExpState)
  | 0, _, _ => .error .outOfFuel
  | fuel + 1, st, .mk k _ =>
    match k with
    | .expression e => do
      let (e', st1) ← visitExpr ctx fuel st e
      .ok (.mk (.expression e') st.invocationSpan, st1)
    | .letDeclaration (.mk id typ value) =>
      let (replacement, st1) := makeId st
      let st2 :=
        { st1 with id_replacements := (id, replacement) ::
            st1.id_replacements }
      do
        let (typ', st3) ← visitOptTyp ctx fuel st2 typ
        let (value', st4) ← visitOptExpr ctx fuel st3 value
        .ok (.mk (.letDeclaration (.mk replacement typ' value'))
          st.invocationSpan, st4)
  termination_by structural fuel _ _ => fuel

/-- `MacroExpander::visit_typ`. -/
def visitTyp (ctx : ExpandCtx) :
    Nat → ExpState → Ty → Except ExpandError (Ty × ExpState)
  | 0, _, _ => .error .outOfFuel
  | fuel + 1, st, ty =>
    match ty with
    | .pointer inner a => do
      let (i, st1) ← visitTyp ctx fuel st inner
      .ok (.pointer i a, st1)
    | .slice inner a => do
      let (i, st1) ← visitTyp ctx fuel st inner
      .ok (.slice i a, st1)
    | .dyn protos a => do
      let (ps, st1) ← visitTypList ctx fuel st protos
      .ok (.dyn ps a, st1)
    | .typeOf e => do
      let (e', st1) ← visitExpr ctx fuel st e
      .ok (.typeOf e', st1)
    | .array inner len => do
      let (i, st1) ← visitTyp ctx fuel st inner
      let (l, st2) ← visitExpr ctx fuel st1 len
      .ok (.array i l, st2)
    | .tuple elems => do
      let (es, st1) ← visitTypList ctx fuel st elems
      .ok (.tuple es, st1)
    | .whenTy cond a b => do
      let (c, st1) ← visitExpr ctx fuel st cond
      let (a', st2) ← visitTyp ctx fuel st1 a
      let (b', st3) ← visitTyp ctx fuel st2 b
      .ok (.whenTy c a' b', st3)
    | .functionPointer args ret => do
      let (as', st1) ← visitTypList ctx fuel st args
      .ok (.functionPointer as' ret, st1)
    | .functionProtocol args ret => do
      let (as', st1) ← visitTypList ctx fuel st args
      .ok (.functionProtocol as' ret, st1)
    | .generic itemId args => do
      let (as', st1) ← visitTypList ctx fuel st args
      .ok (.generic itemId as', st1)
    | .defered typ name => do
      let (t, st1) ← visitTyp ctx fuel st typ
      .ok (.defered t name, st1)
    | .placeholder _ => .ok (ty, st)
    | .item _ => .ok (ty, st)
    | .builtin _ => .ok (ty, st)
  termination_by structural fuel _ _ => fuel

/-- Element loop over a type slice. -/
def visitTypList (ctx : ExpandCtx) :
    Nat → ExpState → List Ty → Except ExpandError (List Ty × ExpState)
  | 0, _, _ => .error .outOfFuel
  | _ + 1, st, [] => .ok ([], st)
  | fuel + 1, st, t :: rest => do
    let (t', st1) ← visitTyp ctx fuel st t
    let (rest', st2) ← visitTypList ctx fuel st1 rest
    .ok (t' :: rest', st2)
  termination_by structural fuel _ _ => fuel

/-- `Option::map(...).transpose()` over a type. -/
def visitOptTyp (ctx : ExpandCtx) :
    Nat → ExpState → Option Ty → Except ExpandError (Option Ty × ExpState)
  | 0, _, _ => .error .outOfFuel
  | _ + 1, st, none => .ok (none, st)
  | fuel + 1, st, some t => do
    let (t', st1) ← visitTyp ctx fuel st t
    .ok (some t', st1)
  termination_by structural fuel _ _ => fuel

/-- `Option::map(...).transpose()` over an expression. -/
def visitOptExpr (ctx : ExpandCtx) :
    Nat → ExpState → Option Expr →
    Except ExpandError (Option Expr × ExpState)
  | 0, _, _ => .error .outOfFuel
  | _ + 1, st, none => .ok (none, st)
  | fuel + 1, st, some e => do
    let (e', st1) ← visitExpr ctx fuel st e
    .ok (some e', st1)
  termination_by structural fuel _ _ => fuel

/-- The optional generic-argument lists of `Fn`/`Static`/`Const`. -/
def visitOptTypList (ctx : ExpandCtx) :
    Nat → ExpState → Option (List Ty) →
    Except ExpandError (Option (List Ty) × ExpState)
  | 0, _, _ => .error .outOfFuel
  | _ + 1, st, none => .ok (none, st)
  | fuel + 1, st, some l => do
    let (l', st1) ← visitTypList ctx fuel st l
    .ok (some l', st1)
  termination_by structural fuel _ _ => fuel

/-- The field-initializer loop of the `Struct` branch: values are visited,
names kept, spans replaced by the invocation span. -/
def visitFieldInits (ctx : ExpandCtx) :
    Nat → ExpState → List FieldInitializer →
    Except ExpandError (List FieldInitializer × ExpState)
  | 0, _, _ => .error .outOfFuel
  | _ + 1, st, [] => .ok ([], st)
  | fuel + 1, st, .mk name value _ :: rest => do
    let (v', st1) ← visitExpr ctx fuel st value
    let (rest', st2) ← visitFieldInits ctx fuel st1 rest
    .ok (.mk name v' st.invocationSpan :: rest', st2)
  termination_by structural fuel _ _ => fuel

/-- `MacroExpander::expand_args`: the argument loop with in-place
et-cetera splicing (an `EtCetera` argument is replaced by one visit of its
inner expression per variadic argument, with the splice index installed;
nested splices are `EtCeteraInEtCetera`; a splice with no et-cetera
binding panics on `unwrap`). -/
def expandArgs (ctx : ExpandCtx) :
    Nat → ExpState → List Expr → Except ExpandError (List Expr × ExpState)
  | 0, _, _ => .error .outOfFuel
  | _ + 1, st, [] => .ok ([], st)
  | fuel + 1, st, arg :: rest =>
    match arg with
    | .mk (.etCetera inner) spA =>
      if st.et_cetera_index.isSome then
        .error (.codeError .etCeteraInEtCetera spA)
      else
        match st.et_cetera_arg with
        | none => .error .panic
        | some (_, etcList) => do
          let (copies, stL) ← spliceLoop ctx fuel st inner 0 etcList.length
          let (rest', st3) ← expandArgs ctx fuel
            { stL with et_cetera_index := none } rest
          .ok (copies ++ rest', st3)
    | _ => do
      let (a', st1) ← visitExpr ctx fuel st arg
      let (rest', st2) ← expandArgs ctx fuel st1 rest
      .ok (a' :: rest', st2)
  termination_by structural fuel _ _ => fuel

/-- The `for idx in 0..n { et_cetera_index = Some(idx); visit(inner) }`
loops shared by `expand_args` and the block-statement splice. -/
def spliceLoop (ctx : ExpandCtx) :
    Nat → ExpState → Expr → Nat → Nat →
    Except ExpandError (List Expr × ExpState)
  | 0, _, _, _, _ => .error .outOfFuel
  | _ + 1, st, _, _, 0 => .ok ([], st)
  | fuel + 1, st, inner, idx, n + 1 => do
    let (e', st1) ← visitExpr ctx fuel
      { st with et_cetera_index := some idx } inner
    let (rest, st2) ← spliceLoop ctx fuel st1 inner (idx + 1) n
    .ok (e' :: rest, st2)
  termination_by structural fuel _ _ _ _ => fuel

/-- The statement loop of the `Block` branch: a statement that is an
`EtCetera` expression is spliced into one statement per variadic
argument, each keeping the `EtCetera` expression's own span; every other
statement goes through `visit_stmt`. -/
def expandBlockStmts (ctx : ExpandCtx) :
    Nat → ExpState → List Statement →
    Except ExpandError (List Statement × ExpState)
  | 0, _, _ => .error .outOfFuel
  | _ + 1, st, [] => .ok ([], st)
  | fuel + 1, st, stmt :: rest =>
    match stmt with
    | .mk (.expression (.mk (.etCetera inner) sp2)) _ =>
      if st.et_cetera_index.isSome then
        .error (.codeError .etCeteraInEtCetera sp2)
      else
        match st.et_cetera_arg with
        | none => .error .panic
        | some (_, etcList) => do
          let (copies, stL) ← spliceLoop ctx fuel st inner 0 etcList.length
          let (rest', st3) ← expandBlockStmts ctx fuel
            { stL with et_cetera_index := none } rest
          .ok (copies.map (fun e => Statement.mk (.expression e) sp2) ++
            rest', st3)
    | _ => do
      let (s', st1) ← visitStmt ctx fuel st stmt
      let (rest', st2) ← expandBlockStmts ctx fuel st1 rest
      .ok (s' :: rest', st2)
  termination_by structural fuel _ _ => fuel

end

mutual

/-- All ids of let declarations occurring anywhere in an expression
(including inside `macroRef` bound-argument payloads). -/
def letIdsE : Expr → List Nat
  | .mk k _ => letIdsK k

def letIdsK : ExprKind → List Nat
  | .call c args => letIdsE c ++ letIdsL args
  | .tuple args => letIdsL args
  | .array args => letIdsL args
  | .macroInvocation i args => letIdsE i ++ letIdsL args
  | .localVar _ => []
  | .etCetera i => letIdsE i
  | .block stmts ret => letIdsSL stmts ++ letIdsE ret
  | .binary _ l r => letIdsE l ++ letIdsE r
  | .ref i => letIdsE i
  | .deref i => letIdsE i
  | .unary _ i => letIdsE i
  | .assign l r => letIdsE l ++ letIdsE r
  | .assignOp _ l r => letIdsE l ++ letIdsE r
  | .loop i => letIdsE i
  | .breakExpr o => letIdsO o
  | .returnExpr o => letIdsO o
  | .deferExpr i => letIdsE i
  | .field i _ _ => letIdsE i
  | .structLit ty inits => letIdsT ty ++ letIdsFI inits
  | .tupleIndex i _ => letIdsE i
  | .index i j => letIdsE i ++ letIdsE j
  | .range lo hi _ => letIdsO lo ++ letIdsO hi
  | .ifExpr c t e => letIdsE c ++ letIdsE t ++ letIdsE e
  | .staticIf c t e => letIdsE c ++ letIdsE t ++ letIdsE e
  | .typeCheck v ty => letIdsE v ++ letIdsT ty
  | .cast i ty => letIdsE i ++ letIdsT ty
  | .fnRef fk gargs => letIdsFn fk ++ letIdsOTL gargs
  | .defered ty _ => letIdsT ty
  | .staticRef _ gargs => letIdsOTL gargs
  | .constRef _ gargs => letIdsOTL gargs
  | .continueExpr => []
  | .enumValue _ _ => []
  | .macroRef _ b => letIdsL b
  | .lit _ => []
  | .boundParam _ _ _ => []
  | .void => []

def letIdsS : Statement → List Nat
  | .mk k _ => letIdsSK k

def letIdsSK : StatementKind → List Nat
  | .expression e => letIdsE e
  | .letDeclaration (.mk id t v) => id :: (letIdsOT t ++ letIdsO v)

def letIdsT : Ty → List Nat
  | .placeholder _ => []
  | .item _ => []
  | .builtin _ => []
  | .pointer i _ => letIdsT i
  | .slice i _ => letIdsT i
  | .dyn ps _ => letIdsTL ps
  | .typeOf e => letIdsE e
  | .array i l => letIdsT i ++ letIdsE l
  | .tuple es => letIdsTL es
  | .whenTy c a b => letIdsE c ++ letIdsT a ++ letIdsT b
  | .functionPointer as r => letIdsTL as ++ letIdsT r
  | .functionProtocol as r => letIdsTL as ++ letIdsT r
  | .generic _ as => letIdsTL as
  | .defered t _ => letIdsT t

def letIdsFn : FnKind → List Nat
  | .normal _ => []
  | .closure _ => []
  | .defered t _ => letIdsT t

def letIdsL : List Expr → List Nat
  | [] => []
  | e :: r => letIdsE e ++ letIdsL r

def letIdsSL : List Statement → List Nat
  | [] => []
  | s :: r => letIdsS s ++ letIdsSL r

def letIdsTL : List Ty → List Nat
  | [] => []
  | t :: r => letIdsT t ++ letIdsTL r

def letIdsO : Option Expr → List Nat
  | none => []
  | some e => letIdsE e

def letIdsOT : Option Ty → List Nat
  | none => []
  | some t => letIdsT t

def letIdsOTL : Option (List Ty) → List Nat
  | none => []
  | some l => letIdsTL l

def letIdsFI : List FieldInitializer → List Nat
  | [] => []
  | .mk _ v _ :: r => letIdsE v ++ letIdsFI r

end

mutual

/-- All spans carried by nodes of an expression: the expression's own
span, statement spans, field-initializer spans, and every span inside
`macroRef` payloads. -/
def spansE : Expr → List (Option Span)
  | .mk k sp => sp :: spansK k

def spansK : ExprKind → List (Option Span)
  | .call c args => spansE c ++ spansL args
  | .tuple args => spansL args
  | .array args => spansL args
  | .macroInvocation i args => spansE i ++ spansL args
  | .localVar _ => []
  | .etCetera i => spansE i
  | .block stmts ret => spansSL stmts ++ spansE ret
  | .binary _ l r => spansE l ++ spansE r
  | .ref i => spansE i
  | .deref i => spansE i
  | .unary _ i => spansE i
  | .assign l r => spansE l ++ spansE r
  | .assignOp _ l r => spansE l ++ spansE r
  | .loop i => spansE i
  | .breakExpr o => spansO o
  | .returnExpr o => spansO o
  | .deferExpr i => spansE i
  | .field i _ _ => spansE i
  | .structLit ty inits => spansT ty ++ spansFI inits
  | .tupleIndex i _ => spansE i
  | .index i j => spansE i ++ spansE j
  | .range lo hi _ => spansO lo ++ spansO hi
  | .ifExpr c t e => spansE c ++ spansE t ++ spansE e
  | .staticIf c t e => spansE c ++ spansE t ++ spansE e
  | .typeCheck v ty => spansE v ++ spansT ty
  | .cast i ty => spansE i ++ spansT ty
  | .fnRef fk gargs => spansFn fk ++ spansOTL gargs
  | .defered ty _ => spansT ty
  | .staticRef _ gargs => spansOTL gargs
  | .constRef _ gargs => spansOTL gargs
  | .continueExpr => []
  | .enumValue _ _ => []
  | .macroRef _ b => spansL b
  | .lit _ => []
  | .boundParam _ _ _ => []
  | .void => []

def spansS : Statement → List (Option Span)
  | .mk k sp => sp :: spansSK k

def spansSK : StatementKind → List (Option Span)
  | .expression e => spansE e
  | .letDeclaration (.mk _ t v) => spansOT t ++ spansO v

def spansT : Ty → List (Option Span)
  | .placeholder _ => []
  | .item _ => []
  | .builtin _ => []
  | .pointer i _ => spansT i
  | .slice i _ => spansT i
  | .dyn ps _ => spansTL ps
  | .typeOf e => spansE e
  | .array i l => spansT i ++ spansE l
  | .tuple es => spansTL es
  | .whenTy c a b => spansE c ++ spansT a ++ spansT b
  | .functionPointer as r => spansTL as ++ spansT r
  | .functionProtocol as r => spansTL as ++ spansT r
  | .generic _ as => spansTL as
  | .defered t _ => spansT t

def spansFn : FnKind → List (Option Span)
  | .normal _ => []
  | .closure _ => []
  | .defered t _ => spansT t

def spansL : List Expr → List (Option Span)
  | [] => []
  | e :: r => spansE e ++ spansL r

def spansSL : List Statement → List (Option Span)
  | [] => []
  | s :: r => spansS s ++ spansSL r

def spansTL : List Ty → List (Option Span)
  | [] => []
  | t :: r => spansT t ++ spansTL r

def spansO : Option Expr → List (Option Span)
  | none => []
  | some e => spansE e

def spansOT : Option Ty → List (Option Span)
  | none => []
  | some t => spansT t

def spansOTL : Option (List Ty) → List (Option Span)
  | none => []
  | some l => spansTL l

def spansFI : List FieldInitializer → List (Option Span)
  | [] => []
  | .mk _ v sp :: r => sp :: (spansE v ++ spansFI r)

end

mutual

/-- The spans of an input expression that expansion may reproduce
verbatim in its output: the spans of `EtCetera` expressions (the
block-statement splice stamps the spliced statements with them), every
span inside `macroRef` bound-argument payloads (those are passed through
untouched), and every span inside the return type of a function-pointer
or function-protocol type (`visit_typ` rebuilds those nodes without
visiting the return type).  A slight over-approximation: the span of an
`EtCetera` expression is collected in any position, not only in
block-statement position. -/
def leakE : Expr → List (Option Span)
  | .mk (.etCetera i) sp => sp :: leakE i
  | .mk k _ => leakK k

def leakK : ExprKind → List (Option Span)
  | .call c args => leakE c ++ leakL args
  | .tuple args => leakL args
  | .array args => leakL args
  | .macroInvocation i args => leakE i ++ leakL args
  | .localVar _ => []
  | .etCetera i => leakE i
  | .block stmts ret => leakSL stmts ++ leakE ret
  | .binary _ l r => leakE l ++ leakE r
  | .ref i => leakE i
  | .deref i => leakE i
  | .unary _ i => leakE i
  | .assign l r => leakE l ++ leakE r
  | .assignOp _ l r => leakE l ++ leakE r
  | .loop i => leakE i
  | .breakExpr o => leakO o
  | .returnExpr o => leakO o
  | .deferExpr i => leakE i
  | .field i _ _ => leakE i
  | .structLit ty inits => leakT ty ++ leakFI inits
  | .tupleIndex i _ => leakE i
  | .index i j => leakE i ++ leakE j
  | .range lo hi _ => leakO lo ++ leakO hi
  | .ifExpr c t e => leakE c ++ leakE t ++ leakE e
  | .staticIf c t e => leakE c ++ leakE t ++ leakE e
  | .typeCheck v ty => leakE v ++ leakT ty
  | .cast i ty => leakE i ++ leakT ty
  | .fnRef fk gargs => leakFn fk ++ leakOTL gargs
  | .defered ty _ => leakT ty
  | .staticRef _ gargs => leakOTL gargs
  | .constRef _ gargs => leakOTL gargs
  | .continueExpr => []
  | .enumValue _ _ => []
  | .macroRef _ b => spansL b
  | .lit _ => []
  | .boundParam _ _ _ => []
  | .void => []

def leakS : Statement → List (Option Span)
  | .mk (.expression e) _ => leakE e
  | .mk (.letDeclaration (.mk _ t v)) _ => leakOT t ++ leakO v

def leakT : Ty → List (Option Span)
  | .placeholder _ => []
  | .item _ => []
  | .builtin _ => []
  | .pointer i _ => leakT i
  | .slice i _ => leakT i
  | .dyn ps _ => leakTL ps
  | .typeOf e => leakE e
  | .array i l => leakT i ++ leakE l
  | .tuple es => leakTL es
  | .whenTy c a b => leakE c ++ leakT a ++ leakT b
  | .functionPointer as r => leakTL as ++ spansT r
  | .functionProtocol as r => leakTL as ++ spansT r
  | .generic _ as => leakTL as
  | .defered t _ => leakT t

def leakFn : FnKind → List (Option Span)
  | .normal _ => []
  | .closure _ => []
  | .defered t _ => leakT t

def leakL : List Expr → List (Option Span)
  | [] => []
  | e :: r => leakE e ++ leakL r

def leakSL : List Statement → List (Option Span)
  | [] => []
  | s :: r => leakS s ++ leakSL r

def leakTL : List Ty → List (Option Span)
  | [] => []
  | t :: r => leakT t ++ leakTL r

def leakO : Option Expr → List (Option Span)
  | none => []
  | some e => leakE e

def leakOT : Option Ty → List (Option Span)
  | none => []
  | some t => leakT t

def leakOTL : Option (List Ty) → List (Option Span)
  | none => []
  | some l => leakTL l

def leakFI : List FieldInitializer → List (Option Span)
  | [] => []
  | .mk _ v _ :: r => leakE v ++ leakFI r

end

/-- The expressions held by an expander state: replacement values and the
et-cetera argument tuple. -/
def stateExprsOf (st : ExpState) : List Expr :=
  st.replacements.map Prod.snd ++
    (match st.et_cetera_arg with
     | some (_, l) => l
     | none => [])

/-- The bodies of all assigned user macros in the item table. -/
def ctxBodies (ctx : ExpandCtx) : List Expr :=
  ctx.macros.filterMap fun d =>
    match d with
    | some (.user _ (some b)) => some b
    | _ => none

/-- `i` is the id of a let declaration written in some macro body. -/
def CtxLets (ctx : ExpandCtx) (i : Nat) : Prop :=
  ∃ b ∈ ctxBodies ctx, i ∈ letIdsE b

/-- `sp` is a leakable span of some macro body. -/
def CtxLeakSpans (ctx : ExpandCtx) (sp : Option Span) : Prop :=
  ∃ b ∈ ctxBodies ctx, sp ∈ leakE b

/-- State evolution across one visiting step: the counter is monotone and
the expander-local bindings (`invocation_span`, `replacements`,
`et_cetera_arg`) are untouched. -/
def Frame (st st' : ExpState) : Prop :=
  st.counter ≤ st'.counter ∧ st'.invocationSpan = st.invocationSpan ∧
    st'.replacements = st.replacements ∧
    st'.et_cetera_arg = st.et_cetera_arg

/-- Every let id of the output is a let id of a bound argument, a let id
of the input, a let id written in some macro body, or was freshly minted
in the counter window of this step. -/
def LetsOk (ctx : ExpandCtx) (st st' : ExpState)
    (inLets outLets : List Nat) : Prop :=
  ∀ i ∈ outLets, i ∈ letIdsL (stateExprsOf st) ∨ i ∈ inLets ∨
    CtxLets ctx i ∨ (st.counter ≤ i ∧ i < st'.counter)

/-- Every span of the output is the invocation span, a span of a bound
argument, a leakable span of the input, or a leakable span of some macro
body. -/
def SpansOk (ctx : ExpandCtx) (st : ExpState)
    (inLeak outSpans : List (Option Span)) : Prop :=
  ∀ sp ∈ outSpans, sp = st.invocationSpan ∨
    sp ∈ spansL (stateExprsOf st) ∨ sp ∈ inLeak ∨ CtxLeakSpans ctx sp

end Ast

/-! ### Theorems -/

namespace Codegen

open IR

/-- `noZstCallStmts` distributes over list append. -/
theorem noZstCallStmts_append (a b : List CStmt) :
    noZstCallStmts (a ++ b) = (noZstCallStmts a && noZstCallStmts b) := by
  induction a with
  | nil => simp [noZstCallStmts]
  | cons x xs ih => simp [noZstCallStmts, ih, Bool.and_assoc]

/-- Master lemma: every emitted expression/statement satisfies the
no-zero-sized-call-argument predicate; for `writeCallArgs` this holds
whenever its input list is already free of zero-sized expressions (the
`Call` branch filters before calling it). -/
theorem noZst_master (fuel : Nat) :
    (∀ cg ci e bb c, writeExpr cg ci fuel e bb = some c →
      noZstCallE c = true) ∧
    (∀ cg ci args l, writeCallArgs cg ci fuel args = some l →
      (∀ a ∈ args, a.ty.is_zero_sized = false) → noZstCallArgs l = true) ∧
    (∀ cg ci es l, writeExprList cg ci fuel es = some l →
      noZstCallList l = true) ∧
    (∀ cg ci is l, writeInitList cg ci fuel is = some l →
      noZstCallInits l = true) ∧
    (∀ cg ci s l, writeStmt cg ci fuel s = some l →
      noZstCallStmts l = true) ∧
    (∀ cg ci ss l, writeStmtList cg ci fuel ss = some l →
      noZstCallStmts l = true) := by
  induction fuel with
  | zero =>
    refine ⟨?_, ?_, ?_, ?_, ?_, ?_⟩
    · intro cg ci e bb c h; simp [writeExpr] at h
    · intro cg ci args l h _; simp [writeCallArgs] at h
    · intro cg ci es l h; simp [writeExprList] at h
    · intro cg ci is l h; simp [writeInitList] at h
    · intro cg ci s l h; simp [writeStmt] at h
    · intro cg ci ss l h; simp [writeStmtList] at h
  | succ n ih =>
    obtain ⟨ihE, ihA, ihL, ihI, ihS, ihSS⟩ := ih
    refine ⟨?_, ?_, ?_, ?_, ?_, ?_⟩
    · intro cg ci e bb c h
      obtain ⟨vt, ic, k, sp, t⟩ := e
      cases k <;>
        simp only [writeExpr, Expr.kind, Expr.ty, Option.bind_eq_bind,
          Option.bind_eq_some, Option.some.injEq] at h
      case block stmts ret =>
        cases bb <;>
          simp only [Bool.false_eq_true, if_false, if_true, reduceIte,
            Option.bind_eq_bind, Option.bind_eq_some,
            Option.some.injEq] at h <;>
          (obtain ⟨ss, hss, h⟩ := h
           split at h <;>
             simp only [Option.bind_eq_bind, Option.bind_eq_some,
               Option.some.injEq] at h <;>
             first
             | (obtain ⟨tail, htail, h⟩ := h
                subst h
                simp [noZstCallE, noZstCallOpt, ihSS _ _ _ _ hss,
                  ihE _ _ _ _ _ htail])
             | (subst h
                simp [noZstCallE, noZstCallOpt, ihSS _ _ _ _ hss]))
      case binary op lhs rhs =>
        obtain ⟨l, hl, r, hr, h⟩ := h
        subst h
        simp [noZstCallE, ihE _ _ _ _ _ hl, ihE _ _ _ _ _ hr]
      case assignOp op lhs rhs =>
        obtain ⟨l, hl, r, hr, h⟩ := h
        subst h
        simp [noZstCallE, ihE _ _ _ _ _ hl, ihE _ _ _ _ _ hr]
      case call callee args =>
        obtain ⟨cc, hcc, emitted, hem, h⟩ := h
        subst h
        have hfilter : ∀ a ∈ args.filter fun arg => !arg.ty.is_zero_sized,
            a.ty.is_zero_sized = false := by
          intro a ha
          have := (List.mem_filter.mp ha).2
          simpa using this
        simp [noZstCallE, ihE _ _ _ _ _ hcc, ihA _ _ _ _ hem hfilter]
      case fnItem itemId => subst h; rfl
      case ref inner =>
        obtain ⟨i, hi, h⟩ := h
        subst h
        simp [noZstCallE, ihE _ _ _ _ _ hi]
      case deref inner =>
        obtain ⟨i, hi, h⟩ := h
        subst h
        simp [noZstCallE, ihE _ _ _ _ _ hi]
      case retExpr inner =>
        obtain ⟨i, hi, h⟩ := h
        subst h
        simp [noZstCallE, ihE _ _ _ _ _ hi]
      case goto label => subst h; rfl
      case unary op inner =>
        obtain ⟨i, hi, h⟩ := h
        subst h
        simp [noZstCallE, ihE _ _ _ _ _ hi]
      case assign lhs rhs =>
        obtain ⟨l, hl, r, hr, h⟩ := h
        subst h
        simp [noZstCallE, ihE _ _ _ _ _ hl, ihE _ _ _ _ _ hr]
      case index lhs rhs =>
        obtain ⟨l, hl, r, hr, h⟩ := h
        subst h
        simp [noZstCallE, ihE _ _ _ _ _ hl, ihE _ _ _ _ _ hr]
      case localVar id => subst h; rfl
      case staticVar itemId => subst h; rfl
      case constVar itemId => subst h; rfl
      case literal v =>
        cases v <;> simp only [Option.some.injEq] at h <;> subst h <;> rfl
      case field inner fieldId =>
        obtain ⟨i, hi, h⟩ := h
        subst h
        simp [noZstCallE, ihE _ _ _ _ _ hi]
      case tupleIndex inner idx =>
        obtain ⟨i, hi, h⟩ := h
        subst h
        simp [noZstCallE, ihE _ _ _ _ _ hi]
      case ifExpr cond thenE elseE cc =>
        split at h <;>
          simp only [Option.bind_eq_bind, Option.bind_eq_some,
            Option.some.injEq] at h
        · obtain ⟨c1, hc1, t1, ht1, h⟩ := h
          split at h <;>
            simp only [Option.bind_eq_bind, Option.bind_eq_some,
              Option.some.injEq] at h
          · subst h
            simp [noZstCallE, noZstCallOpt, ihE _ _ _ _ _ hc1,
              ihE _ _ _ _ _ ht1]
          · obtain ⟨e1, he1, h⟩ := h
            subst h
            simp [noZstCallE, noZstCallOpt, ihE _ _ _ _ _ hc1,
              ihE _ _ _ _ _ ht1, ihE _ _ _ _ _ he1]
        · obtain ⟨c1, hc1, t1, ht1, e1, he1, h⟩ := h
          subst h
          simp [noZstCallE, ihE _ _ _ _ _ hc1, ihE _ _ _ _ _ ht1,
            ihE _ _ _ _ _ he1]
      case cast inner =>
        obtain ⟨i, hi, h⟩ := h
        subst h
        simp [noZstCallE, ihE _ _ _ _ _ hi]
      case intrinsic kind =>
        cases kind <;>
          first
          | (simp only [Option.some.injEq] at h; subst h; rfl)
          | simp at h
      case array elems =>
        obtain ⟨es, hes, h⟩ := h
        subst h
        simp [noZstCallE, ihL _ _ _ _ hes]
      case tuple inits =>
        obtain ⟨is, his, h⟩ := h
        subst h
        simp [noZstCallE, ihI _ _ _ _ his]
      case structLit inits =>
        obtain ⟨is, his, h⟩ := h
        subst h
        simp [noZstCallE, ihI _ _ _ _ his]
      case unreachable => subst h; rfl
      case void => subst h; rfl
    · intro cg ci args l h hargs
      cases args with
      | nil =>
        simp only [writeCallArgs, Option.some.injEq] at h
        subst h; rfl
      | cons a rest =>
        simp only [writeCallArgs, Option.bind_eq_bind, Option.bind_eq_some,
          Option.some.injEq] at h
        obtain ⟨c, hc, cs, hcs, h⟩ := h
        subst h
        have ha := hargs a (List.mem_cons_self a rest)
        have hrest : ∀ x ∈ rest, x.ty.is_zero_sized = false := fun x hx =>
          hargs x (List.mem_cons_of_mem a hx)
        simp [noZstCallArgs, ha, ihE _ _ _ _ _ hc, ihA _ _ _ _ hcs hrest]
    · intro cg ci es l h
      cases es with
      | nil =>
        simp only [writeExprList, Option.some.injEq] at h
        subst h; rfl
      | cons e rest =>
        simp only [writeExprList, Option.bind_eq_bind, Option.bind_eq_some,
          Option.some.injEq] at h
        obtain ⟨c, hc, cs, hcs, h⟩ := h
        subst h
        simp [noZstCallList, ihE _ _ _ _ _ hc, ihL _ _ _ _ hcs]
    · intro cg ci is l h
      cases is with
      | nil =>
        simp only [writeInitList, Option.some.injEq] at h
        subst h; rfl
      | cons i rest =>
        simp only [writeInitList, Option.bind_eq_bind, Option.bind_eq_some,
          Option.some.injEq] at h
        obtain ⟨c, hc, cs, hcs, h⟩ := h
        subst h
        simp [noZstCallInits, ihE _ _ _ _ _ hc, ihI _ _ _ _ hcs]
    · intro cg ci s l h
      cases s with
      | expression e =>
        simp only [writeStmt] at h
        split at h
        · simp only [Option.bind_eq_bind, Option.bind_eq_some,
            Option.some.injEq] at h
          obtain ⟨c, hc, h⟩ := h
          subst h
          simp [noZstCallStmts, noZstCallStmt, ihE _ _ _ _ _ hc]
        · simp only [Option.some.injEq] at h
          subst h; rfl
      | label id =>
        simp only [writeStmt, Option.some.injEq] at h
        subst h; rfl
    · intro cg ci ss l h
      cases ss with
      | nil =>
        simp only [writeStmtList, Option.some.injEq] at h
        subst h; rfl
      | cons s rest =>
        simp only [writeStmtList, Option.bind_eq_bind, Option.bind_eq_some,
          Option.some.injEq] at h
        obtain ⟨cs, hcs, rest', hrest, h⟩ := h
        subst h
        have h1 := ihS _ _ _ _ hcs
        have h2 := ihSS _ _ _ _ hrest
        simp [noZstCallStmts_append, h1, h2]

/-- Local-definition body items trivially satisfy the call predicate. -/
theorem noZst_localDecls (l : List LocalDef) :
    noZstCallStmts (l.map fun d => CStmt.localDecl d.typ d.id) = true := by
  induction l with
  | nil => rfl
  | cons d ds ih => simp [noZstCallStmts, noZstCallStmt, ih]

/-- C5: emitted signatures use the void type for zero-sized returns and
omit zero-sized parameters; emitted call expressions omit zero-sized
arguments, so no call site in any emitted expression or function body
passes an argument whose IR type is zero-sized. -/
theorem c5_zero_sized_elision :
    (∀ (item : Function) (is_static is_body : Bool),
      (write_function_signature item is_static is_body).returnType =
        (if item.return_type.is_zero_sized then Ty.void
         else item.return_type) ∧
      (write_function_signature item is_static is_body).params =
        item.args.filter (fun arg => !arg.ty.is_zero_sized) ∧
      ∀ p ∈ (write_function_signature item is_static is_body).params,
        p.ty.is_zero_sized = false) ∧
    (∀ cg ci fuel e bb c, writeExpr cg ci fuel e bb = some c →
      noZstCallE c = true) ∧
    (∀ cg fuel item sig ss,
      write_function_body cg fuel item = some (some (sig, ss)) →
      noZstCallStmts ss = true) := by
  refine ⟨?_, ?_, ?_⟩
  · intro item is_static is_body
    refine ⟨rfl, rfl, ?_⟩
    intro p hp
    simp only [write_function_signature] at hp
    have := (List.mem_filter.mp hp).2
    simpa using this
  · intro cg ci fuel e bb c h
    exact (noZst_master fuel).1 cg ci e bb c h
  · intro cg fuel item sig ss h
    cases hb : item.body with
    | none => simp [write_function_body, hb] at h
    | some body =>
      simp only [write_function_body, hb] at h
      split at h <;>
        simp only [Option.bind_eq_bind, Option.bind_eq_some,
          Option.some.injEq, Prod.mk.injEq] at h
      · obtain ⟨l, hl, _, hss⟩ := h
        rw [← hss]
        exact (noZst_master fuel).2.2.2.2.1 cg false _ l hl
      · obtain ⟨l, hl, _, hss⟩ := h
        rw [← hss]
        rw [noZstCallStmts_append]
        simp [noZst_localDecls,
          (noZst_master fuel).2.2.2.2.2 cg false _ l hl]

/-- C5 witness: concrete instances.  The signature of a function with one
`bool` and one `never` parameter keeps only the `bool` one; a call with a
void argument and a `u8` argument emits only the `u8` one. -/
theorem c5_zero_sized_elision_witness :
    (write_function_signature
        ⟨some "f", [], [⟨0, .builtin .bool⟩, ⟨1, .builtin .never⟩],
          .builtin .never, none, false⟩ false false).params =
      [⟨0, .builtin .bool⟩] ∧
    noZstCallE
      (.call (.name 0) [(.builtin .u8, .constVal (.builtin .u8) (.u8 1))]) =
        true := by
  constructor
  · exact ((c5_zero_sized_elision.1
      ⟨some "f", [], [⟨0, .builtin .bool⟩, ⟨1, .builtin .never⟩],
        .builtin .never, none, false⟩ false false).2.1).trans (by rfl)
  · exact c5_zero_sized_elision.2.1 ⟨false, fun _ => 0⟩ false 3
      (.mk .rvalue false
        (.call (.mk .rvalue false (.fnItem 0) none (.builtin .bool))
          [.mk .rvalue false .void none Ty.void,
           .mk .rvalue false (.literal (.u8 1)) none (.builtin .u8)])
        none (.builtin .bool))
      false
      (.call (.name 0) [(.builtin .u8, .constVal (.builtin .u8) (.u8 1))])
      rfl

/-- C6: a function with a body and at least one `never`-typed parameter
emits a body consisting of exactly the `__builtin_unreachable();`
statement; no local definitions and none of the body's own statements are
emitted. -/
theorem c6_never_param_body (cg : CodegenCtx) (fuel : Nat) (item : Function)
    (sig : CSignature) (ss : List CStmt)
    (h : write_function_body cg fuel item = some (some (sig, ss)))
    (hnever : (item.args.any fun a => a.ty.is_never) = true) :
    ss = [CStmt.exprStmt CExpr.unreachable] := by
  cases hb : item.body with
  | none => simp [write_function_body, hb] at h
  | some body =>
    simp only [write_function_body, hb] at h
    rw [if_pos hnever] at h
    simp only [Option.bind_eq_bind, Option.bind_eq_some, Option.some.injEq,
      Prod.mk.injEq] at h
    obtain ⟨l, hl, _, hss⟩ := h
    rw [← hss]
    match fuel, hl with
    | 0, hl => simp [writeStmt] at hl
    | 1, hl =>
      simp [writeStmt, unreachableNeverStmt, Expr.is_void,
        Expr.is_unreachable, Expr.kind, writeExpr] at hl
    | fuel + 2, hl =>
      simp only [writeStmt, unreachableNeverStmt, Expr.is_void,
        Expr.is_unreachable, Expr.kind, writeExpr, Bool.false_and,
        Bool.not_false, if_true, Option.bind_eq_bind, Option.bind_eq_some,
        Option.some.injEq] at hl
      obtain ⟨c, hc, hl⟩ := hl
      rw [← hl, ← hc]

/-- C6 witness: a concrete function with a `never` parameter, a local
definition and a body statement emits exactly the unreachable call. -/
theorem c6_never_param_body_witness :
    write_function_body ⟨false, fun _ => 0⟩ 3
        ⟨some "g", [], [⟨0, .builtin .never⟩], Ty.void,
          some ⟨[⟨1, .builtin .bool⟩],
            [.expression (.mk .rvalue false .void none Ty.void)], none⟩,
          false⟩ =
      some (some (⟨false, false, .noneAttr, true, Ty.void, [], false, none⟩,
        [CStmt.exprStmt CExpr.unreachable])) ∧
    ([CStmt.exprStmt CExpr.unreachable] : List CStmt) =
      [CStmt.exprStmt CExpr.unreachable] := by
  refine ⟨rfl, ?_⟩
  exact c6_never_param_body ⟨false, fun _ => 0⟩ 3
    ⟨some "g", [], [⟨0, .builtin .never⟩], Ty.void,
      some ⟨[⟨1, .builtin .bool⟩],
        [.expression (.mk .rvalue false .void none Ty.void)], none⟩,
      false⟩
    ⟨false, false, .noneAttr, true, Ty.void, [], false, none⟩
    [CStmt.exprStmt CExpr.unreachable] rfl rfl

/-- C7 counterexample: an *exported* function that also carries
`AlwaysInline` is emitted `static` (the signature writer forces `static`
for inline functions regardless of export), so "static iff not exported"
fails. -/
theorem c7_static_counterexample :
    write_function_body ⟨false, fun _ => 0⟩ 2
        ⟨some "f", [.exportAttr, .alwaysInline], [], Ty.void,
          some ⟨[], [], none⟩, false⟩ =
      some (some
        (⟨false, false, .alwaysInlineAttr, true, Ty.void, [], false, none⟩,
          [])) ∧
    ([Attribute.exportAttr, .alwaysInline].contains .exportAttr) = true := by
  exact ⟨rfl, rfl⟩

/-- C7 (amended): the emitted body is `static` iff the function is not
exported and the debug flag is off, **or** the function carries an
effective inline attribute (`AlwaysInline`, or `Inline` not overridden by
`NoInline`). -/
theorem c7_static_emission (cg : CodegenCtx) (fuel : Nat) (item : Function)
    (sig : CSignature) (ss : List CStmt)
    (h : write_function_body cg fuel item = some (some (sig, ss))) :
    sig.isStatic =
      ((!item.attributes.contains .exportAttr && !cg.debug) ||
       (item.attributes.contains .alwaysInline ||
        (!item.attributes.contains .noInline &&
          item.attributes.contains .inline))) := by
  have hsig : sig = write_function_signature item
      (!item.attributes.contains .exportAttr && !cg.debug) true := by
    cases hb : item.body with
    | none => simp [write_function_body, hb] at h
    | some body =>
      simp only [write_function_body, hb] at h
      split at h <;>
        simp only [Option.bind_eq_bind, Option.bind_eq_some,
          Option.some.injEq, Prod.mk.injEq] at h <;>
        obtain ⟨l, _, hsig, _⟩ := h <;>
        exact hsig.symm
  rw [hsig]
  by_cases h1 : Attribute.alwaysInline ∈ item.attributes <;>
    by_cases h2 : Attribute.noInline ∈ item.attributes <;>
    by_cases h3 : Attribute.inline ∈ item.attributes <;>
    by_cases h4 : Attribute.staticConstructor ∈ item.attributes <;>
    simp [write_function_signature, h1, h2, h3, h4, Bool.or_comm]

/-- C7 witness: the amended rule evaluated on the exported always-inline
function: it is emitted static. -/
theorem c7_static_emission_witness :
    write_function_body ⟨false, fun _ => 0⟩ 2
        ⟨some "f", [.exportAttr, .alwaysInline], [], Ty.void,
          some ⟨[], [], none⟩, false⟩ =
      some (some
        (⟨false, false, .alwaysInlineAttr, true, Ty.void, [], false, none⟩,
          [])) ∧
    (true : Bool) =
      ((!([Attribute.exportAttr, .alwaysInline].contains .exportAttr) &&
          !false) ||
       ([Attribute.exportAttr, .alwaysInline].contains .alwaysInline ||
        (!([Attribute.exportAttr, .alwaysInline].contains .noInline) &&
          [Attribute.exportAttr, .alwaysInline].contains .inline))) := by
  refine ⟨rfl, ?_⟩
  exact c7_static_emission ⟨false, fun _ => 0⟩ 2
    ⟨some "f", [.exportAttr, .alwaysInline], [], Ty.void,
      some ⟨[], [], none⟩, false⟩
    ⟨false, false, .alwaysInlineAttr, true, Ty.void, [], false, none⟩
    [] rfl

end Codegen

namespace IR

/-- C4: the spec's zero-sized characterization misses the `Alias` item
kind: an alias of `never` is zero-sized in the source but is not covered by
any of the listed cases. -/
theorem c4_zero_sized_counterexample :
    (Ty.item 0 (.alias (.builtin .never))).is_zero_sized = true ∧
      zstSpecCases (Ty.item 0 (.alias (.builtin .never))) = false := by
  decide

/-- C4 (amended): a type is zero-sized iff it is `never`, or a tuple all of
whose elements are zero-sized, or an array all of whose elements are
zero-sized, or a struct/union all of whose fields are zero-sized, or an
alias of a zero-sized type, or a closure all of whose captured fields are
zero-sized, or a function item, or an enum with zero-sized underlying type;
non-never builtins, pointers and function pointers are never zero-sized. -/
theorem c4_zero_sized_characterization (t : Ty) :
    t.is_zero_sized = zstSpecCasesAmended t := by
  cases t with
  | item id c => cases c <;> rfl
  | builtin b => cases b <;> rfl
  | pointer inner c => rfl
  | array inner size => rfl
  | tuple elems => rfl
  | functionPointer args ret => rfl

/-- C9: `Ty::gcd` is commutative, idempotent, and has `never` as a
two-sided identity. -/
theorem c9_gcd_properties :
    (∀ a b : Ty, Ty.gcd a b = Ty.gcd b a) ∧
      (∀ a : Ty, Ty.gcd a a = a) ∧
      (∀ a : Ty, Ty.gcd a (.builtin .never) = a ∧
        Ty.gcd (.builtin .never) a = a) := by
  refine ⟨?_, ?_, ?_⟩
  · intro a b
    by_cases h : a = b
    · subst h; rfl
    · have h' : ¬b = a := fun e => h e.symm
      unfold Ty.gcd
      simp only [if_neg h, if_neg h']
      cases a <;> cases b <;>
        simp_all [Ty.is_never] <;>
        first
        | rfl
        | (rename_i i1 c1 i2 c2
           cases c1 <;> cases c2 <;> by_cases hab : i1 = i2 <;>
             first
             | (subst hab; simp_all)
             | (have hab2 : ¬i2 = i1 := fun e => hab e.symm; simp_all))
        | (rename_i bb; cases bb <;> simp_all)
  · intro a
    simp [Ty.gcd]
  · intro a
    constructor
    · by_cases h : a = .builtin .never
      · subst h; rfl
      · unfold Ty.gcd
        rw [if_neg h]
        cases a with
        | builtin b => cases b <;> simp_all [Ty.is_never]
        | _ => simp_all [Ty.is_never]
    · by_cases h : Ty.builtin .never = a
      · rw [← h]; rfl
      · unfold Ty.gcd
        rw [if_neg h]
        cases a with
        | builtin b => cases b <;> simp_all [Ty.is_never]
        | _ => simp_all [Ty.is_never]

end IR

namespace Pass1

/-- `attributes.any isLinkName = false` says exactly that no `LinkName`
attribute is present. -/
theorem any_isLinkName_eq_false_iff (attrs : List Attribute) :
    attrs.any isLinkName = false ↔ ∀ s, Attribute.linkName s ∉ attrs := by
  rw [← Bool.not_eq_true, List.any_eq_true]
  constructor
  · intro h s hs
    exact h ⟨.linkName s, hs, rfl⟩
  · rintro h ⟨a, ha, hla⟩
    cases a <;> simp [isLinkName] at hla
    exact h _ ha

/-- A `LinkName` attribute exists iff some element satisfies `isLinkName`. -/
theorem exists_isLinkName_iff (attrs : List Attribute) :
    (∃ x ∈ attrs, isLinkName x = true) ↔
      ∃ s, Attribute.linkName s ∈ attrs := by
  constructor
  · rintro ⟨a, ha, hla⟩
    cases a <;> simp [isLinkName] at hla
    exact ⟨_, ha⟩
  · rintro ⟨s, hs⟩
    exact ⟨.linkName s, hs, rfl⟩

/-- No element satisfies `isLinkName` iff no `LinkName` attribute exists. -/
theorem forall_not_isLinkName_iff (attrs : List Attribute) :
    (∀ x ∈ attrs, ¬isLinkName x = true) ↔
      ∀ s, Attribute.linkName s ∉ attrs := by
  constructor
  · intro h s hs
    exact h _ hs rfl
  · intro h x hx hlx
    cases x <;> simp [isLinkName] at hlx
    exact h _ hx

/-- C8: on the designated main module, outside the test configuration, a
function is recorded as the entry-point candidate exactly when it sits
directly in the main module's scope, is named `main`, and carries neither
`Export` nor any `LinkName` attribute; under the test configuration the
candidate is the function carrying `test_main`; a second candidate in
either mode is a `MultipleMainFunctions` error. -/
theorem c8_main_detection (st : FirstPassState) (path scopePath : Path)
    (name : String) (attrs : List Attribute) (item : Nat)
    (hmod : st.main_module_path = some path) :
    (st.cfgTest = false → st.main_candidate = none →
      ((visit_function_definition st scopePath name attrs item =
          .ok { st with main_candidate := some item } ↔
        (scopePath = path ∧ name = "main" ∧
          Attribute.exportAttr ∉ attrs ∧
          ∀ s, Attribute.linkName s ∉ attrs)) ∧
       (¬(scopePath = path ∧ name = "main" ∧
          Attribute.exportAttr ∉ attrs ∧
          ∀ s, Attribute.linkName s ∉ attrs) →
        visit_function_definition st scopePath name attrs item = .ok st))) ∧
    (st.cfgTest = true → st.main_candidate = none →
      (visit_function_definition st scopePath name attrs item =
          .ok { st with main_candidate := some item } ↔
        Attribute.testMain ∈ attrs)) ∧
    (∀ prev, st.main_candidate = some prev →
      ((st.cfgTest = true ∧ Attribute.testMain ∈ attrs) ∨
       (st.cfgTest = false ∧ scopePath = path ∧ name = "main" ∧
         Attribute.exportAttr ∉ attrs ∧
         ∀ s, Attribute.linkName s ∉ attrs)) →
      visit_function_definition st scopePath name attrs item =
        .error .multipleMainFunctions) := by
  obtain ⟨mmp, ct, mc⟩ := st
  simp only [FirstPassState.main_module_path] at hmod
  subst hmod
  refine ⟨?_, ?_, ?_⟩
  · intro hct hmc
    simp only [FirstPassState.cfgTest] at hct
    simp only [FirstPassState.main_candidate] at hmc
    subst hct
    subst hmc
    by_cases h1 : scopePath = path <;>
      by_cases h2 : name = "main" <;>
      by_cases h3 : Attribute.exportAttr ∈ attrs <;>
      by_cases h4 : attrs.any isLinkName <;>
      simp_all [visit_function_definition, exists_isLinkName_iff,
        forall_not_isLinkName_iff]
  · intro hct hmc
    simp only [FirstPassState.cfgTest] at hct
    simp only [FirstPassState.main_candidate] at hmc
    subst hct
    subst hmc
    by_cases h1 : Attribute.testMain ∈ attrs <;>
      simp_all [visit_function_definition]
  · intro prev hprev hcond
    simp only [FirstPassState.main_candidate] at hprev
    subst hprev
    rcases hcond with ⟨hct, htm⟩ | ⟨hct, h1, h2, h3, h4⟩ <;>
      simp only [FirstPassState.cfgTest] at hct <;>
      subst hct
    · simp_all [visit_function_definition]
    · have h4' : attrs.any isLinkName = false :=
        (any_isLinkName_eq_false_iff attrs).mpr h4
      simp_all [visit_function_definition]

/-- C8 witness: in a main module `["prog"]`, a plain function `main` in
that scope is recorded; a second one errors with `MultipleMainFunctions`. -/
theorem c8_main_detection_witness :
    visit_function_definition ⟨some ["prog"], false, none⟩ ["prog"] "main"
        [] 7 = .ok ⟨some ["prog"], false, some 7⟩ ∧
    visit_function_definition ⟨some ["prog"], false, some 7⟩ ["prog"] "main"
        [] 8 = .error .multipleMainFunctions := by
  constructor
  · exact ((c8_main_detection ⟨some ["prog"], false, none⟩ ["prog"] ["prog"]
      "main" [] 7 rfl).1 rfl rfl).1.mpr
      ⟨rfl, rfl, by simp, by simp⟩
  · exact (c8_main_detection ⟨some ["prog"], false, some 7⟩ ["prog"] ["prog"]
      "main" [] 8 rfl).2.2 7 rfl
      (Or.inr ⟨rfl, rfl, rfl, by simp, by simp⟩)

end Pass1

namespace Ast

/-- `List.lookup` distributes over append, first list first. -/
theorem lookup_append {α : Type} (l1 l2 : List (Nat × α)) (k : Nat) :
    (l1 ++ l2).lookup k =
      match l1.lookup k with
      | some v => some v
      | none => l2.lookup k := by
  induction l1 with
  | nil => simp [List.lookup]
  | cons p t ih =>
    by_cases h : k = p.1
    · simp [List.lookup, h]
    · have h' : (k == p.1) = false := by simpa using h
      simp [List.lookup, h', ih]

/-- A key absent from the key list looks up to `none`. -/
theorem lookup_eq_none_of_not_mem {α : Type} (l : List (Nat × α)) (k : Nat)
    (h : k ∉ l.map Prod.fst) : l.lookup k = none := by
  induction l with
  | nil => rfl
  | cons p t ih =>
    simp only [List.map_cons, List.mem_cons] at h
    push_neg at h
    have h' : (k == p.1) = false := by simpa using h.1
    simp [List.lookup, h', ih h.2]

/-- With pairwise-distinct keys, lookup is order-independent: reversing
the association list does not change it. -/
theorem lookup_reverse_of_nodup {α : Type} (l : List (Nat × α))
    (h : (l.map Prod.fst).Nodup) (k : Nat) :
    l.reverse.lookup k = l.lookup k := by
  induction l with
  | nil => rfl
  | cons p t ih =>
    simp only [List.map_cons, List.nodup_cons] at h
    rw [List.reverse_cons, lookup_append, ih h.2]
    by_cases hk : k = p.1
    · subst hk
      rw [lookup_eq_none_of_not_mem t _ h.1]
      simp [List.lookup]
    · have h' : (k == p.1) = false := by simpa using hk
      simp only [List.lookup, h']
      cases t.lookup k <;> simp [List.lookup, h']

/-- In the paired-up projection of two lists, a key at position `i` (with
pairwise-distinct keys) looks up to the value at position `i`. -/
theorem lookup_zip_pairs (ps : List MacroParameter) (xs : List Expr)
    (i : Nat) (p : MacroParameter) (a : Expr)
    (hp : ps.get? i = some p) (ha : xs.get? i = some a)
    (hnod : (ps.map MacroParameter.id).Nodup) :
    (List.zipWith (fun (p : MacroParameter) (x : Expr) => (p.id, x))
      ps xs).lookup p.id = some a := by
  induction ps generalizing i xs with
  | nil => simp at hp
  | cons q qs ih =>
    cases xs with
    | nil => simp at ha
    | cons x xs =>
      simp only [List.map_cons, List.nodup_cons] at hnod
      cases i with
      | zero =>
        simp only [List.get?] at hp ha
        cases hp; cases ha
        simp [List.lookup]
      | succ j =>
        simp only [List.get?] at hp ha
        have hmem : p ∈ qs := by
          exact List.get?_mem hp
        have hne : (p.id == q.id) = false := by
          have : p.id ∈ qs.map MacroParameter.id := List.mem_map_of_mem _ hmem
          have : q.id ≠ p.id := fun e => hnod.1 (e ▸ this)
          simpa using fun e => this e.symm
        simp only [List.zipWith, List.lookup, hne]
        exact ih xs j hp ha hnod.2

/-- `findIdx?` returning `some k` pins an element at `k` satisfying the
predicate. -/
theorem findIdxQ_spec {α : Type} (p : α → Bool) (l : List α) (k : Nat)
    (h : l.findIdx? p = some k) : ∃ x, l.get? k = some x ∧ p x = true := by
  induction l generalizing k with
  | nil => simp [List.findIdx?] at h
  | cons a t ih =>
    rw [List.findIdx?_cons] at h
    by_cases hp : p a
    · simp [hp] at h
      subst h
      exact ⟨a, rfl, hp⟩
    · simp [hp] at h
      obtain ⟨k', hk', rfl⟩ := h
      obtain ⟨x, hx, hpx⟩ := ih k' hk'
      exact ⟨x, by simpa using hx, hpx⟩

/-- The keys of the paired-up projection are the (truncated) parameter
ids. -/
theorem zip_pairs_keys (ps : List MacroParameter) (xs : List Expr) :
    (List.zipWith (fun (p : MacroParameter) (x : Expr) => (p.id, x))
        ps xs).map Prod.fst =
      (ps.take xs.length).map MacroParameter.id := by
  induction ps generalizing xs with
  | nil => simp
  | cons q qs ih =>
    cases xs with
    | nil => simp
    | cons x xs => simp [ih]

/-- C1: argument binding of a user-defined macro.  Without an et-cetera
parameter, binding fails with `ParamCountMismatch` exactly when M ≠ N and
otherwise binds parameter i to argument i.  With the et-cetera parameter
at position k, binding fails with `NotEnoughMacroArguments` exactly when
M < N − 1; otherwise parameters 0..k bind to arguments 0..k, the
et-cetera parameter is bound to the tuple `args[k .. k + (M − N + 1)]`,
and parameters k+1..N bind to the arguments shifted by M − N + 1 − 1
(`args[i + etc_count − 1]`).  Finally, a splice over zero variadic
arguments produces zero copies. -/
theorem c1_argument_binding (params : List MacroParameter)
    (args : List Expr) (invSpan : Option Span)
    (hnodup : (params.map MacroParameter.id).Nodup) :
    (params.findIdx? (fun p => p.et_cetera) = none →
      ((bindArgs params args invSpan =
          .error (.codeError
            (.paramCountMismatch params.length args.length) invSpan) ↔
        args.length ≠ params.length) ∧
       (args.length = params.length →
        ∃ repl, bindArgs params args invSpan = .ok (repl, none) ∧
          ∀ i p a, params.get? i = some p → args.get? i = some a →
            repl.lookup p.id = some a))) ∧
    (∀ k, params.findIdx? (fun p => p.et_cetera) = some k →
      ((bindArgs params args invSpan =
          .error (.codeError
            (.notEnoughMacroArguments (params.length - 1)) invSpan) ↔
        args.length < params.length - 1) ∧
       (params.length - 1 ≤ args.length →
        ∃ repl pk, params.get? k = some pk ∧
          bindArgs params args invSpan =
            .ok (repl, some (pk.id,
              (args.drop k).take (args.length + 1 - params.length))) ∧
          (∀ i p a, i < k → params.get? i = some p →
            args.get? i = some a → repl.lookup p.id = some a) ∧
          (∀ i p a, k < i → params.get? i = some p →
            args.get? (i + (args.length + 1 - params.length) - 1) =
              some a → repl.lookup p.id = some a)))) ∧
    (∀ (ctx : ExpandCtx) (fuel : Nat) (st : ExpState) (inner : Expr)
      (idx : Nat), spliceLoop ctx (fuel + 1) st inner idx 0 = .ok ([], st))
    := by
  refine ⟨?_, ?_, ?_⟩
  · intro hfind
    constructor
    · constructor
      · intro h
        intro hlen
        rw [bindArgs, hfind] at h
        simp only [hlen] at h
        simp at h
      · intro hne
        rw [bindArgs, hfind]
        simp [hne]
    · intro hlen
      refine ⟨(List.zipWith (fun (p : MacroParameter) (a : Expr) =>
        (p.id, a)) params args).reverse, ?_, ?_⟩
      · rw [bindArgs, hfind]
        simp [hlen]
      · intro i p a hp ha
        have hkeys :
            ((List.zipWith (fun (p : MacroParameter) (x : Expr) =>
              (p.id, x)) params args).map Prod.fst).Nodup := by
          rw [zip_pairs_keys]
          exact hnodup.sublist ((List.take_sublist _ _).map _)
        rw [lookup_reverse_of_nodup _ hkeys]
        exact lookup_zip_pairs params args i p a hp ha hnodup
  · intro k hfind
    obtain ⟨pk0, hpk0, _⟩ := findIdxQ_spec _ _ _ hfind
    have hklt : k < params.length := by
      by_contra hk
      rw [List.get?_eq_none.mpr (by omega)] at hpk0
      exact Option.noConfusion hpk0
    constructor
    · constructor
      · intro h
        by_contra hge
        rw [bindArgs, hfind] at h
        simp only [if_neg hge, hpk0] at h
        simp at h
      · intro hlt
        rw [bindArgs, hfind]
        simp [hlt]
    · intro hge
      have hge' : ¬args.length < params.length - 1 := by omega
      have hMk : k ≤ args.length := by omega
      refine ⟨((List.zipWith (fun (p : MacroParameter) (a : Expr) =>
        (p.id, a)) (params.take k) (args.take k)) ++
        (List.zipWith (fun (p : MacroParameter) (a : Expr) => (p.id, a))
          (params.drop (k + 1))
          (args.drop (k + (args.length + 1 - params.length))))).reverse,
        pk0, hpk0, ?_, ?_, ?_⟩
      · rw [bindArgs, hfind]
        simp only [if_neg hge', hpk0]
      · intro i p a hik hp ha
        have hkeys1 :
            (List.zipWith (fun (p : MacroParameter) (x : Expr) =>
              (p.id, x)) (params.take k) (args.take k)).map Prod.fst =
            (params.take k).map MacroParameter.id := by
          rw [zip_pairs_keys]
          congr 1
          rw [List.take_take]
          congr 1
          have : (args.take k).length = k := by
            rw [List.length_take]
            omega
          omega
        have hkeys2 :
            (List.zipWith (fun (p : MacroParameter) (x : Expr) =>
              (p.id, x)) (params.drop (k + 1))
              (args.drop (k + (args.length + 1 - params.length)))).map
                Prod.fst =
            (params.drop (k + 1)).map MacroParameter.id := by
          rw [zip_pairs_keys]
          congr 1
          have hlen2 : (args.drop
              (k + (args.length + 1 - params.length))).length =
              params.length - (k + 1) := by
            rw [List.length_drop]
            omega
          rw [hlen2, List.take_all_of_le]
          rw [List.length_drop]
        have hsub : (params.take k ++ params.drop (k + 1)).Sublist params
            := by
          conv_rhs => rw [← List.take_append_drop k params]
          have hdd : params.drop (k + 1) = (params.drop k).drop 1 := by
            rw [List.drop_drop]
          exact (hdd ▸ (List.drop_sublist 1 (params.drop k))).append_left _
        have hkeysNodup :
            (((List.zipWith (fun (p : MacroParameter) (x : Expr) =>
              (p.id, x)) (params.take k) (args.take k)) ++
              (List.zipWith (fun (p : MacroParameter) (x : Expr) =>
              (p.id, x)) (params.drop (k + 1))
              (args.drop (k + (args.length + 1 - params.length))))).map
                Prod.fst).Nodup := by
          rw [List.map_append, hkeys1, hkeys2, ← List.map_append]
          exact hnodup.sublist (hsub.map _)
        rw [lookup_reverse_of_nodup _ hkeysNodup, lookup_append]
        have hp' : (params.take k).get? i = some p := by
          rw [List.get?_take hik]
          exact hp
        have ha' : (args.take k).get? i = some a := by
          rw [List.get?_take hik]
          exact ha
        have h1 := lookup_zip_pairs (params.take k) (args.take k) i p a
          hp' ha'
          (hnodup.sublist ((List.take_sublist _ _).map _))
        rw [h1]
      · intro i p a hik hp ha
        have hkeys1 :
            (List.zipWith (fun (p : MacroParameter) (x : Expr) =>
              (p.id, x)) (params.take k) (args.take k)).map Prod.fst =
            (params.take k).map MacroParameter.id := by
          rw [zip_pairs_keys]
          congr 1
          rw [List.take_take]
          congr 1
          have : (args.take k).length = k := by
            rw [List.length_take]
            omega
          omega
        have hkeys2 :
            (List.zipWith (fun (p : MacroParameter) (x : Expr) =>
              (p.id, x)) (params.drop (k + 1))
              (args.drop (k + (args.length + 1 - params.length)))).map
                Prod.fst =
            (params.drop (k + 1)).map MacroParameter.id := by
          rw [zip_pairs_keys]
          congr 1
          have hlen2 : (args.drop
              (k + (args.length + 1 - params.length))).length =
              params.length - (k + 1) := by
            rw [List.length_drop]
            omega
          rw [hlen2, List.take_all_of_le]
          rw [List.length_drop]
        have hilt : i < params.length := by
          by_contra hi
          rw [List.get?_eq_none.mpr (by omega)] at hp
          exact Option.noConfusion hp
        have hsub : (params.take k ++ params.drop (k + 1)).Sublist params
            := by
          conv_rhs => rw [← List.take_append_drop k params]
          have hdd : params.drop (k + 1) = (params.drop k).drop 1 := by
            rw [List.drop_drop]
          exact (hdd ▸ (List.drop_sublist 1 (params.drop k))).append_left _
        have hkeysNodup :
            (((List.zipWith (fun (p : MacroParameter) (x : Expr) =>
              (p.id, x)) (params.take k) (args.take k)) ++
              (List.zipWith (fun (p : MacroParameter) (x : Expr) =>
              (p.id, x)) (params.drop (k + 1))
              (args.drop (k + (args.length + 1 - params.length))))).map
                Prod.fst).Nodup := by
          rw [List.map_append, hkeys1, hkeys2, ← List.map_append]
          exact hnodup.sublist (hsub.map _)
        rw [lookup_reverse_of_nodup _ hkeysNodup, lookup_append]
        have hp'' : (params.drop (k + 1)).get? (i - (k + 1)) = some p := by
          rw [List.get?_drop]
          have : k + 1 + (i - (k + 1)) = i := by omega
          rw [this]
          exact hp
        have ha'' : (args.drop
            (k + (args.length + 1 - params.length))).get? (i - (k + 1)) =
            some a := by
          rw [List.get?_drop]
          have : k + (args.length + 1 - params.length) + (i - (k + 1)) =
              i + (args.length + 1 - params.length) - 1 := by omega
          rw [this]
          exact ha
        have hpid2 : p.id ∈ (params.drop (k + 1)).map MacroParameter.id :=
          List.mem_map_of_mem _ (List.get?_mem hp'')
        have hdisj := (List.nodup_append.mp
          (by rw [← List.map_append]
              exact hnodup.sublist (hsub.map _))).2.2
        have hnotin1 : p.id ∉ (params.take k).map MacroParameter.id :=
          fun hmem => hdisj hmem hpid2
        have h0 : (List.zipWith (fun (p : MacroParameter) (x : Expr) =>
            (p.id, x)) (params.take k) (args.take k)).lookup p.id =
            none := by
          apply lookup_eq_none_of_not_mem
          rw [hkeys1]
          exact hnotin1
        rw [h0]
        have hsubd : (params.drop (k + 1)).Sublist params := by
          have hdd : params.drop (k + 1) = (params.drop k).drop 1 := by
            rw [List.drop_drop]
          exact hdd ▸ ((List.drop_sublist 1 (params.drop k)).trans
            (List.drop_sublist k params))
        have hnodup2 : ((params.drop (k + 1)).map MacroParameter.id).Nodup
            := hnodup.sublist (hsubd.map _)
        have h2 := lookup_zip_pairs (params.drop (k + 1))
          (args.drop (k + (args.length + 1 - params.length)))
          (i - (k + 1)) p a hp'' ha'' hnodup2
        rw [h2]
  · intro ctx fuel st inner idx
    rfl

/-- C1 witness: `macro m($a, $rest...)` called with three arguments: the
`NotEnoughMacroArguments` check is `3 < 2 − 1`, i.e. passes. -/
theorem c1_argument_binding_witness :
    (([⟨0, false, none⟩, ⟨1, true, none⟩] : List MacroParameter).map
        MacroParameter.id).Nodup ∧
    (bindArgs [⟨0, false, none⟩, ⟨1, true, none⟩]
        [Expr.mk .void none, Expr.mk .continueExpr none,
          Expr.mk (.lit .null) none] none =
      .error (.codeError (.notEnoughMacroArguments 1) none) ↔
      (3 : Nat) < 2 - 1) := by
  refine ⟨by decide, ?_⟩
  exact ((c1_argument_binding [⟨0, false, none⟩, ⟨1, true, none⟩]
    [Expr.mk .void none, Expr.mk .continueExpr none,
      Expr.mk (.lit .null) none] none (by decide)).2.1 1 rfl).1

/-- C10: the `IncludeBytes` builtin indexes its first argument without an
arity check: with zero arguments it panics (out-of-bounds index) instead
of reporting `ParamCountMismatch`; with at least one argument the index is
fine, a non-string-literal first argument is `ConstantStringExpected`, and
a string literal proceeds to the file read. -/
theorem c10_includeBytes (ctx : ExpandCtx) (fuel : Nat)
    (invSpan : Option Span) (counter : Nat) :
    (expandBuiltin ctx (fuel + 1) .includeBytes [] invSpan counter =
      .error .panic) ∧
    (∀ (a : Expr) (rest : List Expr),
      (∀ s, a.kind ≠ .lit (.str s)) →
      expandBuiltin ctx (fuel + 1) .includeBytes (a :: rest) invSpan
          counter =
        .error (.codeError .constantStringExpected invSpan)) ∧
    (∀ (a : Expr) (s : String) (rest : List Expr),
      a.kind = .lit (.str s) →
      expandBuiltin ctx (fuel + 1) .includeBytes (a :: rest) invSpan
          counter =
        match ctx.fs s with
        | some data => .ok (.mk (.lit (.str data)) invSpan, counter)
        | none => .error (.codeError (.cannotReadFile s) invSpan)) := by
  refine ⟨rfl, ?_, ?_⟩
  · intro a rest h
    obtain ⟨k, sp⟩ := a
    simp only [Expr.kind] at h
    cases k <;> first
      | rfl
      | (rename_i l
         cases l <;> first
          | rfl
          | (rename_i s; exact absurd rfl (h s)))
  · intro a s rest h
    obtain ⟨k, sp⟩ := a
    simp only [Expr.kind] at h
    subst h
    rfl

/-- `Except` bind inversion. -/
theorem exceptBind_ok {ε α β : Type} {x : Except ε α} {f : α → Except ε β}
    {b : β} : (x >>= f) = .ok b ↔ ∃ a, x = .ok a ∧ f a = .ok b := by
  cases x <;> simp [Bind.bind, Except.bind]

theorem frame_refl (st : ExpState) : Frame st st :=
  ⟨Nat.le_refl _, rfl, rfl, rfl⟩

theorem frame_trans {a b c : ExpState} (h1 : Frame a b) (h2 : Frame b c) :
    Frame a c :=
  ⟨Nat.le_trans h1.1 h2.1, h2.2.1.trans h1.2.1, h2.2.2.1.trans h1.2.2.1,
    h2.2.2.2.trans h1.2.2.2⟩

/-- The state expressions depend only on the frame-preserved fields. -/
theorem stateExprs_eq_of_frame {a b : ExpState} (h : Frame a b) :
    stateExprsOf b = stateExprsOf a := by
  unfold stateExprsOf
  rw [h.2.2.1, h.2.2.2]

/-- Widen a `LetsOk` fact: same state expressions, a larger input set, and
an enclosing counter window. -/
theorem letsOk_mono {ctx : ExpandCtx} {stA stB stC stD : ExpState}
    {inl inl' out : List Nat} (h : LetsOk ctx stB stC inl out)
    (hse : stateExprsOf stB = stateExprsOf stA)
    (hsub : ∀ i, i ∈ inl → i ∈ inl')
    (h1 : stA.counter ≤ stB.counter) (h2 : stC.counter ≤ stD.counter) :
    LetsOk ctx stA stD inl' out := by
  intro i hi
  rcases h i hi with h | h | h | h
  · left; rw [← hse]; exact h
  · right; left; exact hsub i h
  · right; right; left; exact h
  · right; right; right; omega

/-- Widen a `SpansOk` fact: same invocation span and state expressions,
and a larger input leak set. -/
theorem spansOk_mono {ctx : ExpandCtx} {stA stB : ExpState}
    {inl inl' out : List (Option Span)} (h : SpansOk ctx stB inl out)
    (hse : stateExprsOf stB = stateExprsOf stA)
    (hinv : stB.invocationSpan = stA.invocationSpan)
    (hsub : ∀ sp, sp ∈ inl → sp ∈ inl') :
    SpansOk ctx stA inl' out := by
  intro sp hsp
  rcases h sp hsp with h | h | h | h
  · left; rw [← hinv]; exact h
  · right; left; rw [← hse]; exact h
  · right; right; left; exact hsub sp h
  · right; right; right; exact h

/-- Split a `LetsOk` goal over an appended output. -/
theorem letsOk_append {ctx : ExpandCtx} {st st' : ExpState}
    {inl out1 out2 : List Nat} (h1 : LetsOk ctx st st' inl out1)
    (h2 : LetsOk ctx st st' inl out2) :
    LetsOk ctx st st' inl (out1 ++ out2) := by
  intro i hi
  rcases List.mem_append.mp hi with h | h
  · exact h1 i h
  · exact h2 i h

/-- Split a `SpansOk` goal over an appended output. -/
theorem spansOk_append {ctx : ExpandCtx} {st : ExpState}
    {inl : List (Option Span)} {out1 out2 : List (Option Span)}
    (h1 : SpansOk ctx st inl out1) (h2 : SpansOk ctx st inl out2) :
    SpansOk ctx st inl (out1 ++ out2) := by
  intro sp hsp
  rcases List.mem_append.mp hsp with h | h
  · exact h1 sp h
  · exact h2 sp h

/-- Empty outputs are trivially fine. -/
theorem letsOk_nil {ctx : ExpandCtx} {st st' : ExpState} {inl : List Nat} :
    LetsOk ctx st st' inl [] := by
  intro i hi
  simp at hi

theorem spansOk_nil {ctx : ExpandCtx} {st : ExpState}
    {inl : List (Option Span)} : SpansOk ctx st inl [] := by
  intro sp hsp
  simp at hsp

/-- A let id inside a member of a list is among the list's let ids. -/
theorem mem_letIdsL_of_mem {x : Expr} {l : List Expr} (hx : x ∈ l) {i : Nat}
    (hi : i ∈ letIdsE x) : i ∈ letIdsL l := by
  induction l with
  | nil => simp at hx
  | cons a t ih =>
    rcases List.mem_cons.mp hx with rfl | hx
    · simp [letIdsL, List.mem_append, hi]
    · simp [letIdsL, List.mem_append, ih hx]

/-- A span inside a member of a list is among the list's spans. -/
theorem mem_spansL_of_mem {x : Expr} {l : List Expr} (hx : x ∈ l)
    {sp : Option Span} (hsp : sp ∈ spansE x) : sp ∈ spansL l := by
  induction l with
  | nil => simp at hx
  | cons a t ih =>
    rcases List.mem_cons.mp hx with rfl | hx
    · simp [spansL, List.mem_append, hsp]
    · simp [spansL, List.mem_append, ih hx]

/-- A looked-up value is among the mapped values. -/
theorem lookup_mem_values {α : Type} {l : List (Nat × α)} {k : Nat} {v : α}
    (h : l.lookup k = some v) : v ∈ l.map Prod.snd := by
  induction l with
  | nil => simp [List.lookup] at h
  | cons p t ih =>
    by_cases hk : k = p.1
    · subst hk
      simp [List.lookup] at h
      simp [h]
    · have hk' : (k == p.1) = false := by simpa using hk
      simp only [List.lookup, hk'] at h
      simp [ih h]

/-- `letIdsL`/`spansL` distribute over append. -/
theorem letIdsL_append (a b : List Expr) :
    letIdsL (a ++ b) = letIdsL a ++ letIdsL b := by
  induction a with
  | nil => simp [letIdsL]
  | cons x t ih => simp [letIdsL, ih]

theorem spansL_append (a b : List Expr) :
    spansL (a ++ b) = spansL a ++ spansL b := by
  induction a with
  | nil => simp [spansL]
  | cons x t ih => simp [spansL, ih]

theorem letIdsSL_append (a b : List Statement) :
    letIdsSL (a ++ b) = letIdsSL a ++ letIdsSL b := by
  induction a with
  | nil => simp [letIdsSL]
  | cons x t ih => simp [letIdsSL, ih]

theorem spansSL_append (a b : List Statement) :
    spansSL (a ++ b) = spansSL a ++ spansSL b := by
  induction a with
  | nil => simp [spansSL]
  | cons x t ih => simp [spansSL, ih]

/-- Splice copies wrapped as expression statements keep the copies' let
ids... -/
theorem letIdsSL_mapExpr (l : List Expr) (sp : Option Span) :
    letIdsSL (l.map fun e => Statement.mk (.expression e) sp) =
      letIdsL l := by
  induction l with
  | nil => rfl
  | cons x t ih => simp [letIdsSL, letIdsS, letIdsSK, letIdsL, ih]

/-- ... and contribute only the splice span and the copies' spans. -/
theorem spansSL_mapExpr (l : List Expr) (sp2 : Option Span)
    (sp : Option Span)
    (h : sp ∈ spansSL (l.map fun e => Statement.mk (.expression e) sp2)) :
    sp = sp2 ∨ sp ∈ spansL l := by
  induction l with
  | nil => simp [spansSL] at h
  | cons x t ih =>
    simp only [List.map_cons, spansSL, spansS, spansSK,
      List.mem_append, List.mem_cons] at h
    rcases h with (rfl | h) | h
    · exact Or.inl rfl
    · exact Or.inr (by simp [spansL, List.mem_append, h])
    · rcases ih h with h | h
      · exact Or.inl h
      · exact Or.inr (by simp [spansL, List.mem_append, h])

/-- Membership in a list's collected let ids comes from some member. -/
theorem mem_letIdsL_iff {i : Nat} {l : List Expr} :
    i ∈ letIdsL l ↔ ∃ x ∈ l, i ∈ letIdsE x := by
  induction l with
  | nil => simp [letIdsL]
  | cons a t ih => simp [letIdsL, List.mem_append, ih]

/-- Membership in a list's collected spans comes from some member. -/
theorem mem_spansL_iff {sp : Option Span} {l : List Expr} :
    sp ∈ spansL l ↔ ∃ x ∈ l, sp ∈ spansE x := by
  induction l with
  | nil => simp [spansL]
  | cons a t ih => simp [spansL, List.mem_append, ih]

/-- The values of the paired-up projection are the (truncated)
arguments. -/
theorem zip_pairs_values (ps : List MacroParameter) (xs : List Expr) :
    (List.zipWith (fun (p : MacroParameter) (x : Expr) => (p.id, x))
        ps xs).map Prod.snd = xs.take ps.length := by
  induction ps generalizing xs with
  | nil => simp
  | cons q qs ih =>
    cases xs with
    | nil => simp
    | cons x xs => simp [ih]

/-- Every expression an argument binding stores — replacement values and
the elements of the et-cetera slice — is one of the macro arguments. -/
theorem bindArgs_mem {params : List MacroParameter} {args : List Expr}
    {invSpan : Option Span} {repl : List (AstId × Expr)}
    {etc : Option (AstId × List Expr)}
    (h : bindArgs params args invSpan = .ok (repl, etc)) :
    (∀ x ∈ repl.map Prod.snd, x ∈ args) ∧
    (∀ pid l, etc = some (pid, l) → ∀ x ∈ l, x ∈ args) := by
  simp only [bindArgs] at h
  split at h
  · split at h
    · exact Except.noConfusion h
    · split at h
      · exact Except.noConfusion h
      · simp only [Except.ok.injEq, Prod.mk.injEq] at h
        obtain ⟨rfl, rfl⟩ := h
        constructor
        · intro x hx
          rw [List.map_reverse, List.mem_reverse, List.map_append] at hx
          rcases List.mem_append.mp hx with hx | hx
          · rw [zip_pairs_values] at hx
            exact List.take_subset _ _ (List.take_subset _ _ hx)
          · rw [zip_pairs_values] at hx
            exact List.drop_subset _ _ (List.take_subset _ _ hx)
        · intro pid l hl x hx
          simp only [Option.some.injEq, Prod.mk.injEq] at hl
          obtain ⟨rfl, rfl⟩ := hl
          exact List.drop_subset _ _ (List.take_subset _ _ hx)
  · split at h
    · exact Except.noConfusion h
    · simp only [Except.ok.injEq, Prod.mk.injEq] at h
      obtain ⟨rfl, rfl⟩ := h
      constructor
      · intro x hx
        rw [List.map_reverse, List.mem_reverse, zip_pairs_values] at hx
        exact List.take_subset _ _ hx
      · intro pid l hl
        exact Option.noConfusion hl

/-- The `FormatArgs` piece assembly only produces invocation-span string
literals and verbatim arguments. -/
theorem buildFormatArgs_mem {args : List Expr} {invSpan : Option Span}
    {pieces : List Piece} {extra : List Expr}
    (h : buildFormatArgs args invSpan pieces = .ok extra) :
    (∀ i ∈ letIdsL extra, i ∈ letIdsL args) ∧
    (∀ sp ∈ spansL extra, sp = invSpan ∨ sp ∈ spansL args) := by
  induction pieces generalizing extra with
  | nil =>
    simp only [buildFormatArgs, Except.ok.injEq] at h
    subst h
    exact ⟨fun i hi => by simp [letIdsL] at hi,
      fun sp hsp => by simp [spansL] at hsp⟩
  | cons p rest ih =>
    cases p with
    | stringPiece s =>
      simp only [buildFormatArgs] at h
      split at h
      · exact Except.noConfusion h
      · rename_i tail htail
        simp only [Except.ok.injEq] at h
        subst h
        obtain ⟨ihl, ihs⟩ := ih htail
        constructor
        · intro i hi
          simp only [letIdsL, letIdsE, letIdsK, List.nil_append] at hi
          exact ihl i hi
        · intro sp hsp
          simp only [spansL, spansE, spansK, List.cons_append,
            List.nil_append] at hsp
          rcases List.mem_cons.mp hsp with rfl | hsp
          · exact Or.inl rfl
          · exact ihs sp hsp
    | argument ix =>
      simp only [buildFormatArgs] at h
      split at h
      · exact Except.noConfusion h
      · rename_i a ha
        split at h
        · exact Except.noConfusion h
        · rename_i tail htail
          simp only [Except.ok.injEq] at h
          subst h
          obtain ⟨ihl, ihs⟩ := ih htail
          constructor
          · intro i hi
            simp only [letIdsL] at hi
            rcases List.mem_append.mp hi with hi | hi
            · exact mem_letIdsL_of_mem (List.get?_mem ha) hi
            · exact ihl i hi
          · intro sp hsp
            simp only [spansL] at hsp
            rcases List.mem_append.mp hsp with hsp | hsp
            · exact Or.inr (mem_spansL_of_mem (List.get?_mem ha) hsp)
            · exact ihs sp hsp

/-- Master invariant of the macro expander, by induction on fuel: the
counter grows monotonically and the expander-local bindings are stable
(`Frame`); every let-declaration id in the output comes from a bound
argument, from the input (or the consulted macro bodies), or was freshly
minted in this step's counter window (`LetsOk`); every span in the output
is the invocation span, a span of a bound argument, a leakable span of
the input, or a leakable span of some macro body (`SpansOk`). -/
theorem expansion_master (ctx : ExpandCtx) (fuel : Nat) :
    (∀ itemId args invSpan counter r counter',
      expand ctx fuel itemId args invSpan counter = .ok (r, counter') →
      counter ≤ counter' ∧
      (∀ i ∈ letIdsE r, i ∈ letIdsL args ∨ CtxLets ctx i ∨
        (counter ≤ i ∧ i < counter')) ∧
      (∀ sp ∈ spansE r, sp = invSpan ∨ sp ∈ spansL args ∨
        CtxLeakSpans ctx sp)) ∧
    (∀ params body args invSpan counter r counter',
      expandRegular ctx fuel params body args invSpan counter =
        .ok (r, counter') →
      counter ≤ counter' ∧
      (∀ i ∈ letIdsE r, i ∈ letIdsL args ∨
        (∃ b, body = some b ∧ i ∈ letIdsE b) ∨ CtxLets ctx i ∨
        (counter ≤ i ∧ i < counter')) ∧
      (∀ sp ∈ spansE r, sp = invSpan ∨ sp ∈ spansL args ∨
        (∃ b, body = some b ∧ sp ∈ leakE b) ∨ CtxLeakSpans ctx sp)) ∧
    (∀ kind args invSpan counter r counter',
      expandBuiltin ctx fuel kind args invSpan counter =
        .ok (r, counter') →
      counter ≤ counter' ∧
      (∀ i ∈ letIdsE r, i ∈ letIdsL args ∨ CtxLets ctx i ∨
        (counter ≤ i ∧ i < counter')) ∧
      (∀ sp ∈ spansE r, sp = invSpan ∨ sp ∈ spansL args ∨
        CtxLeakSpans ctx sp)) ∧
    (∀ f bound acc rest invSpan counter r counter',
      reduceLoop ctx fuel f bound acc rest invSpan counter =
        .ok (r, counter') →
      counter ≤ counter' ∧
      (∀ i ∈ letIdsE r, i ∈ letIdsL bound ∨ i ∈ letIdsE acc ∨
        i ∈ letIdsL rest ∨ CtxLets ctx i ∨
        (counter ≤ i ∧ i < counter')) ∧
      (∀ sp ∈ spansE r, sp = invSpan ∨ sp ∈ spansL bound ∨
        sp ∈ spansE acc ∨ sp ∈ spansL rest ∨ CtxLeakSpans ctx sp)) ∧
    (∀ st e r st', visitExpr ctx fuel st e = .ok (r, st') →
      Frame st st' ∧ LetsOk ctx st st' (letIdsE e) (letIdsE r) ∧
      SpansOk ctx st (leakE e) (spansE r)) ∧
    (∀ st s r st', visitStmt ctx fuel st s = .ok (r, st') →
      Frame st st' ∧ LetsOk ctx st st' (letIdsS s) (letIdsS r) ∧
      SpansOk ctx st (leakS s) (spansS r)) ∧
    (∀ st t r st', visitTyp ctx fuel st t = .ok (r, st') →
      Frame st st' ∧ LetsOk ctx st st' (letIdsT t) (letIdsT r) ∧
      SpansOk ctx st (leakT t) (spansT r)) ∧
    (∀ st l r st', visitTypList ctx fuel st l = .ok (r, st') →
      Frame st st' ∧ LetsOk ctx st st' (letIdsTL l) (letIdsTL r) ∧
      SpansOk ctx st (leakTL l) (spansTL r)) ∧
    (∀ st o r st', visitOptTyp ctx fuel st o = .ok (r, st') →
      Frame st st' ∧ LetsOk ctx st st' (letIdsOT o) (letIdsOT r) ∧
      SpansOk ctx st (leakOT o) (spansOT r)) ∧
    (∀ st o r st', visitOptExpr ctx fuel st o = .ok (r, st') →
      Frame st st' ∧ LetsOk ctx st st' (letIdsO o) (letIdsO r) ∧
      SpansOk ctx st (leakO o) (spansO r)) ∧
    (∀ st o r st', visitOptTypList ctx fuel st o = .ok (r, st') →
      Frame st st' ∧ LetsOk ctx st st' (letIdsOTL o) (letIdsOTL r) ∧
      SpansOk ctx st (leakOTL o) (spansOTL r)) ∧
    (∀ st l r st', visitFieldInits ctx fuel st l = .ok (r, st') →
      Frame st st' ∧ LetsOk ctx st st' (letIdsFI l) (letIdsFI r) ∧
      SpansOk ctx st (leakFI l) (spansFI r)) ∧
    (∀ st l r st', expandArgs ctx fuel st l = .ok (r, st') →
      Frame st st' ∧ LetsOk ctx st st' (letIdsL l) (letIdsL r) ∧
      SpansOk ctx st (leakL l) (spansL r)) ∧
    (∀ st inner idx n r st', spliceLoop ctx fuel st inner idx n =
        .ok (r, st') →
      Frame st st' ∧ LetsOk ctx st st' (letIdsE inner) (letIdsL r) ∧
      SpansOk ctx st (leakE inner) (spansL r)) ∧
    (∀ st l r st', expandBlockStmts ctx fuel st l = .ok (r, st') →
      Frame st st' ∧ LetsOk ctx st st' (letIdsSL l) (letIdsSL r) ∧
      SpansOk ctx st (leakSL l) (spansSL r)) := by
  induction fuel with
  | zero =>
    refine ⟨?_, ?_, ?_, ?_, ?_, ?_, ?_, ?_, ?_, ?_, ?_, ?_, ?_, ?_, ?_⟩
    · intro a b c d e f h; simp [expand] at h
    · intro a b c d e f g h; simp [expandRegular] at h
    · intro a b c d e f h; simp [expandBuiltin] at h
    · intro a b c d e f g i h; simp [reduceLoop] at h
    · intro a b c d h; simp [visitExpr] at h
    · intro a b c d h; simp [visitStmt] at h
    · intro a b c d h; simp [visitTyp] at h
    · intro a b c d h; simp [visitTypList] at h
    · intro a b c d h; simp [visitOptTyp] at h
    · intro a b c d h; simp [visitOptExpr] at h
    · intro a b c d h; simp [visitOptTypList] at h
    · intro a b c d h; simp [visitFieldInits] at h
    · intro a b c d h; simp [expandArgs] at h
    · intro a b c d e f h; simp [spliceLoop] at h
    · intro a b c d h; simp [expandBlockStmts] at h
  | succ n ih =>
    obtain ⟨ihX, ihR, ihB, ihRL, ihE, ihS, ihT, ihTL, ihOT, ihOE, ihOTL,
      ihFI, ihA, ihSp, ihBS⟩ := ih
    refine ⟨?_, ?_, ?_, ?_, ?_, ?_, ?_, ?_, ?_, ?_, ?_, ?_, ?_, ?_, ?_⟩
    · -- expand
      intro itemId args invSpan counter r counter' h
      simp only [expand] at h
      split at h
      · exact Except.noConfusion h
      · exact Except.noConfusion h
      · rename_i params body heq
        obtain ⟨hc, hl, hs⟩ :=
          ihR params body args invSpan counter r counter' h
        refine ⟨hc, ?_, ?_⟩
        · intro i hi
          rcases hl i hi with hi | ⟨b, hb, hib⟩ | hi | hi
          · exact Or.inl hi
          · subst hb
            refine Or.inr (Or.inl ⟨b, ?_, hib⟩)
            unfold ctxBodies
            exact List.mem_filterMap.mpr
              ⟨some (.user params (some b)), List.get?_mem heq, by simp⟩
          · exact Or.inr (Or.inl hi)
          · exact Or.inr (Or.inr hi)
        · intro sp hsp
          rcases hs sp hsp with hsp | hsp | ⟨b, hb, hsb⟩ | hsp
          · exact Or.inl hsp
          · exact Or.inr (Or.inl hsp)
          · subst hb
            refine Or.inr (Or.inr ⟨b, ?_, hsb⟩)
            unfold ctxBodies
            exact List.mem_filterMap.mpr
              ⟨some (.user params (some b)), List.get?_mem heq, by simp⟩
          · exact Or.inr (Or.inr hsp)
      · rename_i kind heq
        exact ihB kind args invSpan counter r counter' h
    · -- expandRegular
      intro params body args invSpan counter r counter' h
      simp only [expandRegular] at h
      split at h
      · exact Except.noConfusion h
      · rename_i b
        split at h
        · exact Except.noConfusion h
        · rename_i repl etc hBind
          split at h
          · exact Except.noConfusion h
          · rename_i rr stV hVisit
            simp only [Except.ok.injEq, Prod.mk.injEq] at h
            obtain ⟨rfl, rfl⟩ := h
            obtain ⟨hf, hl, hs⟩ :=
              ihE ⟨counter, invSpan, repl, [], etc, none⟩ b rr stV hVisit
            have hsub : ∀ x ∈ stateExprsOf
                ⟨counter, invSpan, repl, [], etc, none⟩, x ∈ args := by
              intro x hx
              unfold stateExprsOf at hx
              rcases List.mem_append.mp hx with hx | hx
              · exact (bindArgs_mem hBind).1 x hx
              · cases etc with
                | none => simp at hx
                | some pl =>
                  obtain ⟨pid, l⟩ := pl
                  exact (bindArgs_mem hBind).2 pid l rfl x hx
            refine ⟨hf.1, ?_, ?_⟩
            · intro i hi
              rcases hl i hi with hi | hi | hi | hi
              · rcases mem_letIdsL_iff.mp hi with ⟨x, hx, hix⟩
                exact Or.inl (mem_letIdsL_of_mem (hsub x hx) hix)
              · exact Or.inr (Or.inl ⟨b, rfl, hi⟩)
              · exact Or.inr (Or.inr (Or.inl hi))
              · exact Or.inr (Or.inr (Or.inr hi))
            · intro sp hsp
              rcases hs sp hsp with hsp | hsp | hsp | hsp
              · exact Or.inl hsp
              · rcases mem_spansL_iff.mp hsp with ⟨x, hx, hsx⟩
                exact Or.inr (Or.inl (mem_spansL_of_mem (hsub x hx) hsx))
              · exact Or.inr (Or.inr (Or.inl ⟨b, rfl, hsp⟩))
              · exact Or.inr (Or.inr (Or.inr hsp))
    · -- expandBuiltin
      intro kind args invSpan counter r counter' h
      cases kind with
      | stringify =>
        simp only [expandBuiltin] at h
        split at h
        · simp only [Except.ok.injEq, Prod.mk.injEq] at h
          obtain ⟨rfl, rfl⟩ := h
          exact ⟨Nat.le_refl _,
            fun i hi => by simp [letIdsE, letIdsK] at hi,
            fun sp hsp => by
              simp [spansE, spansK] at hsp
              exact Or.inl hsp⟩
        · exact Except.noConfusion h
      | env =>
        simp only [expandBuiltin] at h
        split at h
        · split at h
          · split at h
            · simp only [Except.ok.injEq, Prod.mk.injEq] at h
              obtain ⟨rfl, rfl⟩ := h
              exact ⟨Nat.le_refl _,
                fun i hi => by simp [letIdsE, letIdsK] at hi,
                fun sp hsp => by
                  simp [spansE, spansK] at hsp
                  exact Or.inl hsp⟩
            · exact Except.noConfusion h
          · exact Except.noConfusion h
        · exact Except.noConfusion h
      | line =>
        simp only [expandBuiltin] at h
        split at h
        · simp only [Except.ok.injEq, Prod.mk.injEq] at h
          obtain ⟨rfl, rfl⟩ := h
          exact ⟨Nat.le_refl _,
            fun i hi => by simp [letIdsE, letIdsK] at hi,
            fun sp hsp => by
              simp [spansE, spansK] at hsp
              exact Or.inl hsp⟩
        · exact Except.noConfusion h
      | column =>
        simp only [expandBuiltin] at h
        split at h
        · simp only [Except.ok.injEq, Prod.mk.injEq] at h
          obtain ⟨rfl, rfl⟩ := h
          exact ⟨Nat.le_refl _,
            fun i hi => by simp [letIdsE, letIdsK] at hi,
            fun sp hsp => by
              simp [spansE, spansK] at hsp
              exact Or.inl hsp⟩
        · exact Except.noConfusion h
      | file =>
        simp only [expandBuiltin] at h
        split at h
        · split at h
          · split at h
            · simp only [Except.ok.injEq, Prod.mk.injEq] at h
              obtain ⟨rfl, rfl⟩ := h
              exact ⟨Nat.le_refl _,
                fun i hi => by simp [letIdsE, letIdsK] at hi,
                fun sp hsp => by
                  simp [spansE, spansK] at hsp
                  exact Or.inl hsp⟩
            · exact Except.noConfusion h
          · exact Except.noConfusion h
        · exact Except.noConfusion h
      | includeBytes =>
        simp only [expandBuiltin] at h
        split at h
        · exact Except.noConfusion h
        · split at h
          · split at h
            · simp only [Except.ok.injEq, Prod.mk.injEq] at h
              obtain ⟨rfl, rfl⟩ := h
              exact ⟨Nat.le_refl _,
                fun i hi => by simp [letIdsE, letIdsK] at hi,
                fun sp hsp => by
                  simp [spansE, spansK] at hsp
                  exact Or.inl hsp⟩
            · exact Except.noConfusion h
          · exact Except.noConfusion h
      | concat =>
        simp only [expandBuiltin] at h
        split at h
        · simp only [Except.ok.injEq, Prod.mk.injEq] at h
          obtain ⟨rfl, rfl⟩ := h
          exact ⟨Nat.le_refl _,
            fun i hi => by simp [letIdsE, letIdsK] at hi,
            fun sp hsp => by
              simp [spansE, spansK] at hsp
              exact Or.inl hsp⟩
        · exact Except.noConfusion h
      | formatArgs =>
        cases args with
        | nil =>
          simp only [expandBuiltin] at h
          exact Except.noConfusion h
        | cons a0 args1 =>
          cases args1 with
          | nil =>
            simp only [expandBuiltin] at h
            exact Except.noConfusion h
          | cons a1 rest =>
            obtain ⟨a0k, a0sp⟩ := a0
            simp only [expandBuiltin, Expr.kind] at h
            split at h
            · rename_i w b
              split at h
              · rename_i fmt
                split at h
                · exact Except.noConfusion h
                · rename_i pieces hPieces
                  split at h
                  · exact Except.noConfusion h
                  · rename_i extra hBFA
                    obtain ⟨hc, hl, hs⟩ :=
                      ihX w (b ++ extra) invSpan counter r counter' h
                    refine ⟨hc, ?_, ?_⟩
                    · intro i hi
                      rcases hl i hi with hi | hi | hi
                      · rw [letIdsL_append] at hi
                        rcases List.mem_append.mp hi with hi | hi
                        · exact Or.inl (by
                            simp [letIdsL, letIdsE, letIdsK,
                              List.mem_append, hi])
                        · exact Or.inl
                            ((buildFormatArgs_mem hBFA).1 i hi)
                      · exact Or.inr (Or.inl hi)
                      · exact Or.inr (Or.inr hi)
                    · intro sp hsp
                      rcases hs sp hsp with hsp | hsp | hsp
                      · exact Or.inl hsp
                      · rw [spansL_append] at hsp
                        rcases List.mem_append.mp hsp with hsp | hsp
                        · exact Or.inr (Or.inl (by
                            simp [spansL, spansE, spansK,
                              List.mem_append, List.mem_cons, hsp]))
                        · rcases (buildFormatArgs_mem hBFA).2 sp hsp
                            with hsp | hsp
                          · exact Or.inl hsp
                          · exact Or.inr (Or.inl hsp)
                      · exact Or.inr (Or.inr hsp)
              · exact Except.noConfusion h
            · exact Except.noConfusion h
      | bind =>
        cases args with
        | nil =>
          simp only [expandBuiltin] at h
          exact Except.noConfusion h
        | cons a0 rest =>
          obtain ⟨a0k, a0sp⟩ := a0
          simp only [expandBuiltin, Expr.kind] at h
          split at h
          · rename_i bindee prev
            simp only [Except.ok.injEq, Prod.mk.injEq] at h
            obtain ⟨rfl, rfl⟩ := h
            refine ⟨Nat.le_refl _, ?_, ?_⟩
            · intro i hi
              simp only [letIdsE, letIdsK] at hi
              rw [letIdsL_append] at hi
              refine Or.inl ?_
              rcases List.mem_append.mp hi with hi | hi
              · simp [letIdsL, letIdsE, letIdsK, List.mem_append, hi]
              · simp [letIdsL, List.mem_append, hi]
            · intro sp hsp
              simp only [spansE, spansK] at hsp
              rcases List.mem_cons.mp hsp with rfl | hsp
              · exact Or.inl rfl
              rw [spansL_append] at hsp
              refine Or.inr (Or.inl ?_)
              rcases List.mem_append.mp hsp with hsp | hsp
              · simp [spansL, spansE, spansK, List.mem_append,
                  List.mem_cons, hsp]
              · simp [spansL, List.mem_append, hsp]
          · exact Except.noConfusion h
      | reduce =>
        cases args with
        | nil =>
          simp only [expandBuiltin] at h
          exact Except.noConfusion h
        | cons a0 args1 =>
          cases args1 with
          | nil =>
            simp only [expandBuiltin] at h
            exact Except.noConfusion h
          | cons a1 rest =>
            obtain ⟨a0k, a0sp⟩ := a0
            simp only [expandBuiltin, Expr.kind] at h
            split at h
            · rename_i f2 bound
              obtain ⟨hc, hl, hs⟩ := ihRL f2 bound a1 rest invSpan
                counter r counter' h
              refine ⟨hc, ?_, ?_⟩
              · intro i hi
                rcases hl i hi with hi | hi | hi | hi | hi
                · exact Or.inl (by
                    simp [letIdsL, letIdsE, letIdsK, List.mem_append,
                      hi])
                · exact Or.inl (by simp [letIdsL, List.mem_append, hi])
                · exact Or.inl (by simp [letIdsL, List.mem_append, hi])
                · exact Or.inr (Or.inl hi)
                · exact Or.inr (Or.inr hi)
              · intro sp hsp
                rcases hs sp hsp with hsp | hsp | hsp | hsp | hsp
                · exact Or.inl hsp
                · exact Or.inr (Or.inl (by
                    simp [spansL, spansE, spansK, List.mem_cons,
                      List.mem_append, hsp]))
                · exact Or.inr (Or.inl (by
                    simp [spansL, List.mem_append, hsp]))
                · exact Or.inr (Or.inl (by
                    simp [spansL, List.mem_append, hsp]))
                · exact Or.inr (Or.inr hsp)
            · exact Except.noConfusion h
    · -- reduceLoop
      intro f bound acc rest invSpan counter r counter' h
      cases rest with
      | nil =>
        simp only [reduceLoop, Except.ok.injEq, Prod.mk.injEq] at h
        obtain ⟨rfl, rfl⟩ := h
        exact ⟨Nat.le_refl _, fun i hi => Or.inr (Or.inl hi),
          fun sp hsp => Or.inr (Or.inr (Or.inl hsp))⟩
      | cons arg rest2 =>
        simp only [reduceLoop] at h
        split at h
        · exact Except.noConfusion h
        · rename_i acc' counter1 hExp
          obtain ⟨hc1, hl1, hs1⟩ := ihX f (bound ++ [acc, arg]) invSpan
            counter acc' counter1 hExp
          obtain ⟨hc2, hl2, hs2⟩ := ihRL f bound acc' rest2 invSpan
            counter1 r counter' h
          refine ⟨Nat.le_trans hc1 hc2, ?_, ?_⟩
          · intro i hi
            rcases hl2 i hi with hi | hi | hi | hi | hi
            · exact Or.inl hi
            · rcases hl1 i hi with hi | hi | hi
              · rw [letIdsL_append] at hi
                rcases List.mem_append.mp hi with hi | hi
                · exact Or.inl hi
                · simp only [letIdsL, List.append_nil] at hi
                  rcases List.mem_append.mp hi with hi | hi
                  · exact Or.inr (Or.inl hi)
                  · exact Or.inr (Or.inr (Or.inl
                      (by simp [letIdsL, List.mem_append, hi])))
              · exact Or.inr (Or.inr (Or.inr (Or.inl hi)))
              · obtain ⟨hx1, hx2⟩ := hi
                refine Or.inr (Or.inr (Or.inr (Or.inr ⟨hx1, ?_⟩)))
                omega
            · exact Or.inr (Or.inr (Or.inl
                (by simp [letIdsL, List.mem_append, hi])))
            · exact Or.inr (Or.inr (Or.inr (Or.inl hi)))
            · obtain ⟨hx1, hx2⟩ := hi
              refine Or.inr (Or.inr (Or.inr (Or.inr ⟨?_, hx2⟩)))
              omega
          · intro sp hsp
            rcases hs2 sp hsp with hsp | hsp | hsp | hsp | hsp
            · exact Or.inl hsp
            · exact Or.inr (Or.inl hsp)
            · rcases hs1 sp hsp with hsp | hsp | hsp
              · exact Or.inl hsp
              · rw [spansL_append] at hsp
                rcases List.mem_append.mp hsp with hsp | hsp
                · exact Or.inr (Or.inl hsp)
                · simp only [spansL, List.append_nil] at hsp
                  rcases List.mem_append.mp hsp with hsp | hsp
                  · exact Or.inr (Or.inr (Or.inl hsp))
                  · exact Or.inr (Or.inr (Or.inr (Or.inl
                      (by simp [spansL, List.mem_append, hsp]))))
              · exact Or.inr (Or.inr (Or.inr (Or.inr hsp)))
            · exact Or.inr (Or.inr (Or.inr (Or.inl
                (by simp [spansL, List.mem_append, hsp]))))
            · exact Or.inr (Or.inr (Or.inr (Or.inr hsp)))
    · -- visitExpr
      intro st e r st' h
      obtain ⟨k, spE⟩ := e
      cases k with
      | call callee args =>
        simp only [visitExpr, exceptBind_ok, Except.ok.injEq,
          Prod.mk.injEq] at h
        obtain ⟨⟨c, st1⟩, h1, ⟨args', st2⟩, h2, ⟨rfl, rfl⟩⟩ := h
        obtain ⟨hf1, hl1, hs1⟩ := ihE st callee c st1 h1
        obtain ⟨hf2, hl2, hs2⟩ := ihA st1 args args' st2 h2
        refine ⟨frame_trans hf1 hf2, ?_, ?_⟩
        · simp only [letIdsE, letIdsK]
          refine letsOk_append ?_ ?_
          · exact letsOk_mono hl1 rfl
              (fun j hj => by
                simp [letIdsE, letIdsK, List.mem_append, hj])
              (Nat.le_refl _) hf2.1
          · exact letsOk_mono hl2 (stateExprs_eq_of_frame hf1)
              (fun j hj => by
                simp [letIdsE, letIdsK, List.mem_append, hj])
              hf1.1 (Nat.le_refl _)
        · simp only [spansE, spansK]
          intro sp hsp
          rcases List.mem_cons.mp hsp with rfl | hsp
          · exact Or.inl rfl
          rcases List.mem_append.mp hsp with hsp | hsp
          · exact spansOk_mono hs1 rfl rfl
              (fun q hq => by simp [leakE, leakK, List.mem_append, hq])
              sp hsp
          · exact spansOk_mono hs2 (stateExprs_eq_of_frame hf1) hf1.2.1
              (fun q hq => by simp [leakE, leakK, List.mem_append, hq])
              sp hsp
      | tuple args =>
        simp only [visitExpr, exceptBind_ok, Except.ok.injEq,
          Prod.mk.injEq] at h
        obtain ⟨⟨args', st1⟩, h1, ⟨rfl, rfl⟩⟩ := h
        obtain ⟨hf1, hl1, hs1⟩ := ihA st args args' st1 h1
        refine ⟨hf1, ?_, ?_⟩
        · simp only [letIdsE, letIdsK]; exact hl1
        · simp only [spansE, spansK, leakE, leakK]
          intro sp hsp
          rcases List.mem_cons.mp hsp with rfl | hsp
          · exact Or.inl rfl
          · exact hs1 sp hsp
      | array args =>
        simp only [visitExpr, exceptBind_ok, Except.ok.injEq,
          Prod.mk.injEq] at h
        obtain ⟨⟨args', st1⟩, h1, ⟨rfl, rfl⟩⟩ := h
        obtain ⟨hf1, hl1, hs1⟩ := ihA st args args' st1 h1
        refine ⟨hf1, ?_, ?_⟩
        · simp only [letIdsE, letIdsK]; exact hl1
        · simp only [spansE, spansK, leakE, leakK]
          intro sp hsp
          rcases List.mem_cons.mp hsp with rfl | hsp
          · exact Or.inl rfl
          · exact hs1 sp hsp
      | macroInvocation inner args =>
        simp only [visitExpr, exceptBind_ok, Except.ok.injEq,
          Prod.mk.injEq] at h
        obtain ⟨⟨inner', st1⟩, h1, h⟩ := h
        obtain ⟨ik, isp⟩ := inner'
        simp only [Expr.kind] at h
        split at h
        · rename_i m b
          simp only [exceptBind_ok, Except.ok.injEq, Prod.mk.injEq] at h
          obtain ⟨⟨args', st2⟩, h2, h⟩ := h
          split at h
          · exact Except.noConfusion h
          · rename_i rr ctr heq2
            simp only [Except.ok.injEq, Prod.mk.injEq] at h
            obtain ⟨rfl, rfl⟩ := h
            obtain ⟨hf1, hl1, hs1⟩ := ihE st inner _ st1 h1
            obtain ⟨hf2, hl2, hs2⟩ := ihA st1 args args' st2 h2
            obtain ⟨hXc, hXl, hXs⟩ := ihX m (b ++ args')
              st.invocationSpan st2.counter rr ctr heq2
            have hf12 : Frame st st2 := frame_trans hf1 hf2
            have hfC : Frame st2 { st2 with counter := ctr } :=
              ⟨hXc, rfl, rfl, rfl⟩
            refine ⟨frame_trans hf12 hfC, ?_, ?_⟩
            · intro i hi
              rcases hXl i hi with hi | hi | ⟨hlo, hhi⟩
              · rw [letIdsL_append] at hi
                rcases List.mem_append.mp hi with hi | hi
                · have hmem : i ∈ letIdsE (Expr.mk (.macroRef m b) isp)
                      := by simp [letIdsE, letIdsK, hi]
                  rcases hl1 i hmem with hh | hh | hh | ⟨h5, h6⟩
                  · exact Or.inl hh
                  · exact Or.inr (Or.inl
                      (by simp [letIdsE, letIdsK, List.mem_append, hh]))
                  · exact Or.inr (Or.inr (Or.inl hh))
                  · refine Or.inr (Or.inr (Or.inr ⟨h5, ?_⟩))
                    show i < ctr
                    have hA : st1.counter ≤ st2.counter := hf2.1
                    omega
                · rcases hl2 i hi with hh | hh | hh | ⟨h5, h6⟩
                  · exact Or.inl
                      (by rw [stateExprs_eq_of_frame hf1] at hh
                          exact hh)
                  · exact Or.inr (Or.inl
                      (by simp [letIdsE, letIdsK, List.mem_append, hh]))
                  · exact Or.inr (Or.inr (Or.inl hh))
                  · refine Or.inr (Or.inr (Or.inr ⟨?_, ?_⟩))
                    · have hA : st.counter ≤ st1.counter := hf1.1
                      omega
                    · show i < ctr
                      omega
              · exact Or.inr (Or.inr (Or.inl hi))
              · refine Or.inr (Or.inr (Or.inr ⟨?_, ?_⟩))
                · have hA : st.counter ≤ st2.counter := hf12.1
                  omega
                · show i < ctr
                  omega
            · intro sp hsp
              rcases hXs sp hsp with rfl | hsp2 | hctx
              · exact Or.inl rfl
              · rw [spansL_append] at hsp2
                rcases List.mem_append.mp hsp2 with hsp2 | hsp2
                · have hmem : sp ∈ spansE (Expr.mk (.macroRef m b) isp)
                      := by simp [spansE, spansK, List.mem_cons, hsp2]
                  rcases hs1 sp hmem with hh | hh | hh | hh
                  · exact Or.inl hh
                  · exact Or.inr (Or.inl hh)
                  · exact Or.inr (Or.inr (Or.inl
                      (by simp [leakE, leakK, List.mem_append, hh])))
                  · exact Or.inr (Or.inr (Or.inr hh))
                · rcases hs2 sp hsp2 with hh | hh | hh | hh
                  · exact Or.inl (by rw [hf1.2.1] at hh; exact hh)
                  · exact Or.inr (Or.inl
                      (by rw [stateExprs_eq_of_frame hf1] at hh
                          exact hh))
                  · exact Or.inr (Or.inr (Or.inl
                      (by simp [leakE, leakK, List.mem_append, hh])))
                  · exact Or.inr (Or.inr (Or.inr hh))
              · exact Or.inr (Or.inr (Or.inr hctx))
        · exact Except.noConfusion h
      | localVar id =>
        simp only [visitExpr] at h
        split at h
        · rename_i repl heq
          simp only [Except.ok.injEq, Prod.mk.injEq] at h
          obtain ⟨rfl, rfl⟩ := h
          have hmem : repl ∈ stateExprsOf st := by
            unfold stateExprsOf
            exact List.mem_append.mpr (Or.inl (lookup_mem_values heq))
          exact ⟨frame_refl st,
            fun i hi => Or.inl (mem_letIdsL_of_mem hmem hi),
            fun sp hsp => Or.inr (Or.inl (mem_spansL_of_mem hmem hsp))⟩
        · split at h
          · rename_i pid etcList heqA
            split at h
            · rename_i hpid
              split at h
              · rename_i index heqI
                split at h
                · rename_i arg heqG
                  simp only [Except.ok.injEq, Prod.mk.injEq] at h
                  obtain ⟨rfl, rfl⟩ := h
                  have hmem : arg ∈ stateExprsOf st := by
                    unfold stateExprsOf
                    rw [heqA]
                    exact List.mem_append.mpr
                      (Or.inr (List.get?_mem heqG))
                  exact ⟨frame_refl st,
                    fun i hi => Or.inl (mem_letIdsL_of_mem hmem hi),
                    fun sp hsp =>
                      Or.inr (Or.inl (mem_spansL_of_mem hmem hsp))⟩
                · exact Except.noConfusion h
              · exact Except.noConfusion h
            · simp only [Except.ok.injEq, Prod.mk.injEq] at h
              obtain ⟨rfl, rfl⟩ := h
              refine ⟨frame_refl st, ?_, ?_⟩
              · intro i hi
                simp [localFallback, letIdsE, letIdsK] at hi
              · intro sp hsp
                simp [localFallback, spansE, spansK] at hsp
                exact Or.inl hsp
          · simp only [Except.ok.injEq, Prod.mk.injEq] at h
            obtain ⟨rfl, rfl⟩ := h
            refine ⟨frame_refl st, ?_, ?_⟩
            · intro i hi
              simp [localFallback, letIdsE, letIdsK] at hi
            · intro sp hsp
              simp [localFallback, spansE, spansK] at hsp
              exact Or.inl hsp
      | etCetera inner =>
        simp only [visitExpr] at h
        exact Except.noConfusion h
      | block stmts ret =>
        simp only [visitExpr, exceptBind_ok, Except.ok.injEq,
          Prod.mk.injEq] at h
        obtain ⟨⟨stmts', st1⟩, h1, ⟨ret', st2⟩, h2, ⟨rfl, rfl⟩⟩ := h
        obtain ⟨hf1, hl1, hs1⟩ := ihBS st stmts stmts' st1 h1
        obtain ⟨hf2, hl2, hs2⟩ := ihE st1 ret ret' st2 h2
        refine ⟨frame_trans hf1 hf2, ?_, ?_⟩
        · simp only [letIdsE, letIdsK]
          refine letsOk_append ?_ ?_
          · exact letsOk_mono hl1 rfl
              (fun j hj => by
                simp [letIdsE, letIdsK, List.mem_append, hj])
              (Nat.le_refl _) hf2.1
          · exact letsOk_mono hl2 (stateExprs_eq_of_frame hf1)
              (fun j hj => by
                simp [letIdsE, letIdsK, List.mem_append, hj])
              hf1.1 (Nat.le_refl _)
        · simp only [spansE, spansK]
          intro sp hsp
          rcases List.mem_cons.mp hsp with rfl | hsp
          · exact Or.inl rfl
          rcases List.mem_append.mp hsp with hsp | hsp
          · exact spansOk_mono hs1 rfl rfl
              (fun q hq => by simp [leakE, leakK, List.mem_append, hq])
              sp hsp
          · exact spansOk_mono hs2 (stateExprs_eq_of_frame hf1) hf1.2.1
              (fun q hq => by simp [leakE, leakK, List.mem_append, hq])
              sp hsp
      | binary op lhs rhs =>
        simp only [visitExpr, exceptBind_ok, Except.ok.injEq,
          Prod.mk.injEq] at h
        obtain ⟨⟨l, st1⟩, h1, ⟨r2, st2⟩, h2, ⟨rfl, rfl⟩⟩ := h
        obtain ⟨hf1, hl1, hs1⟩ := ihE st lhs l st1 h1
        obtain ⟨hf2, hl2, hs2⟩ := ihE st1 rhs r2 st2 h2
        refine ⟨frame_trans hf1 hf2, ?_, ?_⟩
        · simp only [letIdsE, letIdsK]
          refine letsOk_append ?_ ?_
          · exact letsOk_mono hl1 rfl
              (fun j hj => by
                simp [letIdsE, letIdsK, List.mem_append, hj])
              (Nat.le_refl _) hf2.1
          · exact letsOk_mono hl2 (stateExprs_eq_of_frame hf1)
              (fun j hj => by
                simp [letIdsE, letIdsK, List.mem_append, hj])
              hf1.1 (Nat.le_refl _)
        · simp only [spansE, spansK]
          intro sp hsp
          rcases List.mem_cons.mp hsp with rfl | hsp
          · exact Or.inl rfl
          rcases List.mem_append.mp hsp with hsp | hsp
          · exact spansOk_mono hs1 rfl rfl
              (fun q hq => by simp [leakE, leakK, List.mem_append, hq])
              sp hsp
          · exact spansOk_mono hs2 (stateExprs_eq_of_frame hf1) hf1.2.1
              (fun q hq => by simp [leakE, leakK, List.mem_append, hq])
              sp hsp
      | ref inner =>
        simp only [visitExpr, exceptBind_ok, Except.ok.injEq,
          Prod.mk.injEq] at h
        obtain ⟨⟨i, st1⟩, h1, ⟨rfl, rfl⟩⟩ := h
        obtain ⟨hf1, hl1, hs1⟩ := ihE st inner i st1 h1
        refine ⟨hf1, ?_, ?_⟩
        · simp only [letIdsE, letIdsK]; exact hl1
        · simp only [spansE, spansK, leakE, leakK]
          intro sp hsp
          rcases List.mem_cons.mp hsp with rfl | hsp
          · exact Or.inl rfl
          · exact hs1 sp hsp
      | deref inner =>
        simp only [visitExpr, exceptBind_ok, Except.ok.injEq,
          Prod.mk.injEq] at h
        obtain ⟨⟨i, st1⟩, h1, ⟨rfl, rfl⟩⟩ := h
        obtain ⟨hf1, hl1, hs1⟩ := ihE st inner i st1 h1
        refine ⟨hf1, ?_, ?_⟩
        · simp only [letIdsE, letIdsK]; exact hl1
        · simp only [spansE, spansK, leakE, leakK]
          intro sp hsp
          rcases List.mem_cons.mp hsp with rfl | hsp
          · exact Or.inl rfl
          · exact hs1 sp hsp
      | unary op inner =>
        simp only [visitExpr, exceptBind_ok, Except.ok.injEq,
          Prod.mk.injEq] at h
        obtain ⟨⟨i, st1⟩, h1, ⟨rfl, rfl⟩⟩ := h
        obtain ⟨hf1, hl1, hs1⟩ := ihE st inner i st1 h1
        refine ⟨hf1, ?_, ?_⟩
        · simp only [letIdsE, letIdsK]; exact hl1
        · simp only [spansE, spansK, leakE, leakK]
          intro sp hsp
          rcases List.mem_cons.mp hsp with rfl | hsp
          · exact Or.inl rfl
          · exact hs1 sp hsp
      | assign lhs rhs =>
        simp only [visitExpr, exceptBind_ok, Except.ok.injEq,
          Prod.mk.injEq] at h
        obtain ⟨⟨l, st1⟩, h1, ⟨r2, st2⟩, h2, ⟨rfl, rfl⟩⟩ := h
        obtain ⟨hf1, hl1, hs1⟩ := ihE st lhs l st1 h1
        obtain ⟨hf2, hl2, hs2⟩ := ihE st1 rhs r2 st2 h2
        refine ⟨frame_trans hf1 hf2, ?_, ?_⟩
        · simp only [letIdsE, letIdsK]
          refine letsOk_append ?_ ?_
          · exact letsOk_mono hl1 rfl
              (fun j hj => by
                simp [letIdsE, letIdsK, List.mem_append, hj])
              (Nat.le_refl _) hf2.1
          · exact letsOk_mono hl2 (stateExprs_eq_of_frame hf1)
              (fun j hj => by
                simp [letIdsE, letIdsK, List.mem_append, hj])
              hf1.1 (Nat.le_refl _)
        · simp only [spansE, spansK]
          intro sp hsp
          rcases List.mem_cons.mp hsp with rfl | hsp
          · exact Or.inl rfl
          rcases List.mem_append.mp hsp with hsp | hsp
          · exact spansOk_mono hs1 rfl rfl
              (fun q hq => by simp [leakE, leakK, List.mem_append, hq])
              sp hsp
          · exact spansOk_mono hs2 (stateExprs_eq_of_frame hf1) hf1.2.1
              (fun q hq => by simp [leakE, leakK, List.mem_append, hq])
              sp hsp
      | assignOp op lhs rhs =>
        simp only [visitExpr, exceptBind_ok, Except.ok.injEq,
          Prod.mk.injEq] at h
        obtain ⟨⟨l, st1⟩, h1, ⟨r2, st2⟩, h2, ⟨rfl, rfl⟩⟩ := h
        obtain ⟨hf1, hl1, hs1⟩ := ihE st lhs l st1 h1
        obtain ⟨hf2, hl2, hs2⟩ := ihE st1 rhs r2 st2 h2
        refine ⟨frame_trans hf1 hf2, ?_, ?_⟩
        · simp only [letIdsE, letIdsK]
          refine letsOk_append ?_ ?_
          · exact letsOk_mono hl1 rfl
              (fun j hj => by
                simp [letIdsE, letIdsK, List.mem_append, hj])
              (Nat.le_refl _) hf2.1
          · exact letsOk_mono hl2 (stateExprs_eq_of_frame hf1)
              (fun j hj => by
                simp [letIdsE, letIdsK, List.mem_append, hj])
              hf1.1 (Nat.le_refl _)
        · simp only [spansE, spansK]
          intro sp hsp
          rcases List.mem_cons.mp hsp with rfl | hsp
          · exact Or.inl rfl
          rcases List.mem_append.mp hsp with hsp | hsp
          · exact spansOk_mono hs1 rfl rfl
              (fun q hq => by simp [leakE, leakK, List.mem_append, hq])
              sp hsp
          · exact spansOk_mono hs2 (stateExprs_eq_of_frame hf1) hf1.2.1
              (fun q hq => by simp [leakE, leakK, List.mem_append, hq])
              sp hsp
      | loop inner =>
        simp only [visitExpr, exceptBind_ok, Except.ok.injEq,
          Prod.mk.injEq] at h
        obtain ⟨⟨i, st1⟩, h1, ⟨rfl, rfl⟩⟩ := h
        obtain ⟨hf1, hl1, hs1⟩ := ihE st inner i st1 h1
        refine ⟨hf1, ?_, ?_⟩
        · simp only [letIdsE, letIdsK]; exact hl1
        · simp only [spansE, spansK, leakE, leakK]
          intro sp hsp
          rcases List.mem_cons.mp hsp with rfl | hsp
          · exact Or.inl rfl
          · exact hs1 sp hsp
      | breakExpr inner =>
        simp only [visitExpr, exceptBind_ok, Except.ok.injEq,
          Prod.mk.injEq] at h
        obtain ⟨⟨i, st1⟩, h1, ⟨rfl, rfl⟩⟩ := h
        obtain ⟨hf1, hl1, hs1⟩ := ihOE st inner i st1 h1
        refine ⟨hf1, ?_, ?_⟩
        · simp only [letIdsE, letIdsK]; exact hl1
        · simp only [spansE, spansK, leakE, leakK]
          intro sp hsp
          rcases List.mem_cons.mp hsp with rfl | hsp
          · exact Or.inl rfl
          · exact hs1 sp hsp
      | returnExpr inner =>
        simp only [visitExpr, exceptBind_ok, Except.ok.injEq,
          Prod.mk.injEq] at h
        obtain ⟨⟨i, st1⟩, h1, ⟨rfl, rfl⟩⟩ := h
        obtain ⟨hf1, hl1, hs1⟩ := ihOE st inner i st1 h1
        refine ⟨hf1, ?_, ?_⟩
        · simp only [letIdsE, letIdsK]; exact hl1
        · simp only [spansE, spansK, leakE, leakK]
          intro sp hsp
          rcases List.mem_cons.mp hsp with rfl | hsp
          · exact Or.inl rfl
          · exact hs1 sp hsp
      | deferExpr inner =>
        simp only [visitExpr, exceptBind_ok, Except.ok.injEq,
          Prod.mk.injEq] at h
        obtain ⟨⟨i, st1⟩, h1, ⟨rfl, rfl⟩⟩ := h
        obtain ⟨hf1, hl1, hs1⟩ := ihE st inner i st1 h1
        refine ⟨hf1, ?_, ?_⟩
        · simp only [letIdsE, letIdsK]; exact hl1
        · simp only [spansE, spansK, leakE, leakK]
          intro sp hsp
          rcases List.mem_cons.mp hsp with rfl | hsp
          · exact Or.inl rfl
          · exact hs1 sp hsp
      | field inner name assocFn =>
        simp only [visitExpr, exceptBind_ok, Except.ok.injEq,
          Prod.mk.injEq] at h
        obtain ⟨⟨i, st1⟩, h1, ⟨rfl, rfl⟩⟩ := h
        obtain ⟨hf1, hl1, hs1⟩ := ihE st inner i st1 h1
        refine ⟨hf1, ?_, ?_⟩
        · simp only [letIdsE, letIdsK]; exact hl1
        · simp only [spansE, spansK, leakE, leakK]
          intro sp hsp
          rcases List.mem_cons.mp hsp with rfl | hsp
          · exact Or.inl rfl
          · exact hs1 sp hsp
      | structLit ty inits =>
        simp only [visitExpr, exceptBind_ok, Except.ok.injEq,
          Prod.mk.injEq] at h
        obtain ⟨⟨inits', st1⟩, h1, ⟨ty', st2⟩, h2, ⟨rfl, rfl⟩⟩ := h
        obtain ⟨hf1, hl1, hs1⟩ := ihFI st inits inits' st1 h1
        obtain ⟨hf2, hl2, hs2⟩ := ihT st1 ty ty' st2 h2
        refine ⟨frame_trans hf1 hf2, ?_, ?_⟩
        · simp only [letIdsE, letIdsK]
          refine letsOk_append ?_ ?_
          · exact letsOk_mono hl2 (stateExprs_eq_of_frame hf1)
              (fun j hj => by
                simp [letIdsE, letIdsK, List.mem_append, hj])
              hf1.1 (Nat.le_refl _)
          · exact letsOk_mono hl1 rfl
              (fun j hj => by
                simp [letIdsE, letIdsK, List.mem_append, hj])
              (Nat.le_refl _) hf2.1
        · simp only [spansE, spansK]
          intro sp hsp
          rcases List.mem_cons.mp hsp with rfl | hsp
          · exact Or.inl rfl
          rcases List.mem_append.mp hsp with hsp | hsp
          · exact spansOk_mono hs2 (stateExprs_eq_of_frame hf1) hf1.2.1
              (fun q hq => by simp [leakE, leakK, List.mem_append, hq])
              sp hsp
          · exact spansOk_mono hs1 rfl rfl
              (fun q hq => by simp [leakE, leakK, List.mem_append, hq])
              sp hsp
      | tupleIndex inner idx =>
        simp only [visitExpr, exceptBind_ok, Except.ok.injEq,
          Prod.mk.injEq] at h
        obtain ⟨⟨i, st1⟩, h1, ⟨rfl, rfl⟩⟩ := h
        obtain ⟨hf1, hl1, hs1⟩ := ihE st inner i st1 h1
        refine ⟨hf1, ?_, ?_⟩
        · simp only [letIdsE, letIdsK]; exact hl1
        · simp only [spansE, spansK, leakE, leakK]
          intro sp hsp
          rcases List.mem_cons.mp hsp with rfl | hsp
          · exact Or.inl rfl
          · exact hs1 sp hsp
      | index inner idx =>
        simp only [visitExpr, exceptBind_ok, Except.ok.injEq,
          Prod.mk.injEq] at h
        obtain ⟨⟨i, st1⟩, h1, ⟨j, st2⟩, h2, ⟨rfl, rfl⟩⟩ := h
        obtain ⟨hf1, hl1, hs1⟩ := ihE st inner i st1 h1
        obtain ⟨hf2, hl2, hs2⟩ := ihE st1 idx j st2 h2
        refine ⟨frame_trans hf1 hf2, ?_, ?_⟩
        · simp only [letIdsE, letIdsK]
          refine letsOk_append ?_ ?_
          · exact letsOk_mono hl1 rfl
              (fun q hq => by
                simp [letIdsE, letIdsK, List.mem_append, hq])
              (Nat.le_refl _) hf2.1
          · exact letsOk_mono hl2 (stateExprs_eq_of_frame hf1)
              (fun q hq => by
                simp [letIdsE, letIdsK, List.mem_append, hq])
              hf1.1 (Nat.le_refl _)
        · simp only [spansE, spansK]
          intro sp hsp
          rcases List.mem_cons.mp hsp with rfl | hsp
          · exact Or.inl rfl
          rcases List.mem_append.mp hsp with hsp | hsp
          · exact spansOk_mono hs1 rfl rfl
              (fun q hq => by simp [leakE, leakK, List.mem_append, hq])
              sp hsp
          · exact spansOk_mono hs2 (stateExprs_eq_of_frame hf1) hf1.2.1
              (fun q hq => by simp [leakE, leakK, List.mem_append, hq])
              sp hsp
      | range lower upper inclusive =>
        simp only [visitExpr, exceptBind_ok, Except.ok.injEq,
          Prod.mk.injEq] at h
        obtain ⟨⟨lo, st1⟩, h1, ⟨hi2, st2⟩, h2, ⟨rfl, rfl⟩⟩ := h
        obtain ⟨hf1, hl1, hs1⟩ := ihOE st lower lo st1 h1
        obtain ⟨hf2, hl2, hs2⟩ := ihOE st1 upper hi2 st2 h2
        refine ⟨frame_trans hf1 hf2, ?_, ?_⟩
        · simp only [letIdsE, letIdsK]
          refine letsOk_append ?_ ?_
          · exact letsOk_mono hl1 rfl
              (fun q hq => by
                simp [letIdsE, letIdsK, List.mem_append, hq])
              (Nat.le_refl _) hf2.1
          · exact letsOk_mono hl2 (stateExprs_eq_of_frame hf1)
              (fun q hq => by
                simp [letIdsE, letIdsK, List.mem_append, hq])
              hf1.1 (Nat.le_refl _)
        · simp only [spansE, spansK]
          intro sp hsp
          rcases List.mem_cons.mp hsp with rfl | hsp
          · exact Or.inl rfl
          rcases List.mem_append.mp hsp with hsp | hsp
          · exact spansOk_mono hs1 rfl rfl
              (fun q hq => by simp [leakE, leakK, List.mem_append, hq])
              sp hsp
          · exact spansOk_mono hs2 (stateExprs_eq_of_frame hf1) hf1.2.1
              (fun q hq => by simp [leakE, leakK, List.mem_append, hq])
              sp hsp
      | ifExpr cond thenE elseE =>
        simp only [visitExpr, exceptBind_ok, Except.ok.injEq,
          Prod.mk.injEq] at h
        obtain ⟨⟨c, st1⟩, h1, ⟨tE, st2⟩, h2, ⟨eE, st3⟩, h3,
          ⟨rfl, rfl⟩⟩ := h
        obtain ⟨hf1, hl1, hs1⟩ := ihE st cond c st1 h1
        obtain ⟨hf2, hl2, hs2⟩ := ihE st1 thenE tE st2 h2
        obtain ⟨hf3, hl3, hs3⟩ := ihE st2 elseE eE st3 h3
        have hf12 : Frame st st2 := frame_trans hf1 hf2
        refine ⟨frame_trans hf12 hf3, ?_, ?_⟩
        · simp only [letIdsE, letIdsK]
          refine letsOk_append (letsOk_append ?_ ?_) ?_
          · exact letsOk_mono hl1 rfl
              (fun q hq => by
                simp [letIdsE, letIdsK, List.mem_append, hq])
              (Nat.le_refl _) (frame_trans hf2 hf3).1
          · exact letsOk_mono hl2 (stateExprs_eq_of_frame hf1)
              (fun q hq => by
                simp [letIdsE, letIdsK, List.mem_append, hq])
              hf1.1 hf3.1
          · exact letsOk_mono hl3 (stateExprs_eq_of_frame hf12)
              (fun q hq => by
                simp [letIdsE, letIdsK, List.mem_append, hq])
              hf12.1 (Nat.le_refl _)
        · simp only [spansE, spansK]
          intro sp hsp
          rcases List.mem_cons.mp hsp with rfl | hsp
          · exact Or.inl rfl
          rcases List.mem_append.mp hsp with hsp | hsp
          · rcases List.mem_append.mp hsp with hsp | hsp
            · exact spansOk_mono hs1 rfl rfl
                (fun q hq => by
                  simp [leakE, leakK, List.mem_append, hq]) sp hsp
            · exact spansOk_mono hs2 (stateExprs_eq_of_frame hf1)
                hf1.2.1
                (fun q hq => by
                  simp [leakE, leakK, List.mem_append, hq]) sp hsp
          · exact spansOk_mono hs3 (stateExprs_eq_of_frame hf12)
              hf12.2.1
              (fun q hq => by
                simp [leakE, leakK, List.mem_append, hq]) sp hsp
      | staticIf cond thenE elseE =>
        simp only [visitExpr, exceptBind_ok, Except.ok.injEq,
          Prod.mk.injEq] at h
        obtain ⟨⟨c, st1⟩, h1, ⟨tE, st2⟩, h2, ⟨eE, st3⟩, h3,
          ⟨rfl, rfl⟩⟩ := h
        obtain ⟨hf1, hl1, hs1⟩ := ihE st cond c st1 h1
        obtain ⟨hf2, hl2, hs2⟩ := ihE st1 thenE tE st2 h2
        obtain ⟨hf3, hl3, hs3⟩ := ihE st2 elseE eE st3 h3
        have hf12 : Frame st st2 := frame_trans hf1 hf2
        refine ⟨frame_trans hf12 hf3, ?_, ?_⟩
        · simp only [letIdsE, letIdsK]
          refine letsOk_append (letsOk_append ?_ ?_) ?_
          · exact letsOk_mono hl1 rfl
              (fun q hq => by
                simp [letIdsE, letIdsK, List.mem_append, hq])
              (Nat.le_refl _) (frame_trans hf2 hf3).1
          · exact letsOk_mono hl2 (stateExprs_eq_of_frame hf1)
              (fun q hq => by
                simp [letIdsE, letIdsK, List.mem_append, hq])
              hf1.1 hf3.1
          · exact letsOk_mono hl3 (stateExprs_eq_of_frame hf12)
              (fun q hq => by
                simp [letIdsE, letIdsK, List.mem_append, hq])
              hf12.1 (Nat.le_refl _)
        · simp only [spansE, spansK]
          intro sp hsp
          rcases List.mem_cons.mp hsp with rfl | hsp
          · exact Or.inl rfl
          rcases List.mem_append.mp hsp with hsp | hsp
          · rcases List.mem_append.mp hsp with hsp | hsp
            · exact spansOk_mono hs1 rfl rfl
                (fun q hq => by
                  simp [leakE, leakK, List.mem_append, hq]) sp hsp
            · exact spansOk_mono hs2 (stateExprs_eq_of_frame hf1)
                hf1.2.1
                (fun q hq => by
                  simp [leakE, leakK, List.mem_append, hq]) sp hsp
          · exact spansOk_mono hs3 (stateExprs_eq_of_frame hf12)
              hf12.2.1
              (fun q hq => by
                simp [leakE, leakK, List.mem_append, hq]) sp hsp
      | typeCheck value ty =>
        simp only [visitExpr, exceptBind_ok, Except.ok.injEq,
          Prod.mk.injEq] at h
        obtain ⟨⟨v, st1⟩, h1, ⟨ty', st2⟩, h2, ⟨rfl, rfl⟩⟩ := h
        obtain ⟨hf1, hl1, hs1⟩ := ihE st value v st1 h1
        obtain ⟨hf2, hl2, hs2⟩ := ihT st1 ty ty' st2 h2
        refine ⟨frame_trans hf1 hf2, ?_, ?_⟩
        · simp only [letIdsE, letIdsK]
          refine letsOk_append ?_ ?_
          · exact letsOk_mono hl1 rfl
              (fun q hq => by
                simp [letIdsE, letIdsK, List.mem_append, hq])
              (Nat.le_refl _) hf2.1
          · exact letsOk_mono hl2 (stateExprs_eq_of_frame hf1)
              (fun q hq => by
                simp [letIdsE, letIdsK, List.mem_append, hq])
              hf1.1 (Nat.le_refl _)
        · simp only [spansE, spansK]
          intro sp hsp
          rcases List.mem_cons.mp hsp with rfl | hsp
          · exact Or.inl rfl
          rcases List.mem_append.mp hsp with hsp | hsp
          · exact spansOk_mono hs1 rfl rfl
              (fun q hq => by simp [leakE, leakK, List.mem_append, hq])
              sp hsp
          · exact spansOk_mono hs2 (stateExprs_eq_of_frame hf1) hf1.2.1
              (fun q hq => by simp [leakE, leakK, List.mem_append, hq])
              sp hsp
      | cast inner ty =>
        simp only [visitExpr, exceptBind_ok, Except.ok.injEq,
          Prod.mk.injEq] at h
        obtain ⟨⟨i, st1⟩, h1, ⟨ty', st2⟩, h2, ⟨rfl, rfl⟩⟩ := h
        obtain ⟨hf1, hl1, hs1⟩ := ihE st inner i st1 h1
        obtain ⟨hf2, hl2, hs2⟩ := ihT st1 ty ty' st2 h2
        refine ⟨frame_trans hf1 hf2, ?_, ?_⟩
        · simp only [letIdsE, letIdsK]
          refine letsOk_append ?_ ?_
          · exact letsOk_mono hl1 rfl
              (fun q hq => by
                simp [letIdsE, letIdsK, List.mem_append, hq])
              (Nat.le_refl _) hf2.1
          · exact letsOk_mono hl2 (stateExprs_eq_of_frame hf1)
              (fun q hq => by
                simp [letIdsE, letIdsK, List.mem_append, hq])
              hf1.1 (Nat.le_refl _)
        · simp only [spansE, spansK]
          intro sp hsp
          rcases List.mem_cons.mp hsp with rfl | hsp
          · exact Or.inl rfl
          rcases List.mem_append.mp hsp with hsp | hsp
          · exact spansOk_mono hs1 rfl rfl
              (fun q hq => by simp [leakE, leakK, List.mem_append, hq])
              sp hsp
          · exact spansOk_mono hs2 (stateExprs_eq_of_frame hf1) hf1.2.1
              (fun q hq => by simp [leakE, leakK, List.mem_append, hq])
              sp hsp
      | fnRef fk genericArgs =>
        cases fk with
        | normal iid =>
          simp only [visitExpr, exceptBind_ok, Except.ok.injEq,
            Prod.mk.injEq, exists_eq_left'] at h
          obtain ⟨⟨gargs', st1⟩, h1, ⟨rfl, rfl⟩⟩ := h
          obtain ⟨hf1, hl1, hs1⟩ := ihOTL st genericArgs gargs' st1 h1
          refine ⟨hf1, ?_, ?_⟩
          · simp only [letIdsE, letIdsK, letIdsFn, List.nil_append]
            exact hl1
          · simp only [spansE, spansK, spansFn, leakE, leakK, leakFn,
              List.nil_append]
            intro sp hsp
            rcases List.mem_cons.mp hsp with rfl | hsp
            · exact Or.inl rfl
            · exact hs1 sp hsp
        | closure p =>
          simp only [visitExpr, exceptBind_ok, Except.ok.injEq,
            Prod.mk.injEq, exists_eq_left'] at h
          obtain ⟨⟨gargs', st1⟩, h1, ⟨rfl, rfl⟩⟩ := h
          obtain ⟨hf1, hl1, hs1⟩ := ihOTL st genericArgs gargs' st1 h1
          refine ⟨hf1, ?_, ?_⟩
          · simp only [letIdsE, letIdsK, letIdsFn, List.nil_append]
            exact hl1
          · simp only [spansE, spansK, spansFn, leakE, leakK, leakFn,
              List.nil_append]
            intro sp hsp
            rcases List.mem_cons.mp hsp with rfl | hsp
            · exact Or.inl rfl
            · exact hs1 sp hsp
        | defered dty dname =>
          simp only [visitExpr, exceptBind_ok, Except.ok.injEq,
            Prod.mk.injEq, exists_eq_left'] at h
          obtain ⟨⟨ty', st1⟩, h1, ⟨gargs', st2⟩, h2, ⟨rfl, rfl⟩⟩ := h
          obtain ⟨hf1, hl1, hs1⟩ := ihT st dty ty' st1 h1
          obtain ⟨hf2, hl2, hs2⟩ := ihOTL st1 genericArgs gargs' st2 h2
          refine ⟨frame_trans hf1 hf2, ?_, ?_⟩
          · simp only [letIdsE, letIdsK, letIdsFn]
            refine letsOk_append ?_ ?_
            · exact letsOk_mono hl1 rfl
                (fun q hq => by
                  simp [letIdsE, letIdsK, letIdsFn, List.mem_append,
                    hq])
                (Nat.le_refl _) hf2.1
            · exact letsOk_mono hl2 (stateExprs_eq_of_frame hf1)
                (fun q hq => by
                  simp [letIdsE, letIdsK, letIdsFn, List.mem_append,
                    hq])
                hf1.1 (Nat.le_refl _)
          · simp only [spansE, spansK, spansFn]
            intro sp hsp
            rcases List.mem_cons.mp hsp with rfl | hsp
            · exact Or.inl rfl
            rcases List.mem_append.mp hsp with hsp | hsp
            · exact spansOk_mono hs1 rfl rfl
                (fun q hq => by
                  simp [leakE, leakK, leakFn, List.mem_append, hq])
                sp hsp
            · exact spansOk_mono hs2 (stateExprs_eq_of_frame hf1)
                hf1.2.1
                (fun q hq => by
                  simp [leakE, leakK, leakFn, List.mem_append, hq])
                sp hsp
      | defered typ name =>
        simp only [visitExpr, exceptBind_ok, Except.ok.injEq,
          Prod.mk.injEq] at h
        obtain ⟨⟨ty', st1⟩, h1, ⟨rfl, rfl⟩⟩ := h
        obtain ⟨hf1, hl1, hs1⟩ := ihT st typ ty' st1 h1
        refine ⟨hf1, ?_, ?_⟩
        · simp only [letIdsE, letIdsK]; exact hl1
        · simp only [spansE, spansK, leakE, leakK]
          intro sp hsp
          rcases List.mem_cons.mp hsp with rfl | hsp
          · exact Or.inl rfl
          · exact hs1 sp hsp
      | staticRef itemId genericArgs =>
        simp only [visitExpr, exceptBind_ok, Except.ok.injEq,
          Prod.mk.injEq] at h
        obtain ⟨⟨gargs', st1⟩, h1, ⟨rfl, rfl⟩⟩ := h
        obtain ⟨hf1, hl1, hs1⟩ := ihOTL st genericArgs gargs' st1 h1
        refine ⟨hf1, ?_, ?_⟩
        · simp only [letIdsE, letIdsK]; exact hl1
        · simp only [spansE, spansK, leakE, leakK]
          intro sp hsp
          rcases List.mem_cons.mp hsp with rfl | hsp
          · exact Or.inl rfl
          · exact hs1 sp hsp
      | constRef itemId genericArgs =>
        simp only [visitExpr, exceptBind_ok, Except.ok.injEq,
          Prod.mk.injEq] at h
        obtain ⟨⟨gargs', st1⟩, h1, ⟨rfl, rfl⟩⟩ := h
        obtain ⟨hf1, hl1, hs1⟩ := ihOTL st genericArgs gargs' st1 h1
        refine ⟨hf1, ?_, ?_⟩
        · simp only [letIdsE, letIdsK]; exact hl1
        · simp only [spansE, spansK, leakE, leakK]
          intro sp hsp
          rcases List.mem_cons.mp hsp with rfl | hsp
          · exact Or.inl rfl
          · exact hs1 sp hsp
      | continueExpr =>
        simp only [visitExpr, Except.ok.injEq, Prod.mk.injEq] at h
        obtain ⟨rfl, rfl⟩ := h
        refine ⟨frame_refl st, fun i hi => Or.inr (Or.inl hi), ?_⟩
        intro sp hsp
        simp only [spansE, spansK] at hsp
        rcases List.mem_cons.mp hsp with rfl | hsp
        · exact Or.inl rfl
        · simp at hsp
      | enumValue itemId memberId =>
        simp only [visitExpr, Except.ok.injEq, Prod.mk.injEq] at h
        obtain ⟨rfl, rfl⟩ := h
        refine ⟨frame_refl st, fun i hi => Or.inr (Or.inl hi), ?_⟩
        intro sp hsp
        simp only [spansE, spansK] at hsp
        rcases List.mem_cons.mp hsp with rfl | hsp
        · exact Or.inl rfl
        · simp at hsp
      | macroRef w b =>
        simp only [visitExpr, Except.ok.injEq, Prod.mk.injEq] at h
        obtain ⟨rfl, rfl⟩ := h
        refine ⟨frame_refl st, fun i hi => Or.inr (Or.inl hi), ?_⟩
        intro sp hsp
        simp only [spansE, spansK] at hsp
        rcases List.mem_cons.mp hsp with rfl | hsp
        · exact Or.inl rfl
        · exact Or.inr (Or.inr (Or.inl (by simp [leakE, leakK, hsp])))
      | lit l =>
        simp only [visitExpr, Except.ok.injEq, Prod.mk.injEq] at h
        obtain ⟨rfl, rfl⟩ := h
        refine ⟨frame_refl st, fun i hi => Or.inr (Or.inl hi), ?_⟩
        intro sp hsp
        simp only [spansE, spansK] at hsp
        rcases List.mem_cons.mp hsp with rfl | hsp
        · exact Or.inl rfl
        · simp at hsp
      | boundParam a b c =>
        simp only [visitExpr, Except.ok.injEq, Prod.mk.injEq] at h
        obtain ⟨rfl, rfl⟩ := h
        refine ⟨frame_refl st, fun i hi => Or.inr (Or.inl hi), ?_⟩
        intro sp hsp
        simp only [spansE, spansK] at hsp
        rcases List.mem_cons.mp hsp with rfl | hsp
        · exact Or.inl rfl
        · simp at hsp
      | void =>
        simp only [visitExpr, Except.ok.injEq, Prod.mk.injEq] at h
        obtain ⟨rfl, rfl⟩ := h
        refine ⟨frame_refl st, fun i hi => Or.inr (Or.inl hi), ?_⟩
        intro sp hsp
        simp only [spansE, spansK] at hsp
        rcases List.mem_cons.mp hsp with rfl | hsp
        · exact Or.inl rfl
        · simp at hsp
    · -- visitStmt
      intro st s r st' h
      obtain ⟨k, spS⟩ := s
      cases k with
      | expression e =>
        simp only [visitStmt, exceptBind_ok, Except.ok.injEq,
          Prod.mk.injEq] at h
        obtain ⟨⟨e', st1⟩, h1, ⟨rfl, rfl⟩⟩ := h
        obtain ⟨hf1, hl1, hs1⟩ := ihE st e e' st1 h1
        refine ⟨hf1, ?_, ?_⟩
        · simp only [letIdsS, letIdsSK]
          exact hl1
        · simp only [spansS, spansSK, leakS]
          intro sp hsp
          rcases List.mem_cons.mp hsp with rfl | hsp
          · exact Or.inl rfl
          · exact hs1 sp hsp
      | letDeclaration ld =>
        obtain ⟨id, typ, value⟩ := ld
        simp only [visitStmt, makeId, exceptBind_ok, Except.ok.injEq,
          Prod.mk.injEq] at h
        obtain ⟨⟨typ', st3⟩, h1, ⟨value', st4⟩, h2, ⟨rfl, rfl⟩⟩ := h
        obtain ⟨hf1, hl1, hs1⟩ := ihOT ⟨st.counter + 1, st.invocationSpan,
          st.replacements, (id, st.counter) :: st.id_replacements,
          st.et_cetera_arg, st.et_cetera_index⟩ typ typ' st3 h1
        obtain ⟨hf2, hl2, hs2⟩ := ihOE st3 value value' st4 h2
        have hfI : Frame st ⟨st.counter + 1, st.invocationSpan,
            st.replacements, (id, st.counter) :: st.id_replacements,
            st.et_cetera_arg, st.et_cetera_index⟩ :=
          ⟨Nat.le_succ _, rfl, rfl, rfl⟩
        have hf03 : Frame st st3 := frame_trans hfI hf1
        refine ⟨frame_trans hf03 hf2, ?_, ?_⟩
        · intro i hi
          simp only [letIdsS, letIdsSK] at hi
          rcases List.mem_cons.mp hi with rfl | hi
          · refine Or.inr (Or.inr (Or.inr ⟨Nat.le_refl _, ?_⟩))
            show st.counter < st4.counter
            have hA : st.counter + 1 ≤ st3.counter := hf1.1
            have hB : st3.counter ≤ st4.counter := hf2.1
            omega
          rcases List.mem_append.mp hi with hi | hi
          · exact letsOk_mono hl1
              (show stateExprsOf _ = stateExprsOf st from rfl)
              (fun j hj => by
                simp [letIdsS, letIdsSK, List.mem_cons, List.mem_append,
                  hj])
              (Nat.le_succ _) hf2.1 i hi
          · exact letsOk_mono hl2 (stateExprs_eq_of_frame hf03)
              (fun j hj => by
                simp [letIdsS, letIdsSK, List.mem_cons, List.mem_append,
                  hj])
              hf03.1 (Nat.le_refl _) i hi
        · intro sp hsp
          simp only [spansS, spansSK] at hsp
          rcases List.mem_cons.mp hsp with rfl | hsp
          · exact Or.inl rfl
          rcases List.mem_append.mp hsp with hsp | hsp
          · exact spansOk_mono hs1
              (show stateExprsOf _ = stateExprsOf st from rfl)
              (show ExpState.invocationSpan _ = st.invocationSpan
                from rfl)
              (fun q hq => by simp [leakS, List.mem_append, hq]) sp hsp
          · exact spansOk_mono hs2 (stateExprs_eq_of_frame hf03)
              hf03.2.1
              (fun q hq => by simp [leakS, List.mem_append, hq]) sp hsp
    · -- visitTyp
      intro st t r st' h
      cases t with
      | placeholder p =>
        simp only [visitTyp, Except.ok.injEq, Prod.mk.injEq] at h
        obtain ⟨rfl, rfl⟩ := h
        exact ⟨frame_refl st, fun i hi => Or.inr (Or.inl hi),
          fun sp hsp => by simp [spansT] at hsp⟩
      | item i =>
        simp only [visitTyp, Except.ok.injEq, Prod.mk.injEq] at h
        obtain ⟨rfl, rfl⟩ := h
        exact ⟨frame_refl st, fun i hi => Or.inr (Or.inl hi),
          fun sp hsp => by simp [spansT] at hsp⟩
      | builtin b =>
        simp only [visitTyp, Except.ok.injEq, Prod.mk.injEq] at h
        obtain ⟨rfl, rfl⟩ := h
        exact ⟨frame_refl st, fun i hi => Or.inr (Or.inl hi),
          fun sp hsp => by simp [spansT] at hsp⟩
      | pointer inner a =>
        simp only [visitTyp, exceptBind_ok, Except.ok.injEq,
          Prod.mk.injEq] at h
        obtain ⟨⟨i, st1⟩, h1, ⟨rfl, rfl⟩⟩ := h
        obtain ⟨hf1, hl1, hs1⟩ := ihT st inner i st1 h1
        refine ⟨hf1, ?_, ?_⟩
        · simp only [letIdsT]; exact hl1
        · simp only [spansT, leakT]; exact hs1
      | slice inner a =>
        simp only [visitTyp, exceptBind_ok, Except.ok.injEq,
          Prod.mk.injEq] at h
        obtain ⟨⟨i, st1⟩, h1, ⟨rfl, rfl⟩⟩ := h
        obtain ⟨hf1, hl1, hs1⟩ := ihT st inner i st1 h1
        refine ⟨hf1, ?_, ?_⟩
        · simp only [letIdsT]; exact hl1
        · simp only [spansT, leakT]; exact hs1
      | dyn protos a =>
        simp only [visitTyp, exceptBind_ok, Except.ok.injEq,
          Prod.mk.injEq] at h
        obtain ⟨⟨ps, st1⟩, h1, ⟨rfl, rfl⟩⟩ := h
        obtain ⟨hf1, hl1, hs1⟩ := ihTL st protos ps st1 h1
        refine ⟨hf1, ?_, ?_⟩
        · simp only [letIdsT]; exact hl1
        · simp only [spansT, leakT]; exact hs1
      | typeOf e =>
        simp only [visitTyp, exceptBind_ok, Except.ok.injEq,
          Prod.mk.injEq] at h
        obtain ⟨⟨e', st1⟩, h1, ⟨rfl, rfl⟩⟩ := h
        obtain ⟨hf1, hl1, hs1⟩ := ihE st e e' st1 h1
        refine ⟨hf1, ?_, ?_⟩
        · simp only [letIdsT]; exact hl1
        · simp only [spansT, leakT]; exact hs1
      | array inner len =>
        simp only [visitTyp, exceptBind_ok, Except.ok.injEq,
          Prod.mk.injEq] at h
        obtain ⟨⟨i, st1⟩, h1, ⟨l, st2⟩, h2, ⟨rfl, rfl⟩⟩ := h
        obtain ⟨hf1, hl1, hs1⟩ := ihT st inner i st1 h1
        obtain ⟨hf2, hl2, hs2⟩ := ihE st1 len l st2 h2
        refine ⟨frame_trans hf1 hf2, ?_, ?_⟩
        · simp only [letIdsT]
          refine letsOk_append ?_ ?_
          · exact letsOk_mono hl1 rfl
              (fun j hj => by simp [letIdsT, List.mem_append, hj])
              (Nat.le_refl _) hf2.1
          · exact letsOk_mono hl2 (stateExprs_eq_of_frame hf1)
              (fun j hj => by simp [letIdsT, List.mem_append, hj])
              hf1.1 (Nat.le_refl _)
        · simp only [spansT]
          refine spansOk_append ?_ ?_
          · exact spansOk_mono hs1 rfl rfl
              (fun q hq => by simp [leakT, List.mem_append, hq])
          · exact spansOk_mono hs2 (stateExprs_eq_of_frame hf1) hf1.2.1
              (fun q hq => by simp [leakT, List.mem_append, hq])
      | tuple elems =>
        simp only [visitTyp, exceptBind_ok, Except.ok.injEq,
          Prod.mk.injEq] at h
        obtain ⟨⟨es, st1⟩, h1, ⟨rfl, rfl⟩⟩ := h
        obtain ⟨hf1, hl1, hs1⟩ := ihTL st elems es st1 h1
        refine ⟨hf1, ?_, ?_⟩
        · simp only [letIdsT]; exact hl1
        · simp only [spansT, leakT]; exact hs1
      | whenTy cond a b =>
        simp only [visitTyp, exceptBind_ok, Except.ok.injEq,
          Prod.mk.injEq] at h
        obtain ⟨⟨c, st1⟩, h1, ⟨a', st2⟩, h2, ⟨b', st3⟩, h3,
          ⟨rfl, rfl⟩⟩ := h
        obtain ⟨hf1, hl1, hs1⟩ := ihE st cond c st1 h1
        obtain ⟨hf2, hl2, hs2⟩ := ihT st1 a a' st2 h2
        obtain ⟨hf3, hl3, hs3⟩ := ihT st2 b b' st3 h3
        have hf12 : Frame st st2 := frame_trans hf1 hf2
        refine ⟨frame_trans hf12 hf3, ?_, ?_⟩
        · simp only [letIdsT]
          refine letsOk_append (letsOk_append ?_ ?_) ?_
          · exact letsOk_mono hl1 rfl
              (fun j hj => by simp [letIdsT, List.mem_append, hj])
              (Nat.le_refl _) (frame_trans hf2 hf3).1
          · exact letsOk_mono hl2 (stateExprs_eq_of_frame hf1)
              (fun j hj => by simp [letIdsT, List.mem_append, hj])
              hf1.1 hf3.1
          · exact letsOk_mono hl3 (stateExprs_eq_of_frame hf12)
              (fun j hj => by simp [letIdsT, List.mem_append, hj])
              hf12.1 (Nat.le_refl _)
        · simp only [spansT]
          refine spansOk_append (spansOk_append ?_ ?_) ?_
          · exact spansOk_mono hs1 rfl rfl
              (fun q hq => by simp [leakT, List.mem_append, hq])
          · exact spansOk_mono hs2 (stateExprs_eq_of_frame hf1) hf1.2.1
              (fun q hq => by simp [leakT, List.mem_append, hq])
          · exact spansOk_mono hs3 (stateExprs_eq_of_frame hf12)
              hf12.2.1
              (fun q hq => by simp [leakT, List.mem_append, hq])
      | functionPointer args ret =>
        simp only [visitTyp, exceptBind_ok, Except.ok.injEq,
          Prod.mk.injEq] at h
        obtain ⟨⟨as', st1⟩, h1, ⟨rfl, rfl⟩⟩ := h
        obtain ⟨hf1, hl1, hs1⟩ := ihTL st args as' st1 h1
        refine ⟨hf1, ?_, ?_⟩
        · intro i hi
          simp only [letIdsT] at hi
          rcases List.mem_append.mp hi with hi | hi
          · exact letsOk_mono hl1 rfl
              (fun j hj => by simp [letIdsT, List.mem_append, hj])
              (Nat.le_refl _) (Nat.le_refl _) i hi
          · exact Or.inr (Or.inl (by simp [letIdsT, List.mem_append, hi]))
        · intro sp hsp
          simp only [spansT] at hsp
          rcases List.mem_append.mp hsp with hsp | hsp
          · exact spansOk_mono hs1 rfl rfl
              (fun q hq => by simp [leakT, List.mem_append, hq]) sp hsp
          · exact Or.inr (Or.inr (Or.inl
              (by simp [leakT, List.mem_append, hsp])))
      | functionProtocol args ret =>
        simp only [visitTyp, exceptBind_ok, Except.ok.injEq,
          Prod.mk.injEq] at h
        obtain ⟨⟨as', st1⟩, h1, ⟨rfl, rfl⟩⟩ := h
        obtain ⟨hf1, hl1, hs1⟩ := ihTL st args as' st1 h1
        refine ⟨hf1, ?_, ?_⟩
        · intro i hi
          simp only [letIdsT] at hi
          rcases List.mem_append.mp hi with hi | hi
          · exact letsOk_mono hl1 rfl
              (fun j hj => by simp [letIdsT, List.mem_append, hj])
              (Nat.le_refl _) (Nat.le_refl _) i hi
          · exact Or.inr (Or.inl (by simp [letIdsT, List.mem_append, hi]))
        · intro sp hsp
          simp only [spansT] at hsp
          rcases List.mem_append.mp hsp with hsp | hsp
          · exact spansOk_mono hs1 rfl rfl
              (fun q hq => by simp [leakT, List.mem_append, hq]) sp hsp
          · exact Or.inr (Or.inr (Or.inl
              (by simp [leakT, List.mem_append, hsp])))
      | generic itemId args =>
        simp only [visitTyp, exceptBind_ok, Except.ok.injEq,
          Prod.mk.injEq] at h
        obtain ⟨⟨as', st1⟩, h1, ⟨rfl, rfl⟩⟩ := h
        obtain ⟨hf1, hl1, hs1⟩ := ihTL st args as' st1 h1
        refine ⟨hf1, ?_, ?_⟩
        · simp only [letIdsT]; exact hl1
        · simp only [spansT, leakT]; exact hs1
      | defered typ name =>
        simp only [visitTyp, exceptBind_ok, Except.ok.injEq,
          Prod.mk.injEq] at h
        obtain ⟨⟨t', st1⟩, h1, ⟨rfl, rfl⟩⟩ := h
        obtain ⟨hf1, hl1, hs1⟩ := ihT st typ t' st1 h1
        refine ⟨hf1, ?_, ?_⟩
        · simp only [letIdsT]; exact hl1
        · simp only [spansT, leakT]; exact hs1
    · -- visitTypList
      intro st l r st' h
      cases l with
      | nil =>
        simp only [visitTypList, Except.ok.injEq, Prod.mk.injEq] at h
        obtain ⟨rfl, rfl⟩ := h
        exact ⟨frame_refl st, letsOk_nil, spansOk_nil⟩
      | cons t rest =>
        simp only [visitTypList, exceptBind_ok, Except.ok.injEq,
          Prod.mk.injEq] at h
        obtain ⟨⟨t', st1⟩, h1, ⟨rest', st2⟩, h2, ⟨rfl, rfl⟩⟩ := h
        obtain ⟨hf1, hl1, hs1⟩ := ihT st t t' st1 h1
        obtain ⟨hf2, hl2, hs2⟩ := ihTL st1 rest rest' st2 h2
        refine ⟨frame_trans hf1 hf2, ?_, ?_⟩
        · simp only [letIdsTL]
          refine letsOk_append ?_ ?_
          · exact letsOk_mono hl1 rfl
              (fun i hi => by simp [letIdsTL, List.mem_append, hi])
              (Nat.le_refl _) hf2.1
          · exact letsOk_mono hl2 (stateExprs_eq_of_frame hf1)
              (fun i hi => by simp [letIdsTL, List.mem_append, hi])
              hf1.1 (Nat.le_refl _)
        · simp only [spansTL]
          refine spansOk_append ?_ ?_
          · exact spansOk_mono hs1 rfl rfl
              (fun sp hsp => by simp [leakTL, List.mem_append, hsp])
          · exact spansOk_mono hs2 (stateExprs_eq_of_frame hf1) hf1.2.1
              (fun sp hsp => by simp [leakTL, List.mem_append, hsp])
    · -- visitOptTyp
      intro st o r st' h
      cases o with
      | none =>
        simp only [visitOptTyp, Except.ok.injEq, Prod.mk.injEq] at h
        obtain ⟨rfl, rfl⟩ := h
        exact ⟨frame_refl st, letsOk_nil, spansOk_nil⟩
      | some t =>
        simp only [visitOptTyp, exceptBind_ok, Except.ok.injEq,
          Prod.mk.injEq] at h
        obtain ⟨⟨t', st1⟩, h1, ⟨rfl, rfl⟩⟩ := h
        exact ihT st t t' st1 h1
    · -- visitOptExpr
      intro st o r st' h
      cases o with
      | none =>
        simp only [visitOptExpr, Except.ok.injEq, Prod.mk.injEq] at h
        obtain ⟨rfl, rfl⟩ := h
        exact ⟨frame_refl st, letsOk_nil, spansOk_nil⟩
      | some e =>
        simp only [visitOptExpr, exceptBind_ok, Except.ok.injEq,
          Prod.mk.injEq] at h
        obtain ⟨⟨e', st1⟩, h1, ⟨rfl, rfl⟩⟩ := h
        exact ihE st e e' st1 h1
    · -- visitOptTypList
      intro st o r st' h
      cases o with
      | none =>
        simp only [visitOptTypList, Except.ok.injEq, Prod.mk.injEq] at h
        obtain ⟨rfl, rfl⟩ := h
        exact ⟨frame_refl st, letsOk_nil, spansOk_nil⟩
      | some l =>
        simp only [visitOptTypList, exceptBind_ok, Except.ok.injEq,
          Prod.mk.injEq] at h
        obtain ⟨⟨l', st1⟩, h1, ⟨rfl, rfl⟩⟩ := h
        exact ihTL st l l' st1 h1
    · -- visitFieldInits
      intro st l r st' h
      cases l with
      | nil =>
        simp only [visitFieldInits, Except.ok.injEq, Prod.mk.injEq] at h
        obtain ⟨rfl, rfl⟩ := h
        exact ⟨frame_refl st, letsOk_nil, spansOk_nil⟩
      | cons fi rest =>
        obtain ⟨name, value, spF⟩ := fi
        simp only [visitFieldInits, exceptBind_ok, Except.ok.injEq,
          Prod.mk.injEq] at h
        obtain ⟨⟨v', st1⟩, h1, ⟨rest', st2⟩, h2, ⟨rfl, rfl⟩⟩ := h
        obtain ⟨hf1, hl1, hs1⟩ := ihE st value v' st1 h1
        obtain ⟨hf2, hl2, hs2⟩ := ihFI st1 rest rest' st2 h2
        refine ⟨frame_trans hf1 hf2, ?_, ?_⟩
        · simp only [letIdsFI]
          refine letsOk_append ?_ ?_
          · exact letsOk_mono hl1 rfl
              (fun i hi => by simp [letIdsFI, List.mem_append, hi])
              (Nat.le_refl _) hf2.1
          · exact letsOk_mono hl2 (stateExprs_eq_of_frame hf1)
              (fun i hi => by simp [letIdsFI, List.mem_append, hi])
              hf1.1 (Nat.le_refl _)
        · simp only [spansFI]
          intro sp hsp
          rcases List.mem_cons.mp hsp with rfl | hsp
          · exact Or.inl rfl
          rcases List.mem_append.mp hsp with hsp | hsp
          · exact spansOk_mono hs1 rfl rfl
              (fun q hq => by simp [leakFI, List.mem_append, hq]) sp hsp
          · exact spansOk_mono hs2 (stateExprs_eq_of_frame hf1) hf1.2.1
              (fun q hq => by simp [leakFI, List.mem_append, hq]) sp hsp
    · -- expandArgs
      intro st l r st' h
      cases l with
      | nil =>
        simp only [expandArgs, Except.ok.injEq, Prod.mk.injEq] at h
        obtain ⟨rfl, rfl⟩ := h
        exact ⟨frame_refl st, letsOk_nil, spansOk_nil⟩
      | cons arg rest =>
        simp only [expandArgs] at h
        split at h
        · rename_i inner spA
          split at h
          · exact Except.noConfusion h
          split at h
          · exact Except.noConfusion h
          rename_i p etcList heq
          simp only [exceptBind_ok, Except.ok.injEq, Prod.mk.injEq] at h
          obtain ⟨⟨copies, stL⟩, h1, ⟨rest', st3⟩, h2, ⟨rfl, rfl⟩⟩ := h
          obtain ⟨hfSp, hlSp, hsSp⟩ :=
            ihSp st inner 0 etcList.length copies stL h1
          have hfM : Frame stL { stL with et_cetera_index := none } :=
            ⟨Nat.le_refl _, rfl, rfl, rfl⟩
          obtain ⟨hfA, hlA, hsA⟩ := ihA _ rest rest' st3 h2
          have hf0M : Frame st { stL with et_cetera_index := none } :=
            frame_trans hfSp hfM
          refine ⟨frame_trans hf0M hfA, ?_, ?_⟩
          · rw [letIdsL_append]
            refine letsOk_append ?_ ?_
            · exact letsOk_mono hlSp rfl
                (fun i hi => by
                  simp [letIdsL, letIdsE, letIdsK, List.mem_append, hi])
                (Nat.le_refl _) (frame_trans hfM hfA).1
            · exact letsOk_mono hlA (stateExprs_eq_of_frame hf0M)
                (fun i hi => by simp [letIdsL, List.mem_append, hi])
                hf0M.1 (Nat.le_refl _)
          · rw [spansL_append]
            refine spansOk_append ?_ ?_
            · exact spansOk_mono hsSp rfl rfl
                (fun q hq => by
                  simp [leakL, leakE, List.mem_append, List.mem_cons, hq])
            · exact spansOk_mono hsA (stateExprs_eq_of_frame hf0M)
                hf0M.2.1
                (fun q hq => by simp [leakL, List.mem_append, hq])
        · rename_i hne
          simp only [exceptBind_ok, Except.ok.injEq, Prod.mk.injEq] at h
          obtain ⟨⟨a', st1⟩, h1, ⟨rest', st2⟩, h2, ⟨rfl, rfl⟩⟩ := h
          obtain ⟨hf1, hl1, hs1⟩ := ihE st arg a' st1 h1
          obtain ⟨hf2, hl2, hs2⟩ := ihA st1 rest rest' st2 h2
          refine ⟨frame_trans hf1 hf2, ?_, ?_⟩
          · simp only [letIdsL]
            refine letsOk_append ?_ ?_
            · exact letsOk_mono hl1 rfl
                (fun i hi => by simp [letIdsL, List.mem_append, hi])
                (Nat.le_refl _) hf2.1
            · exact letsOk_mono hl2 (stateExprs_eq_of_frame hf1)
                (fun i hi => by simp [letIdsL, List.mem_append, hi])
                hf1.1 (Nat.le_refl _)
          · simp only [spansL]
            refine spansOk_append ?_ ?_
            · exact spansOk_mono hs1 rfl rfl
                (fun q hq => by simp [leakL, List.mem_append, hq])
            · exact spansOk_mono hs2 (stateExprs_eq_of_frame hf1) hf1.2.1
                (fun q hq => by simp [leakL, List.mem_append, hq])
    · -- spliceLoop
      intro st inner idx n r st' h
      cases n with
      | zero =>
        simp only [spliceLoop, Except.ok.injEq, Prod.mk.injEq] at h
        obtain ⟨rfl, rfl⟩ := h
        exact ⟨frame_refl st, letsOk_nil, spansOk_nil⟩
      | succ m =>
        simp only [spliceLoop, exceptBind_ok, Except.ok.injEq,
          Prod.mk.injEq] at h
        obtain ⟨⟨e', st1⟩, h1, ⟨rest, st2⟩, h2, ⟨rfl, rfl⟩⟩ := h
        have hfI : Frame st { st with et_cetera_index := some idx } :=
          ⟨Nat.le_refl _, rfl, rfl, rfl⟩
        obtain ⟨hf1, hl1, hs1⟩ := ihE _ inner e' st1 h1
        obtain ⟨hf2, hl2, hs2⟩ := ihSp st1 inner (idx + 1) m rest st2 h2
        have hf01 : Frame st st1 := frame_trans hfI hf1
        refine ⟨frame_trans hf01 hf2, ?_, ?_⟩
        · simp only [letIdsL]
          refine letsOk_append ?_ ?_
          · exact letsOk_mono hl1 rfl (fun i hi => hi)
              (Nat.le_refl _) hf2.1
          · exact letsOk_mono hl2 (stateExprs_eq_of_frame hf01)
              (fun i hi => hi) hf01.1 (Nat.le_refl _)
        · simp only [spansL]
          refine spansOk_append ?_ ?_
          · exact spansOk_mono hs1 rfl rfl (fun q hq => hq)
          · exact spansOk_mono hs2 (stateExprs_eq_of_frame hf01)
              hf01.2.1 (fun q hq => hq)
    · -- expandBlockStmts
      intro st l r st' h
      cases l with
      | nil =>
        simp only [expandBlockStmts, Except.ok.injEq, Prod.mk.injEq] at h
        obtain ⟨rfl, rfl⟩ := h
        exact ⟨frame_refl st, letsOk_nil, spansOk_nil⟩
      | cons stmt rest =>
        simp only [expandBlockStmts] at h
        split at h
        · rename_i inner sp2 spS
          split at h
          · exact Except.noConfusion h
          split at h
          · exact Except.noConfusion h
          rename_i p etcList heq
          simp only [exceptBind_ok, Except.ok.injEq, Prod.mk.injEq] at h
          obtain ⟨⟨copies, stL⟩, h1, ⟨rest', st3⟩, h2, ⟨rfl, rfl⟩⟩ := h
          obtain ⟨hfSp, hlSp, hsSp⟩ :=
            ihSp st inner 0 etcList.length copies stL h1
          have hfM : Frame stL { stL with et_cetera_index := none } :=
            ⟨Nat.le_refl _, rfl, rfl, rfl⟩
          obtain ⟨hfA, hlA, hsA⟩ := ihBS _ rest rest' st3 h2
          have hf0M : Frame st { stL with et_cetera_index := none } :=
            frame_trans hfSp hfM
          refine ⟨frame_trans hf0M hfA, ?_, ?_⟩
          · rw [letIdsSL_append, letIdsSL_mapExpr]
            refine letsOk_append ?_ ?_
            · exact letsOk_mono hlSp rfl
                (fun i hi => by
                  simp [letIdsSL, letIdsS, letIdsSK, letIdsE, letIdsK,
                    List.mem_append, hi])
                (Nat.le_refl _) (frame_trans hfM hfA).1
            · exact letsOk_mono hlA (stateExprs_eq_of_frame hf0M)
                (fun i hi => by simp [letIdsSL, List.mem_append, hi])
                hf0M.1 (Nat.le_refl _)
          · rw [spansSL_append]
            refine spansOk_append ?_ ?_
            · intro sp hsp
              rcases spansSL_mapExpr copies sp2 sp hsp with rfl | hsp
              · refine Or.inr (Or.inr (Or.inl ?_))
                simp [leakSL, leakS, leakE, List.mem_append,
                  List.mem_cons]
              · exact spansOk_mono hsSp rfl rfl
                  (fun q hq => by
                    simp [leakSL, leakS, leakE, List.mem_append,
                      List.mem_cons, hq]) sp hsp
            · exact spansOk_mono hsA (stateExprs_eq_of_frame hf0M)
                hf0M.2.1
                (fun q hq => by simp [leakSL, List.mem_append, hq])
        · rename_i hne
          simp only [exceptBind_ok, Except.ok.injEq, Prod.mk.injEq] at h
          obtain ⟨⟨s', st1⟩, h1, ⟨rest', st2⟩, h2, ⟨rfl, rfl⟩⟩ := h
          obtain ⟨hf1, hl1, hs1⟩ := ihS st stmt s' st1 h1
          obtain ⟨hf2, hl2, hs2⟩ := ihBS st1 rest rest' st2 h2
          refine ⟨frame_trans hf1 hf2, ?_, ?_⟩
          · simp only [letIdsSL]
            refine letsOk_append ?_ ?_
            · exact letsOk_mono hl1 rfl
                (fun i hi => by simp [letIdsSL, List.mem_append, hi])
                (Nat.le_refl _) hf2.1
            · exact letsOk_mono hl2 (stateExprs_eq_of_frame hf1)
                (fun i hi => by simp [letIdsSL, List.mem_append, hi])
                hf1.1 (Nat.le_refl _)
          · simp only [spansSL]
            refine spansOk_append ?_ ?_
            · exact spansOk_mono hs1 rfl rfl
                (fun q hq => by simp [leakSL, List.mem_append, hq])
            · exact spansOk_mono hs2 (stateExprs_eq_of_frame hf1)
                hf1.2.1
                (fun q hq => by simp [leakSL, List.mem_append, hq])

/-- C2: macro expansion is hygienic.  (1) α-renaming: `visit_stmt`
assigns every let declaration it encounters the next fresh id minted
from the AST context's counter — the output declaration's id is the
state's current counter value.  (2) Rewriting: a local reference that is
not a bound macro argument and not the et-cetera parameter is rewritten
through `id_replacements`; if the original id has been renamed, the
reference now points at the fresh id.  (3) Disjointness: for two
sequential expansions (the second starting at the counter the first
ended with), a let id occurring in both outputs must have been imported
verbatim from the call arguments or from a macro body; the freshly
minted id sets of distinct expansions are disjoint because they lie in
disjoint counter windows. -/
theorem c2_hygiene :
    (∀ (ctx : ExpandCtx) (fuel : Nat) (st : ExpState) (id : AstId)
      (typ : Option Ty) (value : Option Expr) (sp2 : Option Span)
      (r : Statement) (st' : ExpState),
      visitStmt ctx (fuel + 1) st
          (.mk (.letDeclaration (.mk id typ value)) sp2) = .ok (r, st') →
      ∃ typ' value',
        r = .mk (.letDeclaration (.mk st.counter typ' value'))
          st.invocationSpan) ∧
    (∀ (ctx : ExpandCtx) (fuel : Nat) (st : ExpState) (id newId : AstId)
      (sp : Option Span),
      st.replacements.lookup id = none →
      (∀ pid l, st.et_cetera_arg = some (pid, l) → pid ≠ id) →
      st.id_replacements.lookup id = some newId →
      visitExpr ctx (fuel + 1) st (.mk (.localVar id) sp) =
        .ok (.mk (.localVar newId) st.invocationSpan, st)) ∧
    (∀ (ctx : ExpandCtx) (fuel1 fuel2 m1 m2 : Nat)
      (args1 args2 : List Expr) (inv1 inv2 : Option Span)
      (c0 c1 c2 : Nat) (r1 r2 : Expr),
      expand ctx fuel1 m1 args1 inv1 c0 = .ok (r1, c1) →
      expand ctx fuel2 m2 args2 inv2 c1 = .ok (r2, c2) →
      ∀ i, i ∈ letIdsE r1 → i ∈ letIdsE r2 →
        (i ∈ letIdsL args1 ∨ CtxLets ctx i) ∨
        (i ∈ letIdsL args2 ∨ CtxLets ctx i)) := by
  refine ⟨?_, ?_, ?_⟩
  · intro ctx fuel st id typ value sp2 r st' h
    simp only [visitStmt, makeId, exceptBind_ok, Except.ok.injEq,
      Prod.mk.injEq] at h
    obtain ⟨⟨typ', st3⟩, h1, ⟨value', st4⟩, h2, ⟨rfl, rfl⟩⟩ := h
    exact ⟨typ', value', rfl⟩
  · intro ctx fuel st id newId sp hrepl hetc hid
    simp only [visitExpr, hrepl]
    cases hA : st.et_cetera_arg with
    | none => simp [hA, localFallback, hid]
    | some pl =>
      obtain ⟨pid, l⟩ := pl
      have hne : pid ≠ id := hetc pid l hA
      simp [hA, hne, localFallback, hid]
  · intro ctx fuel1 fuel2 m1 m2 args1 args2 inv1 inv2 c0 c1 c2 r1 r2
      h1 h2 i hi1 hi2
    rcases ((expansion_master ctx fuel1).1 m1 args1 inv1 c0 r1 c1
      h1).2.1 i hi1 with h | h | ⟨hA, hB⟩
    · exact Or.inl (Or.inl h)
    · exact Or.inl (Or.inr h)
    · rcases ((expansion_master ctx fuel2).1 m2 args2 inv2 c1 r2 c2
        h2).2.1 i hi2 with h | h | ⟨hC, hD⟩
      · exact Or.inr (Or.inl h)
      · exact Or.inr (Or.inr h)
      · omega

/-- C2 witness.  (1) Renaming: with the counter at 5, a let declaration
with written id 7 comes back with the fresh id 5 and the invocation
span.  (2) Rewriting: with `(7, 5)` recorded, a reference to 7 is
rewritten to 5.  (3) Disjointness: two sequential expansions of
`macro m($x) { $x }` called on a block that declares let id 42 share
that id — and indeed it comes from the (verbatim-substituted) argument,
not from either expansion's minted window. -/
theorem c2_hygiene_witness :
    (∃ typ' value',
      (Statement.mk (.letDeclaration (.mk 5 none none)) none :
          Statement) =
        .mk (.letDeclaration (.mk 5 typ' value')) none) ∧
    (visitExpr ⟨[], fun _ => none, fun _ => none, fun _ => none,
        fun _ => "", fun _ _ _ => .ok []⟩ 1
        ⟨6, none, [], [(7, 5)], none, none⟩ (.mk (.localVar 7) none) =
      .ok (.mk (.localVar 5) none,
        ⟨6, none, [], [(7, 5)], none, none⟩)) ∧
    (((42 : Nat) ∈ letIdsL [Expr.mk (.block
        [.mk (.letDeclaration (.mk 42 none none)) none]
        (.mk .void none)) none] ∨
      CtxLets ⟨[some (.user [⟨9, false, none⟩]
        (some (.mk (.localVar 9) none)))], fun _ => none, fun _ => none,
        fun _ => none, fun _ => "", fun _ _ _ => .ok []⟩ 42) ∨
     ((42 : Nat) ∈ letIdsL [Expr.mk (.block
        [.mk (.letDeclaration (.mk 42 none none)) none]
        (.mk .void none)) none] ∨
      CtxLets ⟨[some (.user [⟨9, false, none⟩]
        (some (.mk (.localVar 9) none)))], fun _ => none, fun _ => none,
        fun _ => none, fun _ => "", fun _ _ _ => .ok []⟩ 42)) := by
  refine ⟨?_, ?_, ?_⟩
  · exact c2_hygiene.1 ⟨[], fun _ => none, fun _ => none, fun _ => none,
      fun _ => "", fun _ _ _ => .ok []⟩ 1 ⟨5, none, [], [], none, none⟩
      7 none none (some ⟨1, 1, 1, 1⟩)
      (.mk (.letDeclaration (.mk 5 none none)) none)
      ⟨6, none, [], [(7, 5)], none, none⟩ rfl
  · exact c2_hygiene.2.1 ⟨[], fun _ => none, fun _ => none,
      fun _ => none, fun _ => "", fun _ _ _ => .ok []⟩ 0
      ⟨6, none, [], [(7, 5)], none, none⟩ 7 5 none rfl
      (fun pid l h => Option.noConfusion h) rfl
  · exact c2_hygiene.2.2 ⟨[some (.user [⟨9, false, none⟩]
      (some (.mk (.localVar 9) none)))], fun _ => none, fun _ => none,
      fun _ => none, fun _ => "", fun _ _ _ => .ok []⟩ 4 4 0 0
      [Expr.mk (.block [.mk (.letDeclaration (.mk 42 none none)) none]
        (.mk .void none)) none]
      [Expr.mk (.block [.mk (.letDeclaration (.mk 42 none none)) none]
        (.mk .void none)) none]
      none none 0 0 0
      (Expr.mk (.block [.mk (.letDeclaration (.mk 42 none none)) none]
        (.mk .void none)) none)
      (Expr.mk (.block [.mk (.letDeclaration (.mk 42 none none)) none]
        (.mk .void none)) none)
      rfl rfl 42 (by decide) (by decide)

/-- C3 counterexample: a statement node freshly produced by macro
expansion that does not carry the invocation span.  The macro
`macro m($a...) { { $a...; } }` is called with invocation span
(9,9,9,9); the `EtCetera` expression in its body has span (1,2,3,4);
the spliced statement in the output block is stamped with the body's
`EtCetera` span (1,2,3,4), not the invocation span (the splice in the
`Block` branch of `visit_expr` reuses `*span` of the body statement). -/
theorem c3_span_counterexample :
    expand ⟨[some (.user [⟨9, true, none⟩] (some (Expr.mk (.block
        [Statement.mk (.expression (.mk (.etCetera (.mk (.localVar 9)
          none)) (some ⟨1, 2, 3, 4⟩))) none] (.mk .void none)) none)))],
      fun _ => none, fun _ => none, fun _ => none, fun _ => "",
      fun _ _ _ => .ok []⟩ 6 0 [.mk (.lit .null) (some ⟨5, 6, 7, 8⟩)]
      (some ⟨9, 9, 9, 9⟩) 0 =
    .ok (.mk (.block [.mk (.expression (.mk (.lit .null)
        (some ⟨5, 6, 7, 8⟩))) (some ⟨1, 2, 3, 4⟩)]
      (.mk .void (some ⟨9, 9, 9, 9⟩))) (some ⟨9, 9, 9, 9⟩), 0) ∧
    (some (⟨1, 2, 3, 4⟩ : Span) : Option Span) ≠ some ⟨9, 9, 9, 9⟩ :=
  ⟨rfl, by decide⟩

/-- C3 (amended): span provenance of macro expansion.  Every span in an
expansion's output is the invocation span, a span of one of the
macro-call arguments (substituted argument nodes keep their own spans),
or a leakable span of a macro body: the span of an `EtCetera` expression
(the block-statement splice stamps the spliced statements with it), a
span inside a `macroRef` bound-argument payload, or a span inside a
function-pointer return type (all passed through verbatim).  Moreover
the statements produced by the block et-cetera splice carry exactly the
span of the `EtCetera` expression from the macro body. -/
theorem c3_span_propagation :
    (∀ (ctx : ExpandCtx) (fuel itemId : Nat) (args : List Expr)
      (invSpan : Option Span) (counter : Nat) (r : Expr)
      (counter' : Nat),
      expand ctx fuel itemId args invSpan counter = .ok (r, counter') →
      ∀ sp ∈ spansE r, sp = invSpan ∨ sp ∈ spansL args ∨
        CtxLeakSpans ctx sp) ∧
    (∀ (ctx : ExpandCtx) (fuel : Nat) (st : ExpState) (inner : Expr)
      (sp2 spS : Option Span) (pid : AstId) (etcList : List Expr)
      (rest r : List Statement) (st' : ExpState),
      st.et_cetera_index = none →
      st.et_cetera_arg = some (pid, etcList) →
      expandBlockStmts ctx (fuel + 1) st
          (.mk (.expression (.mk (.etCetera inner) sp2)) spS :: rest) =
        .ok (r, st') →
      ∃ (copies : List Expr) (rest' : List Statement), r =
        copies.map (fun e => Statement.mk (.expression e) sp2) ++
          rest') := by
  constructor
  · intro ctx fuel itemId args invSpan counter r counter' h
    exact ((expansion_master ctx fuel).1 itemId args invSpan counter r
      counter' h).2.2
  · intro ctx fuel st inner sp2 spS pid etcList rest r st' hidx hetc h
    simp only [expandBlockStmts, hidx, hetc, Option.isSome_none,
      Bool.false_eq_true, if_false, exceptBind_ok, Except.ok.injEq,
      Prod.mk.injEq] at h
    obtain ⟨⟨copies, stL⟩, h1, ⟨rest', st3⟩, h2, ⟨heq, rfl⟩⟩ := h
    exact ⟨copies, rest', heq.symm⟩

/-- C3 witness: the counterexample expansion instantiates the amended
theorem.  The spliced statement's span (1,2,3,4) is accounted for as a
leakable macro-body span (third disjunct), and the splice on a concrete
state produces statements stamped with the body's `EtCetera` span. -/
theorem c3_span_propagation_witness :
    ((some (⟨1, 2, 3, 4⟩ : Span) : Option Span) = some ⟨9, 9, 9, 9⟩ ∨
      (some (⟨1, 2, 3, 4⟩ : Span) : Option Span) ∈
        spansL [Expr.mk (.lit .null) (some ⟨5, 6, 7, 8⟩)] ∨
      CtxLeakSpans ⟨[some (.user [⟨9, true, none⟩] (some (Expr.mk
          (.block [Statement.mk (.expression (.mk (.etCetera
            (.mk (.localVar 9) none)) (some ⟨1, 2, 3, 4⟩))) none]
          (.mk .void none)) none)))], fun _ => none, fun _ => none,
        fun _ => none, fun _ => "", fun _ _ _ => .ok []⟩
        (some ⟨1, 2, 3, 4⟩)) ∧
    (∃ (copies : List Expr) (rest' : List Statement),
      ([Statement.mk (.expression (.mk (.lit .null)
          (some ⟨5, 6, 7, 8⟩))) (some ⟨1, 2, 3, 4⟩)] :
          List Statement) =
        copies.map (fun e => Statement.mk (.expression e)
          (some ⟨1, 2, 3, 4⟩)) ++ rest') := by
  constructor
  · exact c3_span_propagation.1 ⟨[some (.user [⟨9, true, none⟩]
      (some (Expr.mk (.block [Statement.mk (.expression (.mk (.etCetera
        (.mk (.localVar 9) none)) (some ⟨1, 2, 3, 4⟩))) none]
      (.mk .void none)) none)))], fun _ => none, fun _ => none,
      fun _ => none, fun _ => "", fun _ _ _ => .ok []⟩ 6 0
      [.mk (.lit .null) (some ⟨5, 6, 7, 8⟩)] (some ⟨9, 9, 9, 9⟩) 0
      (.mk (.block [.mk (.expression (.mk (.lit .null)
        (some ⟨5, 6, 7, 8⟩))) (some ⟨1, 2, 3, 4⟩)]
        (.mk .void (some ⟨9, 9, 9, 9⟩))) (some ⟨9, 9, 9, 9⟩)) 0 rfl
      (some ⟨1, 2, 3, 4⟩) (by decide)
  · exact c3_span_propagation.2 ⟨[], fun _ => none, fun _ => none,
      fun _ => none, fun _ => "", fun _ _ _ => .ok []⟩ 2
      ⟨0, some ⟨9, 9, 9, 9⟩, [], [],
        some (9, [Expr.mk (.lit .null) (some ⟨5, 6, 7, 8⟩)]), none⟩
      (.mk (.localVar 9) none) (some ⟨1, 2, 3, 4⟩) none 9
      [Expr.mk (.lit .null) (some ⟨5, 6, 7, 8⟩)] []
      [Statement.mk (.expression (.mk (.lit .null)
        (some ⟨5, 6, 7, 8⟩))) (some ⟨1, 2, 3, 4⟩)]
      ⟨0, some ⟨9, 9, 9, 9⟩, [], [],
        some (9, [Expr.mk (.lit .null) (some ⟨5, 6, 7, 8⟩)]), none⟩
      rfl rfl rfl

/-- C10 witness: concrete zero-argument and one-argument invocations. -/
theorem c10_includeBytes_witness :
    expandBuiltin ⟨[], fun _ => none, fun _ => none, fun _ => none,
        fun _ => "", fun _ _ _ => .ok []⟩ 1 .includeBytes [] none 0 =
      .error .panic ∧
    expandBuiltin ⟨[], fun _ => none, fun _ => none, fun _ => none,
        fun _ => "", fun _ _ _ => .ok []⟩ 1 .includeBytes
        [Expr.mk .void none] none 0 =
      .error (.codeError .constantStringExpected none) := by
  constructor
  · exact (c10_includeBytes ⟨[], fun _ => none, fun _ => none,
      fun _ => none, fun _ => "", fun _ _ _ => .ok []⟩ 0 none 0).1
  · exact (c10_includeBytes ⟨[], fun _ => none, fun _ => none,
      fun _ => none, fun _ => "", fun _ _ _ => .ok []⟩ 0 none 0).2.1
      (Expr.mk .void none) [] (fun s h => ExprKind.noConfusion h)

end Ast

end Alumina
